import Mathlib

/-!
Verification development for the OCR-to-genealogy entity-resolution engine
(`backend/app/core/models.py` and `backend/app/core/parser.py`).

The code is shallowly embedded: the SQL tables become in-memory lists of
records carried through the operations in insertion (rowid) order, with
`first()` modelled as `List.find?` and `session.add`/`flush` modelled as an
in-place update / append with the next auto-increment id.  SHA1 line keys
are modelled by the (injective) tuples they hash.  The third-party
`jellyfish.metaphone` phonetic code is an opaque parameter `mp` of every
definition that needs it: all theorems hold for every choice of `mp`.
Machine integers do not overflow in any of the modelled code paths
(generation numbers, years and ids are small), so `Nat`/`Int` are used
directly.
-/

namespace Genealogy

/-! ## Python string primitives (ASCII scope, as exercised by the engine) -/

/-- Python `\s` / `str.strip()` whitespace class. -/
def py_ws (c : Char) : Bool :=
  c == ' ' || c == '\t' || c == '\n' || c == '\x0d' || c == '\x0b' || c == '\x0c'

/-- Python regex `\w` (ASCII scope). -/
def is_word_char (c : Char) : Bool :=
  c.isAlphanum || c == '_'

/-- Strip characters satisfying `p` from both ends (Python `str.strip`). -/
def strip_both (p : Char → Bool) (l : List Char) : List Char :=
  ((l.dropWhile p).reverse.dropWhile p).reverse

/-- `str.strip` on strings. -/
def py_strip (p : Char → Bool) (s : String) : String :=
  String.mk (strip_both p s.toList)

/-- Truthiness of an optional Python string (`None` and `""` are falsy). -/
def truthy : Option String → Bool
  | none => false
  | some s => s ≠ ""

/-- Python `x or y` for `x : Optional[str]`, `y : str`. -/
def or_else_str : Option String → String → String
  | none, d => d
  | some s, d => if s = "" then d else s

/-! ## `models.py`: record types and tables -/

/-- Stand-in for the SHA1 line fingerprint of
`_make_line_key(source_id, page_index, line_index, raw_line)`; the hash is
modelled by the (injective) tuple of hashed components. -/
structure LineKey where
  source_id : Nat
  page_index : Nat
  line_index : Nat
  content : String
deriving DecidableEq, Repr

/-- Stand-in for the SHA1 fingerprint of `_family_line_key`. -/
structure FamKey where
  source_id : Nat
  page_index : Nat
  line_index : Nat
  principal_id : Nat
  spouse_id : Nat
deriving DecidableEq, Repr

/-- Stand-in for the SHA1 fingerprint of `_child_link_key`. -/
structure ChildKey where
  source_id : Nat
  page_index : Nat
  line_index : Nat
  child_id : Nat
  family_id : Nat
deriving DecidableEq, Repr

/-- A row of the `person` table (the columns read or written by the engine;
`chart_id` is never touched by the parser/models code and is omitted). -/
structure PersonR where
  id : Nat
  gen : Int
  name : String
  given : Option String
  surname : Option String
  birth : Option String
  death : Option String
  sex : Option String
  title : Option String
  notes : Option String
  line_key : Option LineKey
  approx : Option Bool
  source_id : Option Nat
  page_index : Option Nat
  line_index : Option Nat
  normalized_given : Option String
  normalized_surname : Option String
  birth_year : Option Nat
deriving DecidableEq, Repr

/-- A row of the `family` table. -/
structure FamilyR where
  id : Nat
  husband_id : Option Nat
  wife_id : Option Nat
  notes : Option String
  line_key : Option FamKey
  approx : Option Bool
  page_index : Option Nat
  source_id : Option Nat
  is_single_parent : Bool
deriving DecidableEq, Repr

/-- A row of the `child` table. -/
structure ChildR where
  id : Nat
  family_id : Nat
  person_id : Nat
  order_index : Nat
  line_key : Option ChildKey
  approx : Option Bool
  page_index : Option Nat
deriving DecidableEq, Repr

/-- The `person` table with its auto-increment counter (SQLite rowids start
at 1, so a flushed row always has a truthy id). -/
structure PersonTable where
  persons : List PersonR
  next_person_id : Nat
deriving DecidableEq, Repr

/-- The `family` and `child` tables.  Pass 2 of the parser only reads the
person table, so it is kept separate (see `build_relationships_pass2`). -/
structure FamTable where
  families : List FamilyR
  children : List ChildR
  next_family_id : Nat
  next_child_id : Nat
deriving DecidableEq, Repr

def empty_pt : PersonTable := ⟨[], 1⟩

def empty_ft : FamTable := ⟨[], [], 1, 1⟩

/-- `session.add` on an already-persisted person: the ORM object is aliased
in the table, modelled as replacement at its id. -/
def update_person (l : List PersonR) (pid : Nat) (q : PersonR) : List PersonR :=
  l.map (fun r => if r.id = pid then q else r)

def update_family (l : List FamilyR) (fid : Nat) (q : FamilyR) : List FamilyR :=
  l.map (fun r => if r.id = fid then q else r)

def update_child (l : List ChildR) (cid : Nat) (q : ChildR) : List ChildR :=
  l.map (fun r => if r.id = cid then q else r)

/-! ## `Person` classmethods -/

/-- `Person._normalize_name`: lowercase, keep alphabetic characters,
empty results become `None`. -/
def normalize_name : Option String → Option String
  | none => none
  | some v =>
    if v = "" then none
    else
      let token := String.mk ((v.toList.map Char.toLower).filter Char.isAlpha)
      if token = "" then none else some token

/-- Leftmost run of four consecutive digits (`re.search(r"(\d{4})", value)`). -/
def find_four_digits : List Char → Option Nat
  | c1 :: c2 :: c3 :: c4 :: rest =>
    if c1.isDigit && c2.isDigit && c3.isDigit && c4.isDigit then
      some (((c1.toNat - 48) * 10 + (c2.toNat - 48)) * 100 +
            ((c3.toNat - 48) * 10 + (c4.toNat - 48)))
    else find_four_digits (c2 :: c3 :: c4 :: rest)
  | _ => none

/-- `Person._extract_year`. -/
def extract_year : Option String → Option Nat
  | none => none
  | some v => if v = "" then none else find_four_digits v.toList

/-- Inner loop of `Person._levenshtein`: builds the row `curr` from `prev`.
Arguments: `prev[j-1]`, the rest of `prev` starting at `prev[j]`, the last
appended `curr[j-1]`, and the remaining characters of `b`. -/
def lev_row (ca : Char) : Nat → List Nat → Nat → List Char → List Nat
  | pj1, pj :: prest, last, cb :: bs =>
    let cost := if ca = cb then 0 else 1
    let v := min (min (last + 1) (pj + 1)) (pj1 + cost)
    v :: lev_row ca pj prest v bs
  | _, _, _, _ => []

/-- Outer loop of `Person._levenshtein`. -/
def lev_outer (b : List Char) : List Nat → Nat → List Char → List Nat
  | prev, _, [] => prev
  | prev, i, ca :: arest =>
    let curr := i :: lev_row ca (prev.headD 0) prev.tail i b
    lev_outer b curr (i + 1) arest

/-- `Person._levenshtein` (999 when either name is missing). -/
def levenshtein : Option String → Option String → Nat
  | none, _ => 999
  | some _, none => 999
  | some a, some b =>
    if a = b then 0
    else
      let la := a.length
      let lb := b.length
      if la = 0 then lb
      else if lb = 0 then la
      else (lev_outer b.toList (List.range (lb + 1)) 1 a.toList).getLastD 0

/-- `Person._phonetic_match`, parameterized by the third-party metaphone
code `mp` (`jellyfish.metaphone`). -/
def phonetic_match (mp : String → String) : Option String → Option String → Bool
  | some a, some b =>
    if a = "" || b = "" then false else mp a == mp b
  | _, _ => false

/-! ## `Person.upsert_from_parse` -/

/-- The vitals dict entries produced by `parser._build_vital`. -/
structure Vital where
  raw : String
  approx : Bool
  year : Option Nat
deriving DecidableEq, Repr

/-- The `vitals` argument dict (`{"birth": ..., "death": ...}`). -/
structure Vitals where
  birth : Option Vital
  death : Option Vital
deriving DecidableEq, Repr

/-- The keyword arguments of `Person.upsert_from_parse` (all default `None`).
The `vitals` values are dict-shaped as produced by the parser (the
`isinstance(..., str)` branches are not exercised by the engine). -/
structure UpsertArgs where
  given : Option String := none
  surname : Option String := none
  name : Option String := none
  gen : Option Int := none
  title : Option String := none
  notes : Option String := none
  vitals : Option Vitals := none
  line_key : Option LineKey := none
  approx : Option Bool := none
deriving DecidableEq, Repr

def upsert_birth_info (a : UpsertArgs) : Option Vital := a.vitals.bind (·.birth)

def upsert_death_info (a : UpsertArgs) : Option Vital := a.vitals.bind (·.death)

/-- `approx_flag` as accumulated over the birth and death dicts. -/
def upsert_approx_flag (a : UpsertArgs) : Bool :=
  (a.approx.getD false
    || (match upsert_birth_info a with | some b => b.approx | none => false))
    || (match upsert_death_info a with | some d => d.approx | none => false)

/-- `birth_year = birth_info.get("year") or cls._extract_year(birth_info.get("raw"))`
(Python `or` falls through on the falsy year 0). -/
def upsert_birth_year (a : UpsertArgs) : Option Nat :=
  match upsert_birth_info a with
  | some b =>
    (match b.year with
     | some y => if y = 0 then extract_year (some b.raw) else some y
     | none => extract_year (some b.raw))
  | none => none

/-- `birth_value = birth_info.get("raw") or birth_info.get("text") or None`
(the parser never populates a "text" key). -/
def upsert_birth_value (a : UpsertArgs) : Option String :=
  (upsert_birth_info a).bind (fun b => if b.raw = "" then none else some b.raw)

def upsert_death_value (a : UpsertArgs) : Option String :=
  (upsert_death_info a).bind (fun d => if d.raw = "" then none else some d.raw)

/-- The `line_key` lookup (`query.where(cls.line_key == line_key).first()`
guarded by `if line_key:`). -/
def find_by_line_key (persons : List PersonR) (src : Nat) :
    Option LineKey → Option PersonR
  | some k => persons.find? (fun c => c.source_id == some src && c.line_key == some k)
  | none => none

/-- The fuzzy candidate pool: same source, same normalized surname. -/
def fuzzy_candidates (persons : List PersonR) (src : Nat) (ns : String) :
    List PersonR :=
  persons.filter (fun c => c.source_id == some src && c.normalized_surname == some ns)

/-- One iteration of the fuzzy candidate loop: `continue` on a birth-year
difference above 2, accept on edit distance ≤ 2 or a phonetic match. -/
def candidate_ok (mp : String → String) (normalized_given given : Option String)
    (birth_year : Option Nat) (c : PersonR) : Bool :=
  (match birth_year, c.birth_year with
   | some y, some cy => decide (Int.natAbs ((y : Int) - (cy : Int)) ≤ 2)
   | _, _ => true)
  && (levenshtein normalized_given c.normalized_given ≤ 2
      || phonetic_match mp given c.given)

/-- The resolution phase of `Person.upsert_from_parse`: exact fingerprint
match first, then the fuzzy loop (first satisfying candidate wins). -/
def find_existing (mp : String → String) (persons : List PersonR) (src : Nat)
    (a : UpsertArgs) : Option PersonR :=
  match find_by_line_key persons src a.line_key with
  | some p => some p
  | none =>
    match normalize_name a.surname with
    | some ns =>
      (fuzzy_candidates persons src ns).find?
        (candidate_ok mp (normalize_name a.given) a.given (upsert_birth_year a))
    | none => none

/-- The record built by the `person is None` creation branch. -/
def creation_person (a : UpsertArgs) (src pid : Nat) : PersonR :=
  let display_name :=
    or_else_str a.name
      (py_strip py_ws
        (String.intercalate " " (([a.given, a.surname].filterMap id).filter (· ≠ ""))))
  { id := pid
    source_id := some src
    name := if display_name ≠ "" then display_name
            else or_else_str a.given (or_else_str a.surname "")
    gen := a.gen.getD 0
    given := a.given
    surname := a.surname
    birth := upsert_birth_value a
    death := upsert_death_value a
    sex := none
    title := a.title
    notes := a.notes
    line_key := a.line_key
    approx := if upsert_approx_flag a then some true else none
    page_index := none
    line_index := none
    normalized_given := normalize_name a.given
    normalized_surname := normalize_name a.surname
    birth_year := upsert_birth_year a }

/-- `merge(attr, value)`: fill an empty field, never overwrite a populated
one. -/
def merge_opt (cur new : Option String) : Option String :=
  if truthy new && !(truthy cur) then new else cur

/-- The update branch of `Person.upsert_from_parse` applied to the matched
person.  The source applies the updates sequentially, but every check reads
only the field it may update, so the sequence is written field-locally. -/
def merge_person (p : PersonR) (a : UpsertArgs) : PersonR :=
  { p with
    given := merge_opt p.given a.given
    surname := merge_opt p.surname a.surname
    birth := merge_opt p.birth (upsert_birth_value a)
    death := merge_opt p.death (upsert_death_value a)
    name := if truthy a.name && p.name == "" then a.name.getD "" else p.name
    gen := match a.gen with
      | some g => if p.gen = 0 then g else p.gen
      | none => p.gen
    title := merge_opt p.title a.title
    notes := merge_opt p.notes a.notes
    line_key := if a.line_key.isSome && p.line_key.isNone then a.line_key else p.line_key
    normalized_given := match normalize_name a.given with
      | some ng => if p.normalized_given ≠ some ng then some ng else p.normalized_given
      | none => p.normalized_given
    normalized_surname := match normalize_name a.surname with
      | some ns => if p.normalized_surname ≠ some ns then some ns else p.normalized_surname
      | none => p.normalized_surname
    birth_year := match upsert_birth_year a with
      | some y => if p.birth_year ≠ some y then some y else p.birth_year
      | none => p.birth_year
    approx := if upsert_approx_flag a ∧ p.approx ≠ some true then some true else p.approx }

/-- `Person.upsert_from_parse`. -/
def upsert_from_parse (mp : String → String) (pt : PersonTable) (src : Nat)
    (a : UpsertArgs) : PersonR × PersonTable :=
  match find_existing mp pt.persons src a with
  | none =>
    let p := creation_person a src pt.next_person_id
    (p, ⟨pt.persons ++ [p], pt.next_person_id + 1⟩)
  | some person =>
    let p := merge_person person a
    (p, { pt with persons := update_person pt.persons person.id p })

/-! ## `Family` and `Child` operations -/

/-- The keyword arguments shared by `Family.upsert_couple`,
`Family.ensure_for_single_parent` and `Child.link`. -/
structure FamArgs where
  line_key : Option FamKey := none
  approx : Option Bool := none
  page_index : Option Nat := none
deriving DecidableEq, Repr

structure ChildArgs where
  line_key : Option ChildKey := none
  approx : Option Bool := none
  page_index : Option Nat := none
deriving DecidableEq, Repr

/-- `pair = sorted((person_a_id, person_b_id))`. -/
def pair_sorted (x y : Nat) : Nat × Nat := if x ≤ y then (x, y) else (y, x)

/-- The `if line_key and not existing.line_key / if approx is True ... /
if page_index is not None ...` update sequence shared by the `existing`
branches (fingerprint keys are non-empty hex strings, hence truthy).  The
source applies the three updates sequentially; each reads only the field it
may update, so they are written field-locally. -/
def fam_existing_updates (e : FamilyR) (g : FamArgs) : FamilyR :=
  { e with
    line_key := if g.line_key.isSome && e.line_key.isNone then g.line_key else e.line_key
    approx := if g.approx == some true && e.approx ≠ some true then some true else e.approx
    page_index := match g.page_index with
      | some pi => if e.page_index ≠ some pi then some pi else e.page_index
      | none => e.page_index }

/-- The lookup predicate of `Family.ensure_for_single_parent`. -/
def single_pred (src parent_id : Nat) (f : FamilyR) : Bool :=
  f.source_id == some src && f.is_single_parent &&
  (f.husband_id == some parent_id || f.wife_id == some parent_id)

/-- The family created by `Family.ensure_for_single_parent` (the parent
goes into the slot matching her recorded sex, default husband). -/
def single_new (persons : List PersonR) (src parent_id : Nat) (g : FamArgs)
    (fid : Nat) : FamilyR :=
  let parent := persons.find? (fun q => q.id == parent_id)
  { id := fid, source_id := some src,
    husband_id :=
      if (match parent with | some pr => pr.sex != some "F" | none => true)
      then some parent_id else none,
    wife_id :=
      if (match parent with | some pr => pr.sex == some "F" | none => false)
      then some parent_id else none,
    is_single_parent := true, line_key := g.line_key,
    approx := g.approx, page_index := g.page_index, notes := none }

/-- `Family.ensure_for_single_parent` (needs read access to the person
table for `session.get(Person, parent_id)`). -/
def ensure_for_single_parent (persons : List PersonR) (ft : FamTable)
    (src parent_id : Nat) (g : FamArgs) : FamilyR × FamTable :=
  match ft.families.find? (single_pred src parent_id) with
  | some existing =>
    let e := fam_existing_updates existing g
    (e, { ft with families := update_family ft.families existing.id e })
  | none =>
    let fam := single_new persons src parent_id g ft.next_family_id
    (fam, { ft with families := ft.families ++ [fam],
                    next_family_id := ft.next_family_id + 1 })

/-- `if existing.husband_id not in pair or existing.wife_id not in pair:
existing.husband_id, existing.wife_id = pair` in `Family.upsert_couple`. -/
def couple_pair_fix (e : FamilyR) (pair : Nat × Nat) : FamilyR :=
  if (e.husband_id ≠ some pair.1 ∧ e.husband_id ≠ some pair.2)
     ∨ (e.wife_id ≠ some pair.1 ∧ e.wife_id ≠ some pair.2)
  then { e with husband_id := some pair.1, wife_id := some pair.2 }
  else e

/-- The lookup predicate of `Family.upsert_couple` for a canonical pair. -/
def couple_pred (src : Nat) (pr : Nat × Nat) (f : FamilyR) : Bool :=
  f.source_id == some src &&
  ((f.husband_id == some pr.1 && f.wife_id == some pr.2) ||
   (f.husband_id == some pr.2 && f.wife_id == some pr.1))

/-- The updated record returned by `Family.upsert_couple` on a hit (the
final `existing.is_single_parent = False` assignment included). -/
def couple_result (e : FamilyR) (pr : Nat × Nat) (g : FamArgs) : FamilyR :=
  { fam_existing_updates (couple_pair_fix e pr) g with is_single_parent := false }

/-- The family created by `Family.upsert_couple` on a miss. -/
def couple_new (src : Nat) (pr : Nat × Nat) (g : FamArgs) (fid : Nat) : FamilyR :=
  { id := fid, source_id := some src,
    husband_id := some pr.1, wife_id := some pr.2,
    is_single_parent := false, line_key := g.line_key,
    approx := g.approx, page_index := g.page_index, notes := none }

/-- `Family.upsert_couple`. -/
def upsert_couple (persons : List PersonR) (ft : FamTable)
    (src a_id b_id : Nat) (g : FamArgs) : FamilyR × FamTable :=
  if a_id = b_id then ensure_for_single_parent persons ft src a_id g
  else
    let pair := pair_sorted a_id b_id
    match ft.families.find? (couple_pred src pair) with
    | some existing =>
      let e := couple_result existing pair g
      (e, { ft with families := update_family ft.families existing.id e })
    | none =>
      let fam := couple_new src pair g ft.next_family_id
      (fam, { ft with families := ft.families ++ [fam],
                      next_family_id := ft.next_family_id + 1 })

/-- The `existing` branch updates of `Child.link` (field-local transcription
of the sequential updates, as for `fam_existing_updates`). -/
def child_existing_updates (e : ChildR) (g : ChildArgs) : ChildR :=
  { e with
    line_key := if g.line_key.isSome && e.line_key.isNone then g.line_key else e.line_key
    approx := if g.approx == some true && e.approx ≠ some true then some true else e.approx
    page_index := match g.page_index with
      | some pi => if e.page_index ≠ some pi then some pi else e.page_index
      | none => e.page_index }

/-- The lookup predicate of `Child.link`. -/
def child_pred (family_id child_id : Nat) (c : ChildR) : Bool :=
  c.family_id == family_id && c.person_id == child_id

/-- The child link created by `Child.link` on a miss: the ordinal is one
plus the largest existing ordinal in the family (the row returned by
`order_by(order_index.desc()).first()`), default 0. -/
def child_new (ft : FamTable) (family_id child_id : Nat) (g : ChildArgs) : ChildR :=
  { id := ft.next_child_id, family_id := family_id, person_id := child_id,
    order_index :=
      (((ft.children.filter (fun c => c.family_id == family_id)).map
          (·.order_index)).max?).elim 0 (· + 1),
    line_key := g.line_key, approx := g.approx, page_index := g.page_index }

/-- `Child.link`: idempotent on `(family_id, person_id)`. -/
def child_link (ft : FamTable) (family_id child_id : Nat) (g : ChildArgs) :
    ChildR × FamTable :=
  match ft.children.find? (child_pred family_id child_id) with
  | some existing =>
    let e := child_existing_updates existing g
    (e, { ft with children := update_child ft.children existing.id e })
  | none =>
    let child := child_new ft family_id child_id g
    (child, { ft with children := ft.children ++ [child],
                      next_child_id := ft.next_child_id + 1 })

/-! ## Basic lemmas about the operations -/

theorem ensure_found {persons : List PersonR} {ft : FamTable} {src parent_id : Nat}
    {g : FamArgs} {e : FamilyR}
    (h : ft.families.find? (single_pred src parent_id) = some e) :
    ensure_for_single_parent persons ft src parent_id g =
      (fam_existing_updates e g,
       { ft with families := update_family ft.families e.id (fam_existing_updates e g) }) := by
  simp [ensure_for_single_parent, h]

theorem ensure_missed {persons : List PersonR} {ft : FamTable} {src parent_id : Nat}
    {g : FamArgs} (h : ft.families.find? (single_pred src parent_id) = none) :
    ensure_for_single_parent persons ft src parent_id g =
      (single_new persons src parent_id g ft.next_family_id,
       { ft with families := ft.families ++ [single_new persons src parent_id g ft.next_family_id],
                 next_family_id := ft.next_family_id + 1 }) := by
  simp [ensure_for_single_parent, h]

theorem couple_found {persons : List PersonR} {ft : FamTable} {src a_id b_id : Nat}
    {g : FamArgs} {e : FamilyR} (hne : a_id ≠ b_id)
    (h : ft.families.find? (couple_pred src (pair_sorted a_id b_id)) = some e) :
    upsert_couple persons ft src a_id b_id g =
      (couple_result e (pair_sorted a_id b_id) g,
       { ft with families :=
           update_family ft.families e.id (couple_result e (pair_sorted a_id b_id) g) }) := by
  simp [upsert_couple, hne, h]

theorem couple_missed {persons : List PersonR} {ft : FamTable} {src a_id b_id : Nat}
    {g : FamArgs} (hne : a_id ≠ b_id)
    (h : ft.families.find? (couple_pred src (pair_sorted a_id b_id)) = none) :
    upsert_couple persons ft src a_id b_id g =
      (couple_new src (pair_sorted a_id b_id) g ft.next_family_id,
       { ft with
           families := ft.families ++ [couple_new src (pair_sorted a_id b_id) g ft.next_family_id],
           next_family_id := ft.next_family_id + 1 }) := by
  simp [upsert_couple, hne, h]

theorem child_found {ft : FamTable} {family_id child_id : Nat} {g : ChildArgs}
    {e : ChildR} (h : ft.children.find? (child_pred family_id child_id) = some e) :
    child_link ft family_id child_id g =
      (child_existing_updates e g,
       { ft with children := update_child ft.children e.id (child_existing_updates e g) }) := by
  simp [child_link, h]

theorem child_missed {ft : FamTable} {family_id child_id : Nat} {g : ChildArgs}
    (h : ft.children.find? (child_pred family_id child_id) = none) :
    child_link ft family_id child_id g =
      (child_new ft family_id child_id g,
       { ft with children := ft.children ++ [child_new ft family_id child_id g],
                 next_child_id := ft.next_child_id + 1 }) := by
  simp [child_link, h]

theorem pair_sorted_comm {a b : Nat} (h : a ≠ b) :
    pair_sorted a b = pair_sorted b a := by
  unfold pair_sorted
  by_cases hab : a ≤ b
  · have hba : ¬ b ≤ a := fun hh => h (Nat.le_antisymm hab hh)
    simp [hab, hba]
  · have hba : b ≤ a := Nat.le_of_not_le hab
    simp [hab, hba]

theorem merge_opt_keep {cur new : Option String} (h : truthy cur = true) :
    merge_opt cur new = cur := by
  simp [merge_opt, h]

theorem find_by_line_key_nil (src : Nat) (k : Option LineKey) :
    find_by_line_key [] src k = none := by
  cases k <;> simp [find_by_line_key]

theorem find_existing_nil (mp : String → String) (src : Nat) (a : UpsertArgs) :
    find_existing mp [] src a = none := by
  unfold find_existing
  rw [find_by_line_key_nil]
  cases normalize_name a.surname <;> simp [fuzzy_candidates]

theorem upsert_create {mp : String → String} {pt : PersonTable} {src : Nat}
    {a : UpsertArgs} (h : find_existing mp pt.persons src a = none) :
    upsert_from_parse mp pt src a =
      (creation_person a src pt.next_person_id,
       ⟨pt.persons ++ [creation_person a src pt.next_person_id],
        pt.next_person_id + 1⟩) := by
  simp [upsert_from_parse, h]

theorem upsert_merge {mp : String → String} {pt : PersonTable} {src : Nat}
    {a : UpsertArgs} {p : PersonR} (h : find_existing mp pt.persons src a = some p) :
    upsert_from_parse mp pt src a =
      (merge_person p a,
       { pt with persons := update_person pt.persons p.id (merge_person p a) }) := by
  simp [upsert_from_parse, h]

/-! ## Claim C4 -/

/-- Claim C4: for every source and two distinct person ids A and B,
`upsert_couple(src, A, B)` and `upsert_couple(src, B, A)` return the same
family record (and state); with equal ids the couple upsert delegates to
the single-parent constructor. -/
theorem C4_canonical_pair (persons : List PersonR) (ft : FamTable)
    (src a b : Nat) (g : FamArgs) :
    (a ≠ b → upsert_couple persons ft src a b g = upsert_couple persons ft src b a g) ∧
    (a = b → upsert_couple persons ft src a b g = ensure_for_single_parent persons ft src a g) := by
  constructor
  · intro h
    unfold upsert_couple
    rw [if_neg h, if_neg (Ne.symm h), pair_sorted_comm h]
  · intro h
    subst h
    simp [upsert_couple]

/-- Witness for C4 at concrete inputs. -/
theorem C4_witness :
    upsert_couple [] empty_ft 1 2 3 {} = upsert_couple [] empty_ft 1 3 2 {} ∧
    upsert_couple [] empty_ft 1 2 2 {} = ensure_for_single_parent [] empty_ft 1 2 {} :=
  ⟨(C4_canonical_pair [] empty_ft 1 2 3 {}).1 (by decide),
   (C4_canonical_pair [] empty_ft 1 2 2 {}).2 rfl⟩

/-! ## Claim C9 -/

/-- Claim C9: when a later sighting resolves to an existing person record,
the merge never overwrites a populated field with an empty one: each of the
fields given, surname, birth, death, name, title, notes that was non-empty
before the merge is unchanged (hence still non-empty) afterwards. -/
theorem C9_additive_merge (mp : String → String) (pt : PersonTable) (src : Nat)
    (a : UpsertArgs) (p : PersonR)
    (h : find_existing mp pt.persons src a = some p) :
    ((truthy p.given = true → (upsert_from_parse mp pt src a).1.given = p.given) ∧
     (truthy p.surname = true → (upsert_from_parse mp pt src a).1.surname = p.surname) ∧
     (truthy p.birth = true → (upsert_from_parse mp pt src a).1.birth = p.birth) ∧
     (truthy p.death = true → (upsert_from_parse mp pt src a).1.death = p.death) ∧
     (p.name ≠ "" → (upsert_from_parse mp pt src a).1.name = p.name) ∧
     (truthy p.title = true → (upsert_from_parse mp pt src a).1.title = p.title) ∧
     (truthy p.notes = true → (upsert_from_parse mp pt src a).1.notes = p.notes)) := by
  rw [upsert_merge h]
  refine ⟨fun hg => ?_, fun hg => ?_, fun hg => ?_, fun hg => ?_,
    fun hg => ?_, fun hg => ?_, fun hg => ?_⟩
  · simpa [merge_person] using @merge_opt_keep _ a.given hg
  · simpa [merge_person] using @merge_opt_keep _ a.surname hg
  · simpa [merge_person] using @merge_opt_keep _ (upsert_birth_value a) hg
  · simpa [merge_person] using @merge_opt_keep _ (upsert_death_value a) hg
  · have : (p.name == "") = false := by simpa using hg
    simp [merge_person, this]
  · simpa [merge_person] using @merge_opt_keep _ a.title hg
  · simpa [merge_person] using @merge_opt_keep _ a.notes hg

/-- Witness for C9: a second sighting with the same fingerprint resolves to
the stored record, whose populated fields survive the merge. -/
theorem C9_witness :
    (let k : LineKey := ⟨1, 0, 0, "w"⟩
     let p : PersonR :=
       { id := 1, gen := 1, name := "Ann SMITH", given := some "Ann",
         surname := some "SMITH", birth := some "1700", death := none,
         sex := none, title := none, notes := none, line_key := some k,
         approx := none, source_id := some 1, page_index := some 0,
         line_index := some 0, normalized_given := some "ann",
         normalized_surname := some "smith", birth_year := some 1700 }
     let a : UpsertArgs := { line_key := some k }
     find_existing (fun s => s) [p] 1 a = some p ∧
     (upsert_from_parse (fun s => s) ⟨[p], 2⟩ 1 a).1.given = p.given ∧
     (upsert_from_parse (fun s => s) ⟨[p], 2⟩ 1 a).1.name = p.name) := by
  refine ⟨by decide, ?_, ?_⟩
  · exact (C9_additive_merge (fun s => s) ⟨[_], 2⟩ 1 _ _ (by decide)).1 (by decide)
  · exact (C9_additive_merge (fun s => s) ⟨[_], 2⟩ 1 _ _ (by decide)).2.2.2.2.1 (by decide)

/-! ## Claim C10 -/

/-- Claim C10: two sightings in the same source with the same normalized
surname, distinct fingerprints and no extractable given name on either
resolve to two distinct person records: the missing-given edit distance is
999 and the phonetic comparison of missing names is false, so the fuzzy
path cannot match them. -/
theorem C10_missing_given (mp : String → String) (src : Nat) (a1 a2 : UpsertArgs)
    (hg1 : a1.given = none) (hg2 : a2.given = none)
    (hk1 : a1.line_key.isSome = true) (hk2 : a2.line_key.isSome = true)
    (hkne : a1.line_key ≠ a2.line_key)
    (ns : String)
    (hs1 : normalize_name a1.surname = some ns)
    (hs2 : normalize_name a2.surname = some ns) :
    ((upsert_from_parse mp (upsert_from_parse mp empty_pt src a1).2 src a2).1.id ≠
       (upsert_from_parse mp empty_pt src a1).1.id) ∧
    (upsert_from_parse mp (upsert_from_parse mp empty_pt src a1).2 src a2).2.persons.length = 2 ∧
    (∀ x, levenshtein none x = 999) ∧
    (∀ x, phonetic_match mp none x = false) := by
  have h1 : find_existing mp empty_pt.persons src a1 = none := find_existing_nil mp src a1
  rw [upsert_create h1]
  set p1 := creation_person a1 src empty_pt.next_person_id with hp1
  have hlist : empty_pt.persons ++ [p1] = [p1] := rfl
  rw [hlist]
  have hkey : find_by_line_key [p1] src a2.line_key = none := by
    obtain ⟨k2, hk2e⟩ := Option.isSome_iff_exists.mp hk2
    rw [hk2e]
    have hne : p1.line_key ≠ some k2 := by
      rw [hp1]
      show a1.line_key ≠ some k2
      rw [← hk2e]
      exact hkne
    simp [find_by_line_key, hne]
  have hcand : fuzzy_candidates [p1] src ns = [p1] := by
    simp [fuzzy_candidates, hp1, creation_person, hs1]
  have hok : candidate_ok mp (normalize_name a2.given) a2.given (upsert_birth_year a2) p1 = false := by
    unfold candidate_ok
    rw [hg2]
    have hng : p1.normalized_given = none := by
      rw [hp1]; show normalize_name a1.given = none; rw [hg1]; rfl
    have hgv : p1.given = none := by rw [hp1]; exact hg1
    rw [hng, hgv]
    simp [levenshtein, phonetic_match, normalize_name]
  have h2 : find_existing mp [p1] src a2 = none := by
    simp only [find_existing, hkey, hs2, hcand]
    simp [hok]
  have hup : (upsert_from_parse mp ⟨[p1], empty_pt.next_person_id + 1⟩ src a2) =
      (creation_person a2 src (empty_pt.next_person_id + 1),
       ⟨[p1] ++ [creation_person a2 src (empty_pt.next_person_id + 1)],
        empty_pt.next_person_id + 1 + 1⟩) := upsert_create h2
  refine ⟨?_, ?_, fun x => rfl, fun x => by cases x <;> rfl⟩
  · rw [hup]
    show empty_pt.next_person_id + 1 ≠ p1.id
    rw [hp1]
    show empty_pt.next_person_id + 1 ≠ empty_pt.next_person_id
    simp
  · rw [hup]
    rfl

/-- Witness for C10: two surname-only sightings of "SMITH" stay separate. -/
theorem C10_witness :
    (let a1 : UpsertArgs := { surname := some "SMITH", line_key := some ⟨1, 0, 0, "x"⟩ }
     let a2 : UpsertArgs := { surname := some "SMITH", line_key := some ⟨1, 0, 1, "y"⟩ }
     ((upsert_from_parse (fun s => s) (upsert_from_parse (fun s => s) empty_pt 1 a1).2 1 a2).1.id ≠
        (upsert_from_parse (fun s => s) empty_pt 1 a1).1.id) ∧
     (upsert_from_parse (fun s => s) (upsert_from_parse (fun s => s) empty_pt 1 a1).2 1 a2).2.persons.length = 2) := by
  have h := C10_missing_given (fun s => s) 1
    { surname := some "SMITH", line_key := some ⟨1, 0, 0, "x"⟩ }
    { surname := some "SMITH", line_key := some ⟨1, 0, 1, "y"⟩ }
    rfl rfl rfl rfl (by decide) "smith" (by decide) (by decide)
  exact ⟨h.1, h.2.1⟩

/-! ## Claim C3 -/

/-- Claim C3: for two sightings in the same source with the same normalized
surname and distinct fingerprints, given-name edit distance exactly 2 and
parsed birth years differing by exactly 2 resolve to one record, while edit
distance 3 with differing phonetic codes yields two distinct records. -/
theorem C3_fuzzy_boundary (mp : String → String) (src : Nat) (a1 a2 : UpsertArgs)
    (hk1 : a1.line_key.isSome = true) (hk2 : a2.line_key.isSome = true)
    (hkne : a1.line_key ≠ a2.line_key)
    (ns : String)
    (hs1 : normalize_name a1.surname = some ns)
    (hs2 : normalize_name a2.surname = some ns) :
    (∀ y1 y2 : Nat,
      upsert_birth_year a1 = some y1 → upsert_birth_year a2 = some y2 →
      Int.natAbs ((y1 : Int) - (y2 : Int)) = 2 →
      levenshtein (normalize_name a2.given) (normalize_name a1.given) = 2 →
      (upsert_from_parse mp (upsert_from_parse mp empty_pt src a1).2 src a2).1.id =
        (upsert_from_parse mp empty_pt src a1).1.id) ∧
    (levenshtein (normalize_name a2.given) (normalize_name a1.given) = 3 →
      (∀ s1 s2, a1.given = some s1 → a2.given = some s2 → mp s2 ≠ mp s1) →
      ((upsert_from_parse mp (upsert_from_parse mp empty_pt src a1).2 src a2).1.id ≠
         (upsert_from_parse mp empty_pt src a1).1.id ∧
       (upsert_from_parse mp (upsert_from_parse mp empty_pt src a1).2 src a2).2.persons.length = 2)) := by
  have h1 : find_existing mp empty_pt.persons src a1 = none := find_existing_nil mp src a1
  rw [upsert_create h1]
  set p1 := creation_person a1 src empty_pt.next_person_id with hp1
  have hlist : empty_pt.persons ++ [p1] = [p1] := rfl
  rw [hlist]
  have hkey : find_by_line_key [p1] src a2.line_key = none := by
    obtain ⟨k2, hk2e⟩ := Option.isSome_iff_exists.mp hk2
    rw [hk2e]
    have hne : p1.line_key ≠ some k2 := by
      rw [hp1]
      show a1.line_key ≠ some k2
      rw [← hk2e]
      exact hkne
    simp [find_by_line_key, hne]
  have hcand : fuzzy_candidates [p1] src ns = [p1] := by
    simp [fuzzy_candidates, hp1, creation_person, hs1]
  have hng : p1.normalized_given = normalize_name a1.given := by rw [hp1]; rfl
  constructor
  · intro y1 y2 hy1 hy2 hdiff hlev
    have hok : candidate_ok mp (normalize_name a2.given) a2.given (upsert_birth_year a2) p1 = true := by
      unfold candidate_ok
      have hby : p1.birth_year = some y1 := by
        rw [hp1]; show upsert_birth_year a1 = some y1; exact hy1
      rw [hby, hy2, hng, hlev]
      have hd : Int.natAbs ((y2 : Int) - (y1 : Int)) = 2 := by omega
      simp [hd]
    have h2 : find_existing mp [p1] src a2 = some p1 := by
      simp only [find_existing, hkey, hs2, hcand]
      simp [List.find?, hok]
    rw [upsert_merge h2]
    rfl
  · intro hlev hmp
    have hok : candidate_ok mp (normalize_name a2.given) a2.given (upsert_birth_year a2) p1 = false := by
      unfold candidate_ok
      have hgv : p1.given = a1.given := by rw [hp1]; rfl
      rw [hng, hgv, hlev]
      have hphon : phonetic_match mp a2.given a1.given = false := by
        cases hg2 : a2.given with
        | none => cases a1.given <;> rfl
        | some s2 =>
          cases hg1 : a1.given with
          | none => rfl
          | some s1 =>
            have hne := hmp s1 s2 hg1 hg2
            unfold phonetic_match
            by_cases he : s2 = "" ∨ s1 = ""
            · rcases he with he | he <;> simp [he]
            · push_neg at he
              simp [he.1, he.2, hne]
      rw [hphon]
      simp
    have h2 : find_existing mp [p1] src a2 = none := by
      simp only [find_existing, hkey, hs2, hcand]
      simp [List.find?, hok]
    rw [upsert_create h2]
    constructor
    · show empty_pt.next_person_id + 1 ≠ p1.id
      rw [hp1]
      show empty_pt.next_person_id + 1 ≠ empty_pt.next_person_id
      simp
    · rfl

/-- Witness for C3 at concrete inputs: "Abel SMITH (1700)" merges with
"Abxy SMITH (1702)" (distance 2, year gap 2) but not with "Axyz SMITH"
(distance 3, differing codes under the identity phonetic function). -/
theorem C3_witness :
    ((upsert_from_parse id (upsert_from_parse id empty_pt 1
        { given := some "Abel", surname := some "SMITH",
          vitals := some ⟨some ⟨"1700", false, some 1700⟩, none⟩,
          line_key := some ⟨1, 0, 0, "a"⟩ }).2 1
        { given := some "Abxy", surname := some "SMITH",
          vitals := some ⟨some ⟨"1702", false, some 1702⟩, none⟩,
          line_key := some ⟨1, 0, 1, "b"⟩ }).1.id =
      (upsert_from_parse id empty_pt 1
        { given := some "Abel", surname := some "SMITH",
          vitals := some ⟨some ⟨"1700", false, some 1700⟩, none⟩,
          line_key := some ⟨1, 0, 0, "a"⟩ }).1.id) ∧
    ((upsert_from_parse id (upsert_from_parse id empty_pt 1
        { given := some "Abel", surname := some "SMITH",
          vitals := some ⟨some ⟨"1700", false, some 1700⟩, none⟩,
          line_key := some ⟨1, 0, 0, "a"⟩ }).2 1
        { given := some "Axyz", surname := some "SMITH",
          line_key := some ⟨1, 0, 1, "b"⟩ }).1.id ≠
      (upsert_from_parse id empty_pt 1
        { given := some "Abel", surname := some "SMITH",
          vitals := some ⟨some ⟨"1700", false, some 1700⟩, none⟩,
          line_key := some ⟨1, 0, 0, "a"⟩ }).1.id) := by
  constructor
  · exact (C3_fuzzy_boundary id 1
      { given := some "Abel", surname := some "SMITH",
        vitals := some ⟨some ⟨"1700", false, some 1700⟩, none⟩,
        line_key := some ⟨1, 0, 0, "a"⟩ }
      { given := some "Abxy", surname := some "SMITH",
        vitals := some ⟨some ⟨"1702", false, some 1702⟩, none⟩,
        line_key := some ⟨1, 0, 1, "b"⟩ }
      rfl rfl (by decide) "smith" (by decide) (by decide)).1
      1700 1702 rfl rfl (by decide) (by decide)
  · exact ((C3_fuzzy_boundary id 1
      { given := some "Abel", surname := some "SMITH",
        vitals := some ⟨some ⟨"1700", false, some 1700⟩, none⟩,
        line_key := some ⟨1, 0, 0, "a"⟩ }
      { given := some "Axyz", surname := some "SMITH",
        line_key := some ⟨1, 0, 1, "b"⟩ }
      rfl rfl (by decide) "smith" (by decide) (by decide)).2
      (by decide)
      (fun s1 s2 h1 h2 => by
        simp only [Option.some.injEq] at h1 h2
        subst h1
        subst h2
        decide)).1

/-! ## Claim C7 -/

/-- The child rows of one family, in insertion order. -/
def family_rows (f : Nat) (ft : FamTable) : List ChildR :=
  ft.children.filter (fun c => c.family_id == f)

/-- Well-formedness of the child table's auto-increment ids (holds for every
state the engine can reach: rows are only ever created through `flush`). -/
def children_fresh (ft : FamTable) : Prop :=
  (∀ c ∈ ft.children, c.id < ft.next_child_id) ∧ (ft.children.map (·.id)).Nodup

/-- A sequence of `Child.link` calls, each `(family_id, child_id, kwargs)`. -/
def apply_links : FamTable → List (Nat × Nat × ChildArgs) → FamTable
  | ft, [] => ft
  | ft, (fam, cid, g) :: rest => apply_links (child_link ft fam cid g).2 rest

theorem max?_concat (l : List Nat) (a : Nat) :
    (l ++ [a]).max? = some (l.max?.elim a (fun m => max m a)) := by
  induction l with
  | nil => simp [List.max?_cons]
  | cons x t ih =>
    rw [List.cons_append, List.max?_cons, List.max?_cons, ih]
    cases h : t.max? with
    | none => simp [h]
    | some m => simp [h, Nat.max_assoc]

theorem range_max? (n : Nat) :
    (List.range n).max? = if n = 0 then none else some (n - 1) := by
  induction n with
  | zero => simp
  | succ k ih =>
    rw [List.range_succ, max?_concat, ih]
    cases k with
    | zero => simp
    | succ j => simp [Nat.max_eq_right (Nat.le_succ j)]

theorem order_from_range (n : Nat) :
    ((List.range n).max?).elim 0 (· + 1) = n := by
  rw [range_max?]
  cases n <;> simp

theorem filter_map_comm {α : Type} (l : List α) (u : α → α) (p : α → Bool)
    (h : ∀ r ∈ l, p (u r) = p r) : (l.map u).filter p = (l.filter p).map u := by
  induction l with
  | nil => rfl
  | cons a t ih =>
    simp only [List.map_cons, List.filter_cons]
    rw [h a (by simp)]
    cases hp : p a with
    | true => simp [ih (fun r hr => h r (by simp [hr]))]
    | false => simp [ih (fun r hr => h r (by simp [hr]))]

theorem map_invariant {α β : Type} (l : List α) (u : α → α) (f : α → β)
    (h : ∀ r ∈ l, f (u r) = f r) : (l.map u).map f = l.map f := by
  induction l with
  | nil => rfl
  | cons a t ih =>
    simp only [List.map_cons]
    rw [h a (by simp), ih (fun r hr => h r (by simp [hr]))]

theorem child_upd_id (e : ChildR) (g : ChildArgs) :
    (child_existing_updates e g).id = e.id := rfl

theorem child_upd_family (e : ChildR) (g : ChildArgs) :
    (child_existing_updates e g).family_id = e.family_id := rfl

theorem child_upd_person (e : ChildR) (g : ChildArgs) :
    (child_existing_updates e g).person_id = e.person_id := rfl

theorem child_upd_order (e : ChildR) (g : ChildArgs) :
    (child_existing_updates e g).order_index = e.order_index := rfl

/-- The per-family invariant maintained by `Child.link`. -/
def rows_wf (f : Nat) (ft : FamTable) : Prop :=
  children_fresh ft ∧
  ((family_rows f ft).map (·.order_index) = List.range (family_rows f ft).length) ∧
  ((family_rows f ft).map (·.person_id)).Nodup

theorem rows_wf_append (f : Nat) (ft : FamTable) (c0 : ChildR)
    (h : rows_wf f ft)
    (hc0 : c0.id = ft.next_child_id)
    (hord : c0.family_id = f → c0.order_index = (family_rows f ft).length)
    (hper : c0.family_id = f → ∀ r ∈ family_rows f ft, r.person_id ≠ c0.person_id) :
    rows_wf f { ft with children := ft.children ++ [c0],
                        next_child_id := ft.next_child_id + 1 } := by
  obtain ⟨⟨hlt, hnd⟩, hrange, hpers⟩ := h
  have hrows : family_rows f
      { ft with children := ft.children ++ [c0], next_child_id := ft.next_child_id + 1 } =
      family_rows f ft ++ if c0.family_id = f then [c0] else [] := by
    show (ft.children ++ [c0]).filter (fun c => c.family_id == f) = _
    rw [List.filter_append]
    congr 1
    by_cases hf : c0.family_id = f
    · have hb : (c0.family_id == f) = true := by simp [hf]
      simp [List.filter, hb, hf]
    · have hb : (c0.family_id == f) = false := by simp [hf]
      simp [List.filter, hb, hf]
  refine ⟨⟨?_, ?_⟩, ?_, ?_⟩
  · intro c hc
    simp only [List.mem_append, List.mem_singleton] at hc
    rcases hc with hc | hc
    · exact Nat.lt_succ_of_lt (hlt c hc)
    · subst hc
      rw [hc0]
      exact Nat.lt_succ_self _
  · show ((ft.children ++ [c0]).map (·.id)).Nodup
    rw [List.map_append]
    apply List.Nodup.append hnd (by simp)
    intro x hx hy
    simp only [List.map_cons, List.map_nil, List.mem_singleton] at hy
    simp only [List.mem_map] at hx
    obtain ⟨r, hr, hrx⟩ := hx
    have := hlt r hr
    subst hy
    rw [hc0] at hrx
    omega
  · rw [hrows]
    by_cases hf : c0.family_id = f
    · rw [if_pos hf, List.map_append]
      simp only [List.map_cons, List.map_nil]
      rw [hord hf, hrange, List.length_append]
      simp [List.range_succ]
    · rw [if_neg hf]
      simpa using hrange
  · rw [hrows]
    by_cases hf : c0.family_id = f
    · rw [if_pos hf, List.map_append]
      apply List.Nodup.append hpers (by simp)
      intro x hx hy
      simp only [List.map_cons, List.map_nil, List.mem_singleton] at hy
      simp only [List.mem_map] at hx
      obtain ⟨r, hr, hrx⟩ := hx
      exact hper hf r hr (by rw [hrx, hy])
    · rw [if_neg hf]
      simpa using hpers

theorem child_link_preserves_wf (f : Nat) (ft : FamTable)
    (fam cid : Nat) (g : ChildArgs) (h : rows_wf f ft) :
    rows_wf f (child_link ft fam cid g).2 := by
  obtain ⟨⟨hlt, hnd⟩, hrange, hpers⟩ := h
  cases hfind : ft.children.find? (child_pred fam cid) with
  | some e =>
    rw [child_found hfind]
    have hmem : e ∈ ft.children := List.mem_of_find?_eq_some hfind
    have hup : ∀ r ∈ ft.children,
        (if r.id = e.id then child_existing_updates e g else r).family_id = r.family_id ∧
        (if r.id = e.id then child_existing_updates e g else r).order_index = r.order_index ∧
        (if r.id = e.id then child_existing_updates e g else r).person_id = r.person_id := by
      intro r hr
      by_cases hid : r.id = e.id
      · have hre : r = e := List.inj_on_of_nodup_map hnd hr hmem hid
        subst hre
        simp [child_upd_family, child_upd_order, child_upd_person]
      · simp [hid]
    have hrows : family_rows f { ft with children := update_child ft.children e.id (child_existing_updates e g) } =
        (family_rows f ft).map (fun r => if r.id = e.id then child_existing_updates e g else r) := by
      unfold family_rows update_child
      exact filter_map_comm _ _ _ (fun r hr => by rw [(hup r hr).1])
    constructor
    · constructor
      · intro c hc
        simp only [update_child, List.mem_map] at hc
        obtain ⟨r, hr, hrc⟩ := hc
        by_cases hid : r.id = e.id
        · have hre : r = e := List.inj_on_of_nodup_map hnd hr hmem hid
          subst hre
          rw [← hrc]
          simp [hid, child_upd_id]
          exact hlt r hr
        · rw [← hrc]
          simp [hid]
          exact hlt r hr
      · show ((update_child ft.children e.id (child_existing_updates e g)).map (·.id)).Nodup
        unfold update_child
        rw [map_invariant ft.children
          (fun r => if r.id = e.id then child_existing_updates e g else r)
          (fun x => x.id)
          (fun r hr => by
            by_cases hid : r.id = e.id
            · have hre : r = e := List.inj_on_of_nodup_map hnd hr hmem hid
              subst hre
              simp [child_upd_id]
            · simp [hid])]
        exact hnd
    constructor
    · show (family_rows f _).map (·.order_index) = _
      rw [hrows]
      rw [map_invariant (family_rows f ft) _ (fun x => x.order_index)
        (fun r hr => (hup r (List.mem_of_mem_filter hr)).2.1)]
      rw [List.length_map]
      exact hrange
    · rw [hrows]
      rw [map_invariant (family_rows f ft) _ (fun x => x.person_id)
        (fun r hr => (hup r (List.mem_of_mem_filter hr)).2.2)]
      exact hpers
  | none =>
    rw [child_missed hfind]
    apply rows_wf_append f ft _ ⟨⟨hlt, hnd⟩, hrange, hpers⟩ rfl
    · intro hf
      show (((ft.children.filter (fun c => c.family_id == fam)).map
          (·.order_index)).max?).elim 0 (· + 1) = _
      have hff : fam = f := hf
      subst hff
      show (((family_rows fam ft).map (·.order_index)).max?).elim 0 (· + 1) = _
      rw [hrange]
      exact order_from_range _
    · intro hf r hr
      have hff : fam = f := hf
      subst hff
      have hr' : r ∈ ft.children := List.mem_of_mem_filter hr
      have hnp := List.find?_eq_none.mp hfind r hr'
      have hrf : r.family_id = fam := by
        have := @List.of_mem_filter _ (fun c : ChildR => c.family_id == fam) _ _ hr
        simpa using this
      intro hcontra
      apply hnp
      simp [child_pred, hrf, hcontra, child_new]

theorem apply_links_wf (f : Nat) (ops : List (Nat × Nat × ChildArgs)) :
    ∀ ft : FamTable, rows_wf f ft → rows_wf f (apply_links ft ops) := by
  induction ops with
  | nil => intro ft h; exact h
  | cons op rest ih =>
    intro ft h
    exact ih _ (child_link_preserves_wf f ft op.1 op.2.1 op.2.2 h)

/-- Claim C7: after any sequence of `Child.link` calls on a family that
started with no children, the (family, person) pairs are unique and the
ordinals are exactly {0,…,n−1}; a further link of a new child receives
ordinal n (one plus the maximum, 0 for the first), while repeating a link
for an already-linked child changes no ordinal and no membership. -/
theorem C7_child_ordinals (ops : List (Nat × Nat × ChildArgs)) (ft0 : FamTable)
    (f : Nat) (hfresh : children_fresh ft0) (h0 : family_rows f ft0 = []) :
    ((family_rows f (apply_links ft0 ops)).map (·.order_index) =
       List.range (family_rows f (apply_links ft0 ops)).length) ∧
    ((family_rows f (apply_links ft0 ops)).map (·.person_id)).Nodup ∧
    (∀ c g, (family_rows f (apply_links ft0 ops)).all (fun row => row.person_id ≠ c) →
       (child_link (apply_links ft0 ops) f c g).1.order_index =
         (family_rows f (apply_links ft0 ops)).length) ∧
    (∀ c g, c ∈ (family_rows f (apply_links ft0 ops)).map (·.person_id) →
       ((family_rows f (child_link (apply_links ft0 ops) f c g).2).map (·.order_index) =
          (family_rows f (apply_links ft0 ops)).map (·.order_index) ∧
        (family_rows f (child_link (apply_links ft0 ops) f c g).2).map (·.person_id) =
          (family_rows f (apply_links ft0 ops)).map (·.person_id))) := by
  have hwf : rows_wf f (apply_links ft0 ops) := by
    apply apply_links_wf
    refine ⟨hfresh, ?_, ?_⟩ <;> simp [h0]
  obtain ⟨⟨hlt, hnd⟩, hrange, hpers⟩ := hwf
  set ft1 := apply_links ft0 ops with hft1
  refine ⟨hrange, hpers, ?_, ?_⟩
  · intro c g hnew
    cases hfind : ft1.children.find? (child_pred f c) with
    | some e =>
      exfalso
      have hpe := @List.find?_some _ (child_pred f c) _ _ hfind
      have hmem : e ∈ ft1.children := List.mem_of_find?_eq_some hfind
      simp only [child_pred, Bool.and_eq_true, beq_iff_eq] at hpe
      have hrow : e ∈ family_rows f ft1 := by
        unfold family_rows
        apply List.mem_filter_of_mem hmem
        simp [hpe.1]
      have := List.all_eq_true.mp hnew e hrow
      simp [hpe.2] at this
    | none =>
      rw [child_missed hfind]
      show (((family_rows f ft1).map (·.order_index)).max?).elim 0 (· + 1) = _
      rw [hrange]
      exact order_from_range _
  · intro c g hmemc
    simp only [List.mem_map] at hmemc
    obtain ⟨row, hrow, hrowc⟩ := hmemc
    have hrmem : row ∈ ft1.children := List.mem_of_mem_filter hrow
    have hrf : row.family_id = f := by
      have := @List.of_mem_filter _ (fun x : ChildR => x.family_id == f) _ _ hrow
      simpa using this
    have hfind : (ft1.children.find? (child_pred f c)).isSome := by
      rw [List.find?_isSome]
      exact ⟨row, hrmem, by simp [child_pred, hrf, hrowc]⟩
    obtain ⟨e, hfe⟩ := Option.isSome_iff_exists.mp hfind
    rw [child_found hfe]
    have hmem : e ∈ ft1.children := List.mem_of_find?_eq_some hfe
    have hup : ∀ r ∈ ft1.children,
        (if r.id = e.id then child_existing_updates e g else r).family_id = r.family_id ∧
        (if r.id = e.id then child_existing_updates e g else r).order_index = r.order_index ∧
        (if r.id = e.id then child_existing_updates e g else r).person_id = r.person_id := by
      intro r hr
      by_cases hid : r.id = e.id
      · have hre : r = e := List.inj_on_of_nodup_map hnd hr hmem hid
        subst hre
        simp [child_upd_family, child_upd_order, child_upd_person]
      · simp [hid]
    have hrows : family_rows f { ft1 with children := update_child ft1.children e.id (child_existing_updates e g) } =
        (family_rows f ft1).map (fun r => if r.id = e.id then child_existing_updates e g else r) := by
      unfold family_rows update_child
      exact filter_map_comm _ _ _ (fun r hr => by rw [(hup r hr).1])
    constructor
    · rw [hrows]
      rw [map_invariant (family_rows f ft1) _ (fun x => x.order_index)
        (fun r hr => (hup r (List.mem_of_mem_filter hr)).2.1)]
    · rw [hrows]
      rw [map_invariant (family_rows f ft1) _ (fun x => x.person_id)
        (fun r hr => (hup r (List.mem_of_mem_filter hr)).2.2)]

/-- Witness for C7: linking children 5, 6, 5 to family 1 yields ordinals
{0, 1} and unique pairs; the reached state satisfies all conjuncts. -/
theorem C7_witness :
    (let ops : List (Nat × Nat × ChildArgs) := [(1, 5, {}), (1, 6, {}), (1, 5, {})]
     children_fresh empty_ft ∧ family_rows 1 empty_ft = [] ∧
     (family_rows 1 (apply_links empty_ft ops)).map (·.order_index) =
       List.range (family_rows 1 (apply_links empty_ft ops)).length ∧
     ((family_rows 1 (apply_links empty_ft ops)).map (·.person_id)).Nodup) := by
  refine ⟨⟨by simp [empty_ft], by simp [empty_ft]⟩, rfl, ?_, ?_⟩
  · exact (C7_child_ordinals [(1, 5, {}), (1, 6, {}), (1, 5, {})] empty_ft 1
      ⟨by simp [empty_ft], by simp [empty_ft]⟩ rfl).1
  · exact (C7_child_ordinals [(1, 5, {}), (1, 6, {}), (1, 5, {})] empty_ft 1
      ⟨by simp [empty_ft], by simp [empty_ft]⟩ rfl).2.1

/-! ## Claims C8 and C5 -/

theorem fam_upd_approx_true (e : FamilyR) (g : FamArgs) (h : e.approx = some true) :
    (fam_existing_updates e g).approx = some true := by
  simp [fam_existing_updates, h]

theorem fam_upd_approx_set (e : FamilyR) (g : FamArgs) (h : g.approx = some true) :
    (fam_existing_updates e g).approx = some true := by
  by_cases he : e.approx = some true <;> simp [fam_existing_updates, h, he]

theorem pair_fix_approx (e : FamilyR) (pr : Nat × Nat) :
    (couple_pair_fix e pr).approx = e.approx := by
  unfold couple_pair_fix; split <;> rfl

theorem pair_fix_id (e : FamilyR) (pr : Nat × Nat) :
    (couple_pair_fix e pr).id = e.id := by
  unfold couple_pair_fix; split <;> rfl

theorem pair_fix_husband_some (e : FamilyR) (pr : Nat × Nat)
    (h : e.husband_id.isSome = true) : (couple_pair_fix e pr).husband_id.isSome = true := by
  unfold couple_pair_fix; split <;> simp [h]

theorem pair_fix_wife_some (e : FamilyR) (pr : Nat × Nat)
    (h : e.wife_id.isSome = true) : (couple_pair_fix e pr).wife_id.isSome = true := by
  unfold couple_pair_fix; split <;> simp [h]

theorem mem_update_family {l : List FamilyR} {pid : Nat} {q G : FamilyR}
    (hG : G ∈ update_family l pid q) : G = q ∨ G ∈ l := by
  simp only [update_family, List.mem_map] at hG
  obtain ⟨r, hr, hrG⟩ := hG
  by_cases hid : r.id = pid
  · left; rw [← hrG]; simp [hid]
  · right; rw [← hrG]; simpa [hid] using hr

/-- Monotonicity of the family approximate flag under
`ensure_for_single_parent`. -/
theorem ensure_approx_mono (persons : List PersonR) (ft : FamTable)
    (src parent : Nat) (g : FamArgs)
    (hfresh : ∀ q ∈ ft.families, q.id < ft.next_family_id)
    (hnd : (ft.families.map (·.id)).Nodup)
    (F : FamilyR) (hF : F ∈ ft.families) (happ : F.approx = some true) :
    ∀ G ∈ (ensure_for_single_parent persons ft src parent g).2.families,
      G.id = F.id → G.approx = some true := by
  intro G hG hid
  cases hfind : ft.families.find? (single_pred src parent) with
  | some e =>
    rw [ensure_found hfind] at hG
    have hmem : e ∈ ft.families := List.mem_of_find?_eq_some hfind
    rcases mem_update_family hG with hGe | hGl
    · subst hGe
      have heF : e = F := by
        apply List.inj_on_of_nodup_map hnd hmem hF
        simpa [fam_existing_updates] using hid
      rw [heF]
      exact fam_upd_approx_true F g happ
    · have : G = F := List.inj_on_of_nodup_map hnd hGl hF hid
      rw [this]; exact happ
  | none =>
    rw [ensure_missed hfind] at hG
    simp only [List.mem_append, List.mem_singleton] at hG
    rcases hG with hGl | hGnew
    · have : G = F := List.inj_on_of_nodup_map hnd hGl hF hid
      rw [this]; exact happ
    · exfalso
      have hFlt := hfresh F hF
      have : G.id = ft.next_family_id := by rw [hGnew]; rfl
      omega

/-- Monotonicity of the family approximate flag under `Family.upsert_couple`. -/
theorem couple_approx_mono (persons : List PersonR) (ft : FamTable)
    (src a b : Nat) (g : FamArgs)
    (hfresh : ∀ q ∈ ft.families, q.id < ft.next_family_id)
    (hnd : (ft.families.map (·.id)).Nodup)
    (F : FamilyR) (hF : F ∈ ft.families) (happ : F.approx = some true) :
    ∀ G ∈ (upsert_couple persons ft src a b g).2.families,
      G.id = F.id → G.approx = some true := by
  intro G hG hid
  by_cases hab : a = b
  · rw [show upsert_couple persons ft src a b g =
        ensure_for_single_parent persons ft src a g by simp [upsert_couple, hab]] at hG
    exact ensure_approx_mono persons ft src a g hfresh hnd F hF happ G hG hid
  · cases hfind : ft.families.find? (couple_pred src (pair_sorted a b)) with
    | some e =>
      rw [couple_found hab hfind] at hG
      have hmem : e ∈ ft.families := List.mem_of_find?_eq_some hfind
      rcases mem_update_family hG with hGe | hGl
      · have hGid : G.id = e.id := by
          rw [hGe]
          show (fam_existing_updates (couple_pair_fix e (pair_sorted a b)) g).id = e.id
          show (couple_pair_fix e (pair_sorted a b)).id = e.id
          exact pair_fix_id e _
        have heF : e = F := List.inj_on_of_nodup_map hnd hmem hF (by rw [← hGid, hid])
        rw [hGe]
        show (fam_existing_updates (couple_pair_fix e (pair_sorted a b)) g).approx = some true
        apply fam_upd_approx_true
        rw [pair_fix_approx, heF]
        exact happ
      · have : G = F := List.inj_on_of_nodup_map hnd hGl hF hid
        rw [this]; exact happ
    | none =>
      rw [couple_missed hab hfind] at hG
      simp only [List.mem_append, List.mem_singleton] at hG
      rcases hG with hGl | hGnew
      · have : G = F := List.inj_on_of_nodup_map hnd hGl hF hid
        rw [this]; exact happ
      · exfalso
        have hFlt := hfresh F hF
        have : G.id = ft.next_family_id := by rw [hGnew]; rfl
        omega

theorem ensure_approx_set (persons : List PersonR) (ft : FamTable)
    (src parent : Nat) (g : FamArgs) (h : g.approx = some true) :
    (ensure_for_single_parent persons ft src parent g).1.approx = some true := by
  cases hfind : ft.families.find? (single_pred src parent) with
  | some e =>
    rw [ensure_found hfind]
    exact fam_upd_approx_set e g h
  | none =>
    rw [ensure_missed hfind]
    exact h

theorem couple_approx_set (persons : List PersonR) (ft : FamTable)
    (src a b : Nat) (g : FamArgs) (h : g.approx = some true) :
    (upsert_couple persons ft src a b g).1.approx = some true := by
  by_cases hab : a = b
  · rw [show upsert_couple persons ft src a b g =
        ensure_for_single_parent persons ft src a g by simp [upsert_couple, hab]]
    exact ensure_approx_set persons ft src a g h
  · cases hfind : ft.families.find? (couple_pred src (pair_sorted a b)) with
    | some e =>
      rw [couple_found hab hfind]
      show (fam_existing_updates (couple_pair_fix e (pair_sorted a b)) g).approx = some true
      exact fam_upd_approx_set _ g h
    | none =>
      rw [couple_missed hab hfind]
      exact h

theorem child_link_families (ft : FamTable) (fam cid : Nat) (cg : ChildArgs) :
    (child_link ft fam cid cg).2.families = ft.families := by
  unfold child_link
  split <;> rfl

/-- Counterexample to claim C8 as stated: a child-link operation with an
approximate input does not set the family's approximate flag.  The family
record keeps `approx = none` although the link carried `approx = some true`. -/
theorem C8_counterexample :
    ((child_link
        ⟨[{ id := 1, husband_id := some 1, wife_id := none, notes := none,
            line_key := none, approx := none, page_index := none,
            source_id := some 1, is_single_parent := true }], [], 2, 1⟩
        1 2 { approx := some true }).2.families.map (·.approx) = [none]) ∧
    ((child_link
        ⟨[{ id := 1, husband_id := some 1, wife_id := none, notes := none,
            line_key := none, approx := none, page_index := none,
            source_id := some 1, is_single_parent := true }], [], 2, 1⟩
        1 2 { approx := some true }).1.approx = some true) := by
  constructor <;> rfl

/-- Claim C8 (amended): once a family's approximate flag is true, no
subsequent couple-upsert, single-parent or child-link operation clears it;
an approximate input to a couple-upsert or single-parent operation sets the
returned family's flag; a child-link records the approximate flag on the
child link only and leaves the family table untouched. -/
theorem C8_amended_theorem (persons : List PersonR) (ft : FamTable)
    (src a b parent fam cid : Nat) (g : FamArgs) (cg : ChildArgs)
    (hfresh : ∀ q ∈ ft.families, q.id < ft.next_family_id)
    (hnd : (ft.families.map (·.id)).Nodup) :
    (∀ F ∈ ft.families, F.approx = some true →
       ∀ G ∈ (upsert_couple persons ft src a b g).2.families,
         G.id = F.id → G.approx = some true) ∧
    (∀ F ∈ ft.families, F.approx = some true →
       ∀ G ∈ (ensure_for_single_parent persons ft src parent g).2.families,
         G.id = F.id → G.approx = some true) ∧
    (∀ F ∈ ft.families, F.approx = some true →
       ∀ G ∈ (child_link ft fam cid cg).2.families,
         G.id = F.id → G.approx = some true) ∧
    (g.approx = some true → (upsert_couple persons ft src a b g).1.approx = some true) ∧
    (g.approx = some true →
       (ensure_for_single_parent persons ft src parent g).1.approx = some true) ∧
    ((child_link ft fam cid cg).2.families = ft.families) := by
  refine ⟨?_, ?_, ?_, ?_, ?_, child_link_families ft fam cid cg⟩
  · intro F hF happ
    exact couple_approx_mono persons ft src a b g hfresh hnd F hF happ
  · intro F hF happ
    exact ensure_approx_mono persons ft src parent g hfresh hnd F hF happ
  · intro F hF happ G hG hid
    rw [child_link_families ft fam cid cg] at hG
    have : G = F := List.inj_on_of_nodup_map hnd hG hF hid
    rw [this]; exact happ
  · exact couple_approx_set persons ft src a b g
  · exact ensure_approx_set persons ft src parent g

/-- A concrete family table for the C8 witness. -/
def c8ft : FamTable :=
  ⟨[{ id := 1, husband_id := some 1, wife_id := some 2,
      notes := none, line_key := none, approx := some true, page_index := none,
      source_id := some 1, is_single_parent := false }], [], 2, 1⟩

theorem c8ft_fresh : ∀ q ∈ c8ft.families, q.id < c8ft.next_family_id := by
  intro q hq
  simp [c8ft] at hq
  rw [hq]
  decide

/-- Witness for C8 (amended) at a concrete state. -/
theorem C8_witness :
    (∀ G ∈ (upsert_couple [] c8ft 1 1 2 {}).2.families, G.id = 1 → G.approx = some true) ∧
    (upsert_couple [] c8ft 1 3 4 { approx := some true }).1.approx = some true ∧
    (child_link c8ft 1 9 {}).2.families = c8ft.families := by
  refine ⟨?_, ?_, ?_⟩
  · intro G hG hid
    refine (C8_amended_theorem [] c8ft 1 1 2 0 0 0 {} {} c8ft_fresh (by decide)).1
      { id := 1, husband_id := some 1, wife_id := some 2,
        notes := none, line_key := none, approx := some true, page_index := none,
        source_id := some 1, is_single_parent := false }
      (by simp [c8ft]) rfl G hG ?_
    rw [hid]
  · exact (C8_amended_theorem [] c8ft 1 3 4 0 0 0 { approx := some true } {}
      c8ft_fresh (by decide)).2.2.2.1 rfl
  · exact (C8_amended_theorem [] c8ft 1 0 0 0 1 9 {} {}
      c8ft_fresh (by decide)).2.2.2.2.2

/-- Counterexample to claim C5 as stated: attaching spouse 2 to parent 1,
who already has a single-parent family record in source 7, does not upgrade
that record; a second, two-parent family containing the same parent is
created and both records remain. -/
theorem C5_counterexample :
    (let F1 : FamilyR :=
       { id := 1, husband_id := some 1, wife_id := none,
         notes := none, line_key := none, approx := none, page_index := none,
         source_id := some 7, is_single_parent := true }
     let r := upsert_couple [] ⟨[F1], [], 2, 1⟩ 7 1 2 {}
     r.2.families.length = 2 ∧
     r.2.families.map (·.is_single_parent) = [true, false] ∧
     ∀ q ∈ r.2.families, q.husband_id = some 1) := by
  refine ⟨rfl, rfl, ?_⟩
  decide

/-- Claim C5 (amended): a couple upsert with two distinct parents never
modifies a single-parent family record; the record survives unchanged, and
the returned family is a two-parent record distinct from it, so a parent
with a single-parent family that gains a spouse ends up with both records. -/
theorem C5_amended_theorem (persons : List PersonR) (ft : FamTable)
    (src a b : Nat) (g : FamArgs) (F : FamilyR) (hne : a ≠ b)
    (hnd : (ft.families.map (·.id)).Nodup)
    (hF : F ∈ ft.families) (hsingle : F.is_single_parent = true)
    (hslot : F.husband_id = none ∨ F.wife_id = none) :
    F ∈ (upsert_couple persons ft src a b g).2.families ∧
    (upsert_couple persons ft src a b g).1.husband_id.isSome = true ∧
    (upsert_couple persons ft src a b g).1.wife_id.isSome = true ∧
    (upsert_couple persons ft src a b g).1.is_single_parent = false ∧
    (upsert_couple persons ft src a b g).1 ≠ F := by
  cases hfind : ft.families.find? (couple_pred src (pair_sorted a b)) with
  | some e =>
    rw [couple_found hne hfind]
    have hmem : e ∈ ft.families := List.mem_of_find?_eq_some hfind
    have hpred := @List.find?_some _ (couple_pred src (pair_sorted a b)) _ _ hfind
    simp only [couple_pred, Bool.and_eq_true, Bool.or_eq_true, beq_iff_eq] at hpred
    have hhs : e.husband_id.isSome = true := by
      rcases hpred.2 with ⟨h1, _⟩ | ⟨h1, _⟩ <;> simp [h1]
    have hws : e.wife_id.isSome = true := by
      rcases hpred.2 with ⟨_, h2⟩ | ⟨_, h2⟩ <;> simp [h2]
    have heF : e ≠ F := by
      intro hEq
      rcases hslot with hs | hs
      · rw [hEq, hs] at hhs; simp at hhs
      · rw [hEq, hs] at hws; simp at hws
    have hidF : F.id ≠ e.id := by
      intro hEq
      exact heF (List.inj_on_of_nodup_map hnd hmem hF hEq.symm)
    refine ⟨?_, ?_, ?_, rfl, ?_⟩
    · show F ∈ update_family ft.families e.id _
      simp only [update_family, List.mem_map]
      exact ⟨F, hF, by simp [hidF]⟩
    · show (fam_existing_updates (couple_pair_fix e (pair_sorted a b)) g).husband_id.isSome = true
      show (couple_pair_fix e (pair_sorted a b)).husband_id.isSome = true
      exact pair_fix_husband_some e _ hhs
    · show (fam_existing_updates (couple_pair_fix e (pair_sorted a b)) g).wife_id.isSome = true
      show (couple_pair_fix e (pair_sorted a b)).wife_id.isSome = true
      exact pair_fix_wife_some e _ hws
    · intro hEq
      have hx : F.is_single_parent = false := by rw [← hEq]; rfl
      rw [hsingle] at hx
      simp at hx
  | none =>
    rw [couple_missed hne hfind]
    refine ⟨by simp [hF], rfl, rfl, rfl, ?_⟩
    intro hEq
    have hx : F.is_single_parent = false := by rw [← hEq]; rfl
    rw [hsingle] at hx
    simp at hx

/-- The single-parent family of the C5 counterexample state. -/
def c5F1 : FamilyR :=
  { id := 1, husband_id := some 1, wife_id := none,
    notes := none, line_key := none, approx := none, page_index := none,
    source_id := some 7, is_single_parent := true }

/-- Witness for C5 (amended) at the counterexample state. -/
theorem C5_witness :
    c5F1 ∈ (upsert_couple [] ⟨[c5F1], [], 2, 1⟩ 7 1 2 {}).2.families ∧
    (upsert_couple [] ⟨[c5F1], [], 2, 1⟩ 7 1 2 {}).1 ≠ c5F1 := by
  refine ⟨?_, ?_⟩
  · exact (C5_amended_theorem [] ⟨[c5F1], [], 2, 1⟩ 7 1 2 {} c5F1 (by decide) (by decide)
      (by simp) rfl (Or.inr rfl)).1
  · exact (C5_amended_theorem [] ⟨[c5F1], [], 2, 1⟩ 7 1 2 {} c5F1 (by decide) (by decide)
      (by simp) rfl (Or.inr rfl)).2.2.2.2

/-! ## `parser.py`: normalization passes

`normalize_ocr_text` is a chain of regex substitutions followed by a
line-classification loop.  Each `re.sub` is hand-compiled into a scanner:
`sub_scan` walks the input left to right exactly as `re.sub` does
(leftmost match, non-overlapping, continue after the match, `(?m)^` = at
the start of the string or after a newline), with the number of performed
steps bounded by the input length since every match consumes at least one
character. -/

/-- `page.replace("\r\n", "\n").replace("\r", "\n")`. -/
def normalize_newlines : List Char → List Char
  | [] => []
  | '\x0d' :: '\n' :: rest => '\n' :: normalize_newlines rest
  | '\x0d' :: rest => '\n' :: normalize_newlines rest
  | c :: rest => c :: normalize_newlines rest

/-- `re.sub(r"(\w)-\n(\w)", r"\1\2", text)`: rejoin hyphen-wrapped words. -/
def dehyphenate : List Char → List Char
  | [] => []
  | a :: '-' :: '\n' :: b :: rest2 =>
    if is_word_char a && is_word_char b then a :: b :: dehyphenate rest2
    else a :: dehyphenate ('-' :: '\n' :: b :: rest2)
  | a :: rest => a :: dehyphenate rest

def dash_variants : List Char :=
  ['‐', '‑', '‒', '–', '—', '―', '−']

/-- The `DASH_VARIANTS` replacement loop. -/
def unify_dashes (l : List Char) : List Char :=
  l.map (fun c => if dash_variants.contains c then '-' else c)

/-- Generic driver for one `re.sub` pass: at every position (left to
right) try `step`; on a match emit its replacement and continue after the
consumed input, otherwise copy one character.  The fuel is the input
length (every match consumes at least one character). -/
def sub_scan (step : Bool → List Char → Option (List Char × Bool × List Char)) :
    Nat → Bool → List Char → List Char
  | 0, _, l => l
  | _ + 1, _, [] => []
  | fuel + 1, atStart, c :: rest =>
    match step atStart (c :: rest) with
    | some (emit, nextStart, remaining) => emit ++ sub_scan step fuel nextStart remaining
    | none => c :: sub_scan step fuel (c == '\n') rest

/-- `re.sub(r"(?m)^(\s*sp)\s*[-~]\s*", r"\1- ", text, flags=re.IGNORECASE)`.
The greedy `\s*` runs are forced by the following literal characters, so
the parse is deterministic; the trailing `\s*` may consume newlines, hence
the continuation line-start flag from its last character. -/
def step_sp_leading (atStart : Bool) (l : List Char) :
    Option (List Char × Bool × List Char) :=
  if !atStart then none
  else
    let ws1 := l.takeWhile py_ws
    match l.dropWhile py_ws with
    | s :: p :: r2 =>
      if (s == 's' || s == 'S') && (p == 'p' || p == 'P') then
        match r2.dropWhile py_ws with
        | d :: r4 =>
          if d == '-' || d == '~' then
            some (ws1 ++ [s, p, '-', ' '],
                  (match (r4.takeWhile py_ws).getLast? with
                   | some c => c == '\n'
                   | none => false),
                  r4.dropWhile py_ws)
          else none
        | [] => none
      else none
    | _ => none

/-- `re.sub(r"(\))\s*[X×+*]?\s*sp-", r"\1 sp-", text, flags=re.IGNORECASE)`.
`re.IGNORECASE` makes the artifact class also match lowercase `x` (the
other class members have no case).  If the optional artifact character is
present the literal `sp-` cannot start at it (`s`/`S` is not in the
class), so no backtracking over the option is needed. -/
def step_inline_sp (_atStart : Bool) (l : List Char) :
    Option (List Char × Bool × List Char) :=
  match l with
  | ')' :: r1 =>
    let r2 := r1.dropWhile py_ws
    let r3 := match r2 with
      | x :: rr =>
        if x == 'X' || x == 'x' || x == '×' || x == '+' || x == '*' then
          rr.dropWhile py_ws
        else r2
      | [] => r2
    (match r3 with
     | s :: p :: d :: r4 =>
       if (s == 's' || s == 'S') && (p == 'p' || p == 'P') && d == '-' then
         some ([')', ' ', 's', 'p', '-'], false, r4)
       else none
     | _ => none)
  | _ => none

/-- The `\s*(\d+)\s*[*+]{1}\s*-` tail of the scribbled-generation pattern
(greedy digit and whitespace runs are forced by the following literals). -/
def genstar_tail (r : List Char) : Option (List Char × List Char) :=
  let r1 := r.dropWhile py_ws
  let ds := r1.takeWhile Char.isDigit
  if ds.isEmpty then none
  else
    match (r1.dropWhile Char.isDigit).dropWhile py_ws with
    | c :: r3 =>
      if c == '*' || c == '+' then
        match r3.dropWhile py_ws with
        | '-' :: r5 => some (ds, r5)
        | _ => none
      else none
    | [] => none

/-- `re.sub(r"(^|\)|\d)\s*(\d+)\s*[*+]{1}\s*-", r"\1\2-- ", text,
flags=re.MULTILINE)`: the `^` alternative of group 1 is tried first (at a
line start), then `)` and a digit at the same position. -/
def step_genstar (atStart : Bool) (l : List Char) :
    Option (List Char × Bool × List Char) :=
  let alt_punct : Option (List Char × Bool × List Char) :=
    match l with
    | c :: r =>
      if c == ')' || c.isDigit then
        match genstar_tail r with
        | some (ds, rest) => some (c :: (ds ++ ['-', '-', ' ']), false, rest)
        | none => none
      else none
    | [] => none
  if atStart then
    match genstar_tail l with
    | some (ds, rest) => some (ds ++ ['-', '-', ' '], false, rest)
    | none => alt_punct
  else alt_punct

/-- `re.sub(r"(?m)^(\s*\d+)\s*-{1,2}\s*", r"\1-- ", text)`. -/
def step_gen_dashes (atStart : Bool) (l : List Char) :
    Option (List Char × Bool × List Char) :=
  if !atStart then none
  else
    let ws1 := l.takeWhile py_ws
    let r1 := l.dropWhile py_ws
    let ds := r1.takeWhile Char.isDigit
    if ds.isEmpty then none
    else
      match (r1.dropWhile Char.isDigit).dropWhile py_ws with
      | '-' :: r3 =>
        let r4 := match r3 with
          | '-' :: r3' => r3'
          | _ => r3
        some (ws1 ++ ds ++ ['-', '-', ' '],
              (match (r4.takeWhile py_ws).getLast? with
               | some c => c == '\n'
               | none => false),
              r4.dropWhile py_ws)
      | _ => none

/-! ## `parser.py`: line classification -/

/-- `text.split("\n")` (Python keeps empty fields). -/
def split_newline : List Char → List (List Char)
  | [] => [[]]
  | '\n' :: rest => [] :: split_newline rest
  | c :: rest =>
    match split_newline rest with
    | h :: t => (c :: h) :: t
    | [] => [[c]]

/-- `re.sub(r"\s+", " ", line)`, fuel-driven (every step consumes at least
one character, so fuel equal to the input length never runs out). -/
def collapse_go : Nat → List Char → List Char
  | 0, l => l
  | _ + 1, [] => []
  | fuel + 1, c :: rest =>
    if py_ws c then ' ' :: collapse_go fuel (rest.dropWhile py_ws)
    else c :: collapse_go fuel rest

def collapse_ws (l : List Char) : List Char := collapse_go l.length l

/-- Case-insensitive literal match of `w` (given in lowercase) against the
start of `s`. -/
def starts_with_ci (w : List Char) (s : List Char) : Bool :=
  match w, s with
  | [], _ => true
  | _ :: _, [] => false
  | a :: ws, b :: ss => (b.toLower == a) && starts_with_ci ws ss

/-- `re.match(r"^\s*Page\s+\d+\s*$", line, re.IGNORECASE)`. -/
def header_page (l : List Char) : Bool :=
  let r := l.dropWhile py_ws
  if starts_with_ci ['p', 'a', 'g', 'e'] r then
    let r1 := r.drop 4
    if (r1.takeWhile py_ws).isEmpty then false
    else
      let r2 := r1.dropWhile py_ws
      if (r2.takeWhile Char.isDigit).isEmpty then false
      else ((r2.dropWhile Char.isDigit).dropWhile py_ws).isEmpty
  else false

def month_forms : List (List Char) :=
  ["jan", "january", "feb", "february", "mar", "march", "apr", "april", "may",
   "jun", "june", "jul", "july", "aug", "august", "sep", "sept", "september",
   "oct", "october", "nov", "november", "dec", "december"].map String.toList

/-- The month/year header pattern: some alternative of the month group
matches literally, then `\s+\d{4}\s*$` (the digit run must be exactly 4
long because a fifth digit would fall into the `\s*` which cannot match
it). -/
def header_month (l : List Char) : Bool :=
  let r := l.dropWhile py_ws
  month_forms.any (fun w =>
    starts_with_ci w r &&
    (let r1 := r.drop w.length
     !(r1.takeWhile py_ws).isEmpty &&
     (let r2 := r1.dropWhile py_ws
      (r2.takeWhile Char.isDigit).length == 4 &&
      ((r2.dropWhile Char.isDigit).dropWhile py_ws).isEmpty)))

def descend_forms : List (List Char) :=
  ["descendancy", "descendency", "descendants", "genealogy"].map String.toList

/-- `re.match(r"^\s*(?:Descendancy|...)\b.*$", line, re.IGNORECASE)`: the
`\b` holds iff the next character is absent or a non-word character. -/
def header_descend (l : List Char) : Bool :=
  let r := l.dropWhile py_ws
  descend_forms.any (fun w =>
    starts_with_ci w r &&
    (match r.drop w.length with
     | [] => true
     | c :: _ => !is_word_char c))

def is_header (l : List Char) : Bool :=
  header_page l || header_month l || header_descend l

/-! ### The three record patterns -/

def x_class (c : Char) : Bool :=
  c == 'x' || c == 'X' || c == '×' || c == '✗' || c == '✘'

def gen_class (c : Char) : Bool :=
  c.isDigit || c == 'I' || c == 'l' || c == '|' || c == 'O'

def alt_gen_class (c : Char) : Bool :=
  c.isDigit || c == 'I' || c == 'V' || c == 'X' || c == 'i' || c == 'v' || c == 'x'

/-- Skip `(?:[xX×✗✘]+\s*){0,2}\s*` greedily.  This is faithful for
`PERSON_PATTERN` only: its generation class `[0-9Il|O]` is disjoint from
the mark class and from whitespace, so regex backtracking out of the
prefix can never produce a match the greedy skip misses (a mark character
given back would sit at the generation-group position and fail).  The alt
pattern's generation class shares `x`/`X` with the mark class, so
`alt_pattern_match` below models the backtracking explicitly instead of
using this skip. -/
def after_x_marks (l : List Char) : List Char :=
  let skip1 : List Char → List Char := fun s =>
    match s with
    | c :: _ => if x_class c then (s.dropWhile x_class).dropWhile py_ws else s
    | [] => s
  (skip1 (skip1 l)).dropWhile py_ws

/-- Try `[0-9Il|O]{k}` then `\s*--\s+(.*)$` at `r`. -/
def person_try (r : List Char) (k : Nat) : Option (List Char × List Char) :=
  let g1 := r.take k
  if g1.length == k && g1.all gen_class then
    match (r.drop k).dropWhile py_ws with
    | '-' :: '-' :: r3 =>
      if (match r3 with | c :: _ => py_ws c | [] => false) then
        some (g1, r3.dropWhile py_ws)
      else none
    | _ => none
  else none

/-- `PERSON_PATTERN = ^\s*(?:[xX×✗✘]+\s*){0,2}\s*([0-9Il|O]{1,2})\s*--\s+(.*)$`
applied to a single (newline-free) line; returns (group 1, group 2 with
its leading `\s+` removed — group 2 runs to the end of the line). -/
def person_pattern_match (l : List Char) : Option (List Char × List Char) :=
  let r := after_x_marks (l.dropWhile py_ws)
  (person_try r 2).orElse fun _ => person_try r 1

def alt_try (r : List Char) (k : Nat) : Option (List Char × List Char) :=
  let g1 := r.take k
  if g1.length == k && g1.all alt_gen_class then
    match r.drop k with
    | '.' :: r3 =>
      if (match r3 with | c :: _ => py_ws c | [] => false) then
        some (g1, r3.dropWhile py_ws)
      else none
    | _ => none
  else none

/-- The `\s*([IVXivx0-9]{1,3})\.\s+(.*)$` tail of `PERSON_PATTERN_ALT`
(longest generation group first). -/
def alt_rest (r : List Char) : Option (List Char × List Char) :=
  let r' := r.dropWhile py_ws
  (alt_try r' 3).orElse fun _ => (alt_try r' 2).orElse fun _ => alt_try r' 1

/-- Backtracking over the greedy `[xX×✗✘]+` of the second (last allowed)
prefix iteration: try consuming `len` marks (longest first) followed by
whitespace and then the pattern tail; when every length fails, exit the
loop and match the tail at the current position. -/
def alt_len1 (r : List Char) : Nat → Option (List Char × List Char)
  | 0 => alt_rest r
  | len + 1 =>
    (alt_rest ((r.drop (len + 1)).dropWhile py_ws)).orElse fun _ =>
      alt_len1 r len

/-- The `(?:[xX×✗✘]+\s*){0,2}` prefix loop of `PERSON_PATTERN_ALT` with
one iteration budget left (greedy: an iteration is tried before exiting
the loop). -/
def alt_loop1 (r : List Char) : Option (List Char × List Char) :=
  if (match r with | c :: _ => x_class c | [] => false) then
    alt_len1 r (r.takeWhile x_class).length
  else alt_rest r

/-- Backtracking over the greedy mark run of the first prefix iteration;
the continuation still has one iteration budget. -/
def alt_len2 (r : List Char) : Nat → Option (List Char × List Char)
  | 0 => alt_rest r
  | len + 1 =>
    (alt_loop1 ((r.drop (len + 1)).dropWhile py_ws)).orElse fun _ =>
      alt_len2 r len

/-- `PERSON_PATTERN_ALT = ^\s*(?:[xX×✗✘]+\s*){0,2}\s*([IVXivx0-9]{1,3})\.\s+(.*)$`
with the Python engine's full backtracking: the optional mark prefix can
give marks back, so an `x`/`X` run can end up serving as the generation
group (`"x. Simon"` and `"xx. John"` match with group `"x"`). -/
def alt_pattern_match (l : List Char) : Option (List Char × List Char) :=
  let r := l.dropWhile py_ws
  if (match r with | c :: _ => x_class c | [] => false) then
    alt_len2 r (r.takeWhile x_class).length
  else alt_rest r

/-- `SPOUSE_PATTERN = ^\s*sp-\s*(.*)$` (IGNORECASE); returns group 1. -/
def spouse_pattern_match (l : List Char) : Option (List Char) :=
  match l.dropWhile py_ws with
  | s :: p :: d :: r =>
    if (s == 's' || s == 'S') && (p == 'p' || p == 'P') && d == '-' then
      some (r.dropWhile py_ws)
    else none
  | _ => none

/-! ### `_split_records` and the line loop -/

/-- Length of a `_RECORD_START_RE` match at the head of `l`, if any.  The
alternation is tried left to right: `\d+--`, then `[IVXivx0-9]{1,3}\.`
(longest repetition first), then `sp-` (the scan is case-sensitive except
that `re.IGNORECASE` is set, affecting only `sp`). -/
def marker_len (l : List Char) : Option Nat :=
  let ds := l.takeWhile Char.isDigit
  if !ds.isEmpty &&
      (match l.drop ds.length with | '-' :: '-' :: _ => true | _ => false) then
    some (ds.length + 2)
  else
    let alt2 : Nat → Option Nat := fun k =>
      let g := l.take k
      if g.length == k && g.all alt_gen_class &&
          (match l.drop k with | '.' :: _ => true | _ => false) then
        some (k + 1)
      else none
    match (alt2 3).orElse fun _ => (alt2 2).orElse fun _ => alt2 1 with
    | some n => some n
    | none =>
      match l with
      | s :: p :: d :: _ =>
        if (s == 's' || s == 'S') && (p == 'p' || p == 'P') && d == '-' then some 3
        else none
      | _ => none

/-- Start positions of the non-overlapping `finditer` matches of
`_RECORD_START_RE`; a match of length `k ≥ 3` moves the scan past it. -/
def marker_starts : Nat → Nat → List Char → List Nat
  | 0, _, _ => []
  | _ + 1, _, [] => []
  | fuel + 1, pos, c :: rest =>
    match marker_len (c :: rest) with
    | some k => pos :: marker_starts fuel (pos + k) ((c :: rest).drop k)
    | none => marker_starts fuel (pos + 1) rest

/-- `_split_records(line)`. -/
def split_records (line : List Char) : List (List Char) :=
  let starts := marker_starts line.length 0 line
  match starts with
  | [] => [line]
  | s0 :: _ =>
    let bounds := starts.zip (starts.tail ++ [line.length])
    let segs := (bounds.map
        (fun ab => strip_both py_ws ((line.drop ab.1).take (ab.2 - ab.1)))).filter
      (fun s => !s.isEmpty)
    let pfx := strip_both py_ws (line.take s0)
    if !pfx.isEmpty && !segs.isEmpty then
      match segs with
      | g :: gs => (pfx ++ [' '] ++ g) :: gs
      | [] => segs
    else segs

def is_record_start (seg : List Char) : Bool :=
  (person_pattern_match seg).isSome || (alt_pattern_match seg).isSome ||
  (spouse_pattern_match seg).isSome

/-- The `buffer` loop of `normalize_ocr_text`: a segment opening a record
flushes the buffer; a continuation segment is appended to it with a
space.  (In the source the buffer persists across input lines, so the
loop can be run once over the concatenated segment stream.) -/
def buffer_fold : Option (List Char) → List (List Char) → List (List Char)
  | buf, [] => (match buf with | some b => [b] | none => [])
  | buf, seg :: rest =>
    if is_record_start seg then
      (match buf with | some b => [b] | none => []) ++ buffer_fold (some seg) rest
    else
      match buf with
      | none => buffer_fold (some seg) rest
      | some b => buffer_fold (some (b ++ [' '] ++ seg)) rest

/-- `normalize_ocr_text(page)`: the four substitution passes, then per
line strip → drop empties and headers → collapse whitespace →
`_split_records` → the shared buffer loop. -/
def normalize_ocr_text (page : String) : List String :=
  let t0 := unify_dashes (dehyphenate (normalize_newlines page.toList))
  let t1 := sub_scan step_sp_leading t0.length true t0
  let t2 := sub_scan step_inline_sp t1.length true t1
  let t3 := sub_scan step_genstar t2.length true t2
  let t4 := sub_scan step_gen_dashes t3.length true t3
  let kept := ((split_newline t4).map (strip_both py_ws)).filter
    (fun s => !s.isEmpty && !is_header s)
  (buffer_fold none ((kept.map collapse_ws).flatMap split_records)).map
    (fun s => String.mk s)

/-! ### `_parse_person_entry` and its helpers -/

/-- Split at the first occurrence of `ch`: `some (before, after)` or
`none` when absent. -/
def break_at_char (ch : Char) : List Char → Option (List Char × List Char)
  | [] => none
  | c :: rest =>
    if c == ch then some ([], rest)
    else
      match break_at_char ch rest with
      | some ab => some (c :: ab.1, ab.2)
      | none => none

/-- `re.findall(r"-(\d+)", name_part)`: group values of the
non-overlapping matches (fuel-driven, each step consuming at least one
character). -/
def find_ids_go : Nat → List Char → List (List Char)
  | 0, _ => []
  | _ + 1, [] => []
  | fuel + 1, c :: rest =>
    if c == '-' then
      let ds := rest.takeWhile Char.isDigit
      if ds.isEmpty then find_ids_go fuel rest
      else ds :: find_ids_go fuel (rest.drop ds.length)
    else find_ids_go fuel rest

def find_ids (l : List Char) : List (List Char) := find_ids_go l.length l

/-- `re.sub(r"-\d+(?=\b)", "", name_part)`: remove a dash-number run when
the position after the digits is a word boundary (end of string or a
non-word character; the digits are word characters).  A failed attempt at
a `-` cannot be rescued by starting inside the digit run (the pattern
starts with `-`), so the scan simply continues. -/
def remove_ids_go : Nat → List Char → List Char
  | 0, l => l
  | _ + 1, [] => []
  | fuel + 1, c :: rest =>
    if c == '-' then
      let ds := rest.takeWhile Char.isDigit
      if ds.isEmpty then c :: remove_ids_go fuel rest
      else if (match rest.drop ds.length with
               | [] => true
               | d :: _ => !is_word_char d) then
        remove_ids_go fuel (rest.drop ds.length)
      else c :: remove_ids_go fuel rest
    else c :: remove_ids_go fuel rest

def remove_ids (l : List Char) : List Char := remove_ids_go l.length l

/-- `name_part.split()`: whitespace-separated tokens, no empties
(fuel-driven; every step consumes the non-empty token it emits). -/
def py_split_go : Nat → List Char → List (List Char)
  | 0, _ => []
  | fuel + 1, l =>
    match l.dropWhile py_ws with
    | [] => []
    | c :: r1 =>
      let tok := (c :: r1).takeWhile (fun x => !py_ws x)
      tok :: py_split_go fuel ((c :: r1).drop tok.length)

def py_split_ws (l : List Char) : List (List Char) := py_split_go l.length l

/-- The token filter of `_split_name_components`: keep the `[A-Za-z]`
characters; the token is surname-shaped when the result is non-empty and
equal to its own uppercasing. -/
def all_caps_token (token : List Char) : Bool :=
  let alpha := token.filter Char.isAlpha
  !alpha.isEmpty && alpha.all (fun c => c.toUpper == c)

def join_with_space (tokens : List (List Char)) : List Char :=
  List.intercalate [' '] tokens

def comma_or_space (c : Char) : Bool := c == ',' || c == ' '

def strip_comma (l : List Char) : List Char := strip_both (fun c => c == ',') l

/-- The shared tail of `_split_name_components` once `surname_idx` is
fixed. -/
def split_at_surname (tokens : List (List Char)) (idx : Nat) :
    Option (List Char) × Option (List Char) × Option (List Char) :=
  let surname0 := strip_comma (tokens.getD idx [])
  let surname := if surname0 = ['?'] then none else some surname0
  let given := strip_both py_ws (join_with_space (tokens.take idx))
  let title := strip_both comma_or_space (join_with_space (tokens.drop (idx + 1)))
  ((if given.isEmpty then none else some given), surname,
   (if title.isEmpty then none else some title))

/-- `_split_name_components` (returns given, surname, title; the loop keeps
the LAST all-caps token index). -/
def split_name_components (name_part : List Char) :
    Option (List Char) × Option (List Char) × Option (List Char) :=
  let tokens := py_split_ws name_part
  if tokens.isEmpty then (none, none, none)
  else
    match ((tokens.enum.filter (fun x => all_caps_token x.2)).getLast?).map (·.1) with
    | some idx => split_at_surname tokens idx
    | none =>
      if tokens.length == 1 then
        let token := strip_comma (tokens.headD [])
        (if token.isEmpty then none else some token, none, none)
      else split_at_surname tokens (tokens.length - 1)

/-- `re.match(r'^b\.?\s*(.+)$', cleaned, re.IGNORECASE)` (or `d`): the
optional dot is consumed greedily; when the remainder after it strips to
nothing the regex backtracks and the group starts at the dot.  `cleaned`
has no trailing whitespace, so a whitespace-only group is impossible. -/
def bd_group (marker : Char) (cleaned : List Char) : Option (List Char) :=
  match cleaned with
  | c :: rest =>
    if c.toLower == marker then
      let no_dot : Option (List Char) :=
        let g2 := rest.dropWhile py_ws
        if g2.isEmpty then none else some g2
      match rest with
      | '.' :: r2 =>
        let g := r2.dropWhile py_ws
        if g.isEmpty then no_dot else some g
      | _ => no_dot
    else none
  | [] => none

/-- Suffix check `\s*liv(?:ing)?\.?$` after the `-` of the living
pattern. -/
def living_suffix_ok (r : List Char) : Bool :=
  match r.dropWhile py_ws with
  | l1 :: i1 :: v1 :: rest =>
    if l1.toLower == 'l' && i1.toLower == 'i' && v1.toLower == 'v' then
      match rest with
      | [] => true
      | ['.'] => true
      | i2 :: n2 :: g2 :: rest2 =>
        if i2.toLower == 'i' && n2.toLower == 'n' && g2.toLower == 'g' then
          match rest2 with | [] => true | ['.'] => true | _ => false
        else false
      | _ => false
    else false
  | _ => false

/-- `re.match(r'^(.+?)-\s*liv(?:ing)?\.?$', cleaned, re.IGNORECASE)`: the
lazy group takes the shortest non-empty prefix whose following `-` starts
a matching suffix.  `acc` is the reversed group so far. -/
def living_go : List Char → List Char → Option (List Char)
  | [], _ => none
  | c :: rest, acc =>
    if c == '-' && !acc.isEmpty && living_suffix_ok rest then some acc.reverse
    else living_go rest (c :: acc)

def opt_of_strip (g : List Char) : Option (List Char) :=
  let s := strip_both py_ws g
  if s.isEmpty then none else some s

/-- `_split_vitals`. -/
def split_vitals : Option (List Char) → Option (List Char) × Option (List Char)
  | none => (none, none)
  | some vt =>
    if vt.isEmpty then (none, none)
    else
      let cleaned := strip_both py_ws vt
      match bd_group 'b' cleaned with
      | some g => (opt_of_strip g, none)
      | none =>
        match bd_group 'd' cleaned with
        | some g => (none, opt_of_strip g)
        | none =>
          match living_go cleaned [] with
          | some g => (opt_of_strip g, none)
          | none =>
            match break_at_char '-' cleaned with
            | some ab => (opt_of_strip ab.1, opt_of_strip ab.2)
            | none => (opt_of_strip cleaned, none)

def approx_words : List (List Char) :=
  ["abt", "about", "approx", "around", "circa", "ca", "c", "bef", "aft",
   "before", "after"].map String.toList

/-- `APPROX_WORD_RE.search(cleaned)`: some listed word occurs with a word
boundary on each side (`prevWord` says whether the previous character was
a word character; the optional trailing dot of the `ca./c./bef./aft.`
alternatives adds no matches, since a dot after the word is itself a
non-word character giving the boundary). -/
def approx_word_found (prevWord : Bool) (s : List Char) : Bool :=
  match s with
  | [] => false
  | c :: rest =>
    (!prevWord && approx_words.any (fun w =>
        starts_with_ci w (c :: rest) &&
        (match (c :: rest).drop w.length with
         | [] => true
         | d :: _ => !is_word_char d)))
    || approx_word_found (is_word_char c) rest

/-- `_build_vital`. -/
def build_vital : Option (List Char) → Option Vital
  | none => none
  | some value =>
    if value.isEmpty then none
    else
      let cleaned := strip_both py_ws value
      some { raw := String.mk cleaned,
             approx := approx_word_found false cleaned || cleaned.contains '?' ||
               (match cleaned.getLast? with | some c => c == '-' | none => false),
             year := find_four_digits cleaned }

/-- The dict returned by `_parse_person_entry`. -/
structure EntryData where
  display : String
  given : Option String
  surname : Option String
  title : Option String
  notes : Option String
  vitals : Vitals
  approx : Bool
  birth_year : Option Nat
deriving DecidableEq, Repr

/-- `_parse_person_entry`. -/
def parse_person_entry (text_value : List Char) : EntryData :=
  let working := strip_both py_ws text_value
  let paren : Option (List Char × List Char × List Char) :=
    match break_at_char '(' working with
    | some br =>
      match break_at_char ')' br.2 with
      | some ia => some (br.1, ia.1, ia.2)
      | none => none
    | none => none
  let vital_text : Option (List Char) := paren.map (fun x => strip_both py_ws x.2.1)
  let tail : Option (List Char) :=
    paren.map (fun x => strip_both (fun c => c == ' ' || c == ',' || c == ';') x.2.2)
  let name_part0 := match paren with
    | some x => strip_both py_ws x.1
    | none => working
  let id_matches := find_ids name_part0
  let name_part :=
    strip_both (fun c => c == ' ' || c == ',' || c == ';')
      (collapse_ws (remove_ids name_part0))
  let notes_parts : List (List Char) :=
    (match tail with
     | some t => if t.isEmpty then [] else [t]
     | none => []) ++ id_matches.map (fun m => ['I', 'D', ' '] ++ m)
  let notes : Option (List Char) :=
    if notes_parts.isEmpty then none
    else some (List.intercalate [';', ' '] notes_parts)
  let nsc := split_name_components name_part
  let bd := split_vitals vital_text
  let birth_info := build_vital bd.1
  let death_info := build_vital bd.2
  let approx0 := (match birth_info with | some b => b.approx | none => false) ||
                 (match death_info with | some d => d.approx | none => false)
  let approx1 := approx0 ||
    (match vital_text with
     | some vt =>
       let tv := strip_both py_ws vt
       (match tv with | c :: _ => c == '-' | [] => false) ||
       (match tv.getLast? with | some c => c == '-' | none => false)
     | none => false)
  let approx2 := approx1 || name_part.contains '?' ||
    (match vital_text with
     | some vt => !vt.isEmpty && vt.contains '?'
     | none => false)
  { display := if name_part.isEmpty then "Unknown" else String.mk name_part,
    given := nsc.1.map (fun s => String.mk s),
    surname := nsc.2.1.map (fun s => String.mk s),
    title := nsc.2.2.map (fun s => String.mk s),
    notes := notes.map (fun s => String.mk s),
    vitals := ⟨birth_info, death_info⟩,
    approx := approx2,
    birth_year := match birth_info with | some b => b.year | none => none }

/-! ### Pass 1: `extract_persons_pass1` -/

/-- `_make_line_key` (the SHA1 payload `src:page:line:strip(raw)`,
modelled by its preimage). -/
def make_line_key (src pg ln : Nat) (raw : String) : LineKey :=
  ⟨src, pg, ln, py_strip py_ws raw⟩

def family_line_key (src pg ln principal spouse : Nat) : FamKey :=
  ⟨src, pg, ln, principal, spouse⟩

def child_link_key (src pg ln child fam : Nat) : ChildKey :=
  ⟨src, pg, ln, child, fam⟩

/-- `iter_lines(pages, page_indexes)`. -/
def iter_lines (pages : List String) (page_indexes : Option (List Nat)) :
    List (Nat × Nat × String) :=
  (page_indexes.getD (List.range pages.length)).flatMap fun pi =>
    if pi < pages.length then
      (normalize_ocr_text (pages.getD pi "")).enum.map (fun le => (pi, le.1, le.2))
    else []

/-- The classification of a raw line in pass 1 (primary pattern first,
alternative pattern only if the primary failed, then the spouse
pattern). -/
inductive LineClass where
  | person (g body : List Char)
  | alt (g body : List Char)
  | spouse (body : List Char)
  | other
deriving DecidableEq, Repr

def classify_line (raw : List Char) : LineClass :=
  match person_pattern_match raw with
  | some gb => .person gb.1 gb.2
  | none =>
    match alt_pattern_match raw with
    | some gb => .alt gb.1 gb.2
    | none =>
      match spouse_pattern_match raw with
      | some b => .spouse b
      | none => .other

/-- `GEN_CHAR_MAP` (`str.translate`). -/
def gen_char_map (c : Char) : Char :=
  if c == 'I' || c == 'l' || c == '|' then '1'
  else if c == 'O' || c == 'o' then '0'
  else c

def digits_to_nat (ds : List Char) : Nat :=
  ds.foldl (fun n c => n * 10 + (c.toNat - 48)) 0

/-- The primary-pattern generation parse: translate, strip non-digits
(`re.sub(r'\D', '')`), `int` if non-empty. -/
def parse_gen_primary (raw_gen : List Char) : Option Int :=
  let normalized := (raw_gen.map gen_char_map).filter Char.isDigit
  if normalized.isEmpty then none else some (digits_to_nat normalized : Nat)

def roman_value (c : Char) : Option Nat :=
  if c == 'I' then some 1 else if c == 'V' then some 5
  else if c == 'X' then some 10 else if c == 'L' then some 50
  else if c == 'C' then some 100 else if c == 'D' then some 500
  else if c == 'M' then some 1000 else none

/-- `_roman_to_int` (note: `prev_value` is updated on every iteration of
the reversed scan). -/
def roman_to_int (s : List Char) : Option Int :=
  let up := s.map Char.toUpper
  if up.isEmpty || !(up.all (fun c => (roman_value c).isSome)) then none
  else
    some (up.reverse.foldl
      (fun acc c =>
        let v := ((roman_value c).getD 0 : Int)
        (if v < acc.2 then acc.1 - v else acc.1 + v, v))
      ((0 : Int), (0 : Int))).1

/-- The alternative-pattern generation parse: `int` when all digits,
otherwise Roman. -/
def parse_gen_alt (raw_gen : List Char) : Option Int :=
  if !raw_gen.isEmpty && raw_gen.all Char.isDigit then
    some (digits_to_nat raw_gen : Nat)
  else roman_to_int raw_gen

/-- `PersonRecord`. -/
structure PRecord where
  person_id : Nat
  gen : Int
  page_index : Nat
  line_index : Nat
  is_spouse : Bool
deriving DecidableEq, Repr

/-- `_update_person_location` (each comparison reads only the field it may
overwrite, so the sequential updates are written field-locally). -/
def set_person_location (p : PersonR) (pg ln : Nat) : PersonR :=
  { p with
    page_index := if p.page_index ≠ some pg then some pg else p.page_index,
    line_index := if p.line_index ≠ some ln then some ln else p.line_index }

def update_person_location (pt : PersonTable) (p : PersonR) (pg ln : Nat) :
    PersonTable :=
  { pt with persons := update_person pt.persons p.id (set_person_location p pg ln) }

/-- The keyword arguments passed to `Person.upsert_from_parse` by pass 1
for a parsed entry. -/
def entry_upsert_args (d : EntryData) (g : Int) (key : LineKey) : UpsertArgs :=
  { given := d.given, surname := d.surname, name := some d.display,
    gen := some g, title := d.title, notes := d.notes,
    vitals := some d.vitals, line_key := some key, approx := some d.approx }

/-- The full keyword-argument record passed to `Person.upsert_from_parse`
for one pass-1 line (`text_value = match.group(...).strip()` then
`_parse_person_entry`). -/
def line_args (src : Nat) (body : List Char) (g : Int) (pg ln : Nat)
    (raw : String) : UpsertArgs :=
  entry_upsert_args (parse_person_entry (strip_both py_ws body)) g
    (make_line_key src pg ln raw)

/-- The shared upsert/update-location part of the pass-1 person, alt and
spouse branches. -/
def pass1_upsert (mp : String → String) (pt : PersonTable) (src : Nat)
    (body : List Char) (g : Int) (pg ln : Nat) (raw : String) (is_sp : Bool) :
    PersonTable × PRecord :=
  let pu := upsert_from_parse mp pt src (line_args src body g pg ln raw)
  (update_person_location pu.2 pu.1 pg ln, ⟨pu.1.id, g, pg, ln, is_sp⟩)

/-- What one iteration of the pass-1 loop produces:
table, last principal record, appended record, flagged line. -/
structure Pass1Step where
  pt : PersonTable
  lp : Option PRecord
  record : Option PRecord
  flagged : Option String
deriving Repr

/-- One iteration of the pass-1 loop over `(page_index, line_index, raw)`.
A person/alt line with an unparseable generation token is flagged; an
orphan spouse line (no `last_principal_person` yet) is skipped without
being flagged. -/
def pass1_step (mp : String → String) (src : Nat) (pt : PersonTable)
    (lp : Option PRecord) (pg ln : Nat) (raw : String) : Pass1Step :=
  let person_branch : Option Int → Pass1Step := fun gen? =>
    match gen? with
    | none => ⟨pt, lp, none, some raw⟩
    | some gen =>
      let r := pass1_upsert mp pt src
        (match classify_line raw.toList with
         | .person _ body => body
         | .alt _ body => body
         | _ => []) gen pg ln raw false
      if r.2.person_id ≠ 0 then ⟨r.1, some r.2, some r.2, none⟩
      else ⟨r.1, lp, none, none⟩
  match classify_line raw.toList with
  | .person g _ => person_branch (parse_gen_primary g)
  | .alt g _ => person_branch (parse_gen_alt g)
  | .spouse body =>
    match lp with
    | some pr =>
      let r := pass1_upsert mp pt src body pr.gen pg ln raw true
      if r.2.person_id ≠ 0 then ⟨r.1, lp, some r.2, none⟩
      else ⟨r.1, lp, none, none⟩
    | none => ⟨pt, lp, none, none⟩
  | .other => ⟨pt, lp, none, none⟩

/-- The final state of pass 1. -/
structure Pass1Result where
  pt : PersonTable
  records : List PRecord
  flagged : List String
  lp : Option PRecord
deriving Repr

def pass1_go (mp : String → String) (src : Nat) :
    PersonTable → Option PRecord → List (Nat × Nat × String) → Pass1Result
  | pt, lp, [] => ⟨pt, [], [], lp⟩
  | pt, lp, (pg, ln, raw) :: rest =>
    let s := pass1_step mp src pt lp pg ln raw
    let r := pass1_go mp src s.pt s.lp rest
    ⟨r.pt, s.record.toList ++ r.records, s.flagged.toList ++ r.flagged, r.lp⟩

/-- `extract_persons_pass1`. -/
def extract_persons_pass1 (mp : String → String) (pt : PersonTable) (src : Nat)
    (pages : List String) (page_indexes : Option (List Nat)) : Pass1Result :=
  pass1_go mp src pt none (iter_lines pages page_indexes)

/-! ### Pass 2: `build_relationships_pass2` -/

/-- The running state of the pass-2 loop.  `tracker` is `gen_tracker`
(an insertion-ordered dict, used only through membership/lookup), `cache`
is `family_cache` restricted to the family ids (the cached object is only
consulted for `family.id`). -/
structure Pass2State where
  ft : FamTable
  tracker : List (Int × PRecord)
  cache : List ((Nat × Nat) × Nat)
  families_seen : Finset Nat
  children_seen : Finset Nat

def tr_set (t : List (Int × PRecord)) (g : Int) (r : PRecord) :
    List (Int × PRecord) :=
  if t.any (fun x => x.1 == g) then t.map (fun x => if x.1 == g then (g, r) else x)
  else t ++ [(g, r)]

/-- `del gen_tracker[g] for g > gen`. -/
def tr_drop_deeper (t : List (Int × PRecord)) (g : Int) : List (Int × PRecord) :=
  t.filter (fun x => !(decide (g < x.1)))

def tr_get (t : List (Int × PRecord)) (g : Int) : Option PRecord :=
  (t.find? (fun x => x.1 == g)).map (·.2)

def cache_get (c : List ((Nat × Nat) × Nat)) (pr : Nat × Nat) : Option Nat :=
  (c.find? (fun x => x.1 == pr)).map (·.2)

/-- `person_records.index(record)` (first index of an equal record). -/
def rec_idx (l : List PRecord) (r : PRecord) : Nat := l.findIdx (fun x => x == r)

/-- `session.get(Person, pid)` read of the `approx` flag
(`bool(p and p.approx)`). -/
def p_apx (persons : List PersonR) (pid : Nat) : Bool :=
  match persons.find? (fun q => q.id == pid) with
  | some p => p.approx.getD false
  | none => false

/-- The spouse lookahead: the record right after the parent, if it is a
spouse at the parent generation. -/
def spouse_lookahead (all_records : List PRecord) (parent : PRecord)
    (gen : Int) : Option Nat :=
  match all_records.get? (rec_idx all_records parent + 1) with
  | some nr => if nr.is_spouse && nr.gen == gen - 1 then some nr.person_id else none
  | none => none

/-- The keyword arguments of a pass-2 family operation. -/
def fam_key_args (src : Nat) (r : PRecord) (pr : Nat × Nat) (apx : Bool) :
    FamArgs :=
  ⟨some (family_line_key src r.page_index r.line_index pr.1 pr.2), some apx,
   some r.page_index⟩

/-- Couple upsert plus `family_cache[pair] = family` (returns `family.id`
and the updated state). -/
def pass2_couple (persons : List PersonR) (src : Nat) (st : Pass2State)
    (r : PRecord) (pr : Nat × Nat) (apx : Bool) : Nat × Pass2State :=
  let fd := upsert_couple persons st.ft src pr.1 pr.2 (fam_key_args src r pr apx)
  (fd.1.id, { st with ft := fd.2, cache := st.cache ++ [(pr, fd.1.id)] })

/-- Single-parent ensure plus `family_cache[(pid, pid)] = family`. -/
def pass2_single (persons : List PersonR) (src : Nat) (st : Pass2State)
    (r : PRecord) (pid : Nat) (apx : Bool) : Nat × Pass2State :=
  let fd := ensure_for_single_parent persons st.ft src pid
    (fam_key_args src r (pid, pid) apx)
  (fd.1.id, { st with ft := fd.2, cache := st.cache ++ [((pid, pid), fd.1.id)] })

/-- The `if family and family.id:` tail of the principal branch: mark the
family seen and link the child. -/
def pass2_child (src : Nat) (st : Pass2State) (r : PRecord) (fid : Nat)
    (apx : Bool) : Pass2State :=
  if fid ≠ 0 then
    let cd := child_link st.ft fid r.person_id
      ⟨some (child_link_key src r.page_index r.line_index r.person_id fid),
       some apx, some r.page_index⟩
    { st with ft := cd.2,
              families_seen := insert fid st.families_seen,
              children_seen :=
                if cd.1.id ≠ 0 then insert cd.1.id st.children_seen
                else st.children_seen }
  else st

/-- One iteration of the pass-2 loop. -/
def pass2_step (persons : List PersonR) (src : Nat) (all_records : List PRecord)
    (st : Pass2State) (record : PRecord) : Pass2State :=
  match persons.find? (fun q => q.id == record.person_id) with
  | none => st
  | some person =>
    if record.is_spouse then
      match (all_records.take (rec_idx all_records record)).reverse.find?
          (fun pr => pr.gen == record.gen && !pr.is_spouse) with
      | none => st
      | some principal =>
        let pr := pair_sorted principal.person_id record.person_id
        match cache_get st.cache pr with
        | some _ => st
        | none =>
          let fs := pass2_couple persons src st record pr
            (person.approx.getD false || p_apx persons principal.person_id)
          { fs.2 with families_seen :=
              if fs.1 ≠ 0 then insert fs.1 fs.2.families_seen
              else fs.2.families_seen }
    else
      let st1 : Pass2State :=
        { st with tracker :=
            tr_drop_deeper (tr_set st.tracker record.gen record) record.gen }
      if 1 < record.gen then
        match tr_get st1.tracker (record.gen - 1) with
        | none => st1
        | some parent_record =>
          let fs : Nat × Pass2State :=
            match spouse_lookahead all_records parent_record record.gen with
            | some sid =>
              let pr := pair_sorted parent_record.person_id sid
              match cache_get st1.cache pr with
              | some fid => (fid, st1)
              | none =>
                pass2_couple persons src st1 record pr
                  (p_apx persons parent_record.person_id || p_apx persons sid)
            | none =>
              match cache_get st1.cache
                  (parent_record.person_id, parent_record.person_id) with
              | some fid => (fid, st1)
              | none =>
                pass2_single persons src st1 record parent_record.person_id
                  (p_apx persons parent_record.person_id)
          pass2_child src fs.2 record fs.1 (person.approx.getD false)
      else st1

/-- `build_relationships_pass2` (returns the updated family/child tables
and the `families_seen`/`children_seen` sets). -/
def build_relationships_pass2 (persons : List PersonR) (src : Nat)
    (records : List PRecord) (ft : FamTable) :
    FamTable × Finset Nat × Finset Nat :=
  let fin := records.foldl (pass2_step persons src records) ⟨ft, [], [], ∅, ∅⟩
  (fin.ft, fin.families_seen, fin.children_seen)

/-! ### `parse_ocr_text` -/

/-- The stats dict returned by `parse_ocr_text`. -/
structure RunStats where
  people : Nat
  families : Nat
  children : Nat
  flagged_lines : List String
deriving Repr

structure ParseOut where
  pt : PersonTable
  ft : FamTable
  stats : RunStats
deriving Repr

/-- `parse_ocr_text`: pass 1 then pass 2;
`people = len(set(r.person_id for r in person_records))`. -/
def parse_ocr_text (mp : String → String) (pt : PersonTable) (ft : FamTable)
    (src : Nat) (pages : List String) (page_indexes : Option (List Nat)) :
    ParseOut :=
  let p1 := extract_persons_pass1 mp pt src pages page_indexes
  let p2 := build_relationships_pass2 p1.pt.persons src p1.records ft
  ⟨p1.pt, p2.1,
   ⟨(p1.records.map (·.person_id)).toFinset.card, p2.2.1.card, p2.2.2.card,
    p1.flagged⟩⟩

/-! ## C6: orphan spouse lines -/

/-- A raw line classified as a spouse line by the pass-1 cascade. -/
def is_spouse_class (raw : String) : Bool :=
  match classify_line raw.toList with
  | .spouse _ => true
  | _ => false

/-- A raw line that pass 1 skips outright when no principal record is
open: a spouse-marker line (the orphan case) or a line matching none of
the three patterns. -/
def skippable_class (raw : String) : Bool :=
  match classify_line raw.toList with
  | .spouse _ => true
  | .other => true
  | _ => false

/-- With no `last_principal_person`, a prefix of spouse-classified (or
unmatched) lines is a complete no-op of the pass-1 loop: nothing is
upserted, recorded or flagged, the table is unchanged, and still no
principal is open for the remaining lines. -/
theorem pass1_spouse_prefix (mp : String → String) (src : Nat) :
    ∀ (A rest : List (Nat × Nat × String)) (pt : PersonTable),
      (∀ l ∈ A, skippable_class l.2.2 = true) →
      pass1_go mp src pt none (A ++ rest) = pass1_go mp src pt none rest := by
  intro A
  induction A with
  | nil => intro rest pt _; rfl
  | cons a A2 ih =>
    intro rest pt h
    obtain ⟨pg, ln, raw⟩ := a
    have ha : skippable_class raw = true := h _ (List.mem_cons_self _ _)
    have hstep : pass1_step mp src pt none pg ln raw = ⟨pt, none, none, none⟩ := by
      cases hc : classify_line raw.data with
      | spouse body => simp [pass1_step, hc]
      | person g body => simp [skippable_class, hc] at ha
      | alt g body => simp [skippable_class, hc] at ha
      | other => simp [pass1_step, hc]
    have hrest : ∀ l ∈ A2, skippable_class l.2.2 = true :=
      fun l hl => h l (List.mem_cons_of_mem _ hl)
    simp [pass1_go, hstep, ih rest pt hrest]

/-- C6 counterexample: an orphan spouse line followed by a person line —
the spouse marker occurs before any successfully parsed person line, the
claim's scenario.  The spouse line creates no record (the run's only
person comes from the following person line), but the run's flagged-lines
list is empty — contradicting the claim that the raw spouse line is added
to the flagged list. -/
theorem C6_counterexample :
    is_spouse_class "sp- Sarah SMITH" = true ∧
    normalize_ocr_text "sp- Sarah SMITH\n1-- Ann SMITH" =
      ["sp- Sarah SMITH", "1-- Ann SMITH"] ∧
    (parse_ocr_text (fun s => s) empty_pt empty_ft 1
        ["sp- Sarah SMITH\n1-- Ann SMITH"] none).stats.people = 1 ∧
    (parse_ocr_text (fun s => s) empty_pt empty_ft 1
        ["sp- Sarah SMITH\n1-- Ann SMITH"] none).stats.flagged_lines = [] := by
  refine ⟨by decide, rfl, rfl, rfl⟩

/-- C6 (amended): spouse-marker lines occurring before any successfully
parsed person line create no person, family or child-link record and are
*not* flagged — they are silently skipped.  Formally: whenever the line
list splits as a prefix `A` of spouse-classified (or pattern-free) lines
followed by the remaining lines `rest`, the whole run equals the run on
`rest` alone, in every component (person table, family table, counts and
flagged lines). -/
theorem C6_orphan_spouse (mp : String → String) (pt : PersonTable)
    (ft : FamTable) (src : Nat) (pages : List String)
    (pis : Option (List Nat)) (A rest : List (Nat × Nat × String))
    (hsplit : iter_lines pages pis = A ++ rest)
    (hA : ∀ l ∈ A, skippable_class l.2.2 = true) :
    parse_ocr_text mp pt ft src pages pis =
      ⟨(pass1_go mp src pt none rest).pt,
       (build_relationships_pass2 (pass1_go mp src pt none rest).pt.persons
          src (pass1_go mp src pt none rest).records ft).1,
       ⟨((pass1_go mp src pt none rest).records.map
           (·.person_id)).toFinset.card,
        (build_relationships_pass2 (pass1_go mp src pt none rest).pt.persons
          src (pass1_go mp src pt none rest).records ft).2.1.card,
        (build_relationships_pass2 (pass1_go mp src pt none rest).pt.persons
          src (pass1_go mp src pt none rest).records ft).2.2.card,
        (pass1_go mp src pt none rest).flagged⟩⟩ := by
  unfold parse_ocr_text extract_persons_pass1
  rw [hsplit, pass1_spouse_prefix mp src A rest pt hA]

theorem C6_witness :
    iter_lines ["sp- Sarah SMITH\n1-- Ann SMITH"] none =
      [(0, 0, "sp- Sarah SMITH")] ++ [(0, 1, "1-- Ann SMITH")] ∧
    (∀ l ∈ [((0 : Nat), (0 : Nat), "sp- Sarah SMITH")],
      skippable_class l.2.2 = true) ∧
    parse_ocr_text (fun s => s) empty_pt empty_ft 1
        ["sp- Sarah SMITH\n1-- Ann SMITH"] none =
      ⟨(pass1_go (fun s => s) 1 empty_pt none [(0, 1, "1-- Ann SMITH")]).pt,
       (build_relationships_pass2
          (pass1_go (fun s => s) 1 empty_pt none
            [(0, 1, "1-- Ann SMITH")]).pt.persons 1
          (pass1_go (fun s => s) 1 empty_pt none
            [(0, 1, "1-- Ann SMITH")]).records empty_ft).1,
       ⟨((pass1_go (fun s => s) 1 empty_pt none
           [(0, 1, "1-- Ann SMITH")]).records.map
           (·.person_id)).toFinset.card,
        (build_relationships_pass2
          (pass1_go (fun s => s) 1 empty_pt none
            [(0, 1, "1-- Ann SMITH")]).pt.persons 1
          (pass1_go (fun s => s) 1 empty_pt none
            [(0, 1, "1-- Ann SMITH")]).records empty_ft).2.1.card,
        (build_relationships_pass2
          (pass1_go (fun s => s) 1 empty_pt none
            [(0, 1, "1-- Ann SMITH")]).pt.persons 1
          (pass1_go (fun s => s) 1 empty_pt none
            [(0, 1, "1-- Ann SMITH")]).records empty_ft).2.2.card,
        (pass1_go (fun s => s) 1 empty_pt none
          [(0, 1, "1-- Ann SMITH")]).flagged⟩⟩ :=
  ⟨by decide, by decide,
   C6_orphan_spouse (fun s => s) empty_pt empty_ft 1
     ["sp- Sarah SMITH\n1-- Ann SMITH"] none
     [(0, 0, "sp- Sarah SMITH")] [(0, 1, "1-- Ann SMITH")]
     (by decide) (by decide)⟩

/-! ## C1: incremental reparse -/

/-- Table sanity maintained by the engine: the auto-increment counter is
positive and every stored row has a positive id below it (SQLite rowids
start at 1). -/
def pt_wf (pt : PersonTable) : Prop :=
  pt.next_person_id ≠ 0 ∧ ∀ p ∈ pt.persons, p.id ≠ 0 ∧ p.id < pt.next_person_id

theorem find_by_line_key_mem {persons : List PersonR} {src : Nat}
    {k : Option LineKey} {p : PersonR}
    (h : find_by_line_key persons src k = some p) : p ∈ persons := by
  cases k with
  | none => simp [find_by_line_key] at h
  | some k' =>
    have h' : persons.find?
        (fun c => c.source_id == some src && c.line_key == some k') = some p := h
    exact List.mem_of_find?_eq_some h'

theorem find_existing_mem {mp : String → String} {persons : List PersonR}
    {src : Nat} {a : UpsertArgs} {p : PersonR}
    (h : find_existing mp persons src a = some p) : p ∈ persons := by
  unfold find_existing at h
  cases hk : find_by_line_key persons src a.line_key with
  | some q =>
    rw [hk] at h
    cases h
    exact find_by_line_key_mem hk
  | none =>
    rw [hk] at h
    cases hs : normalize_name a.surname with
    | none => rw [hs] at h; cases h
    | some ns =>
      rw [hs] at h
      exact List.mem_of_mem_filter (List.mem_of_find?_eq_some h)

theorem merge_person_id (p : PersonR) (a : UpsertArgs) :
    (merge_person p a).id = p.id := rfl

theorem upsert_id_pos {mp : String → String} {pt : PersonTable} {src : Nat}
    {a : UpsertArgs} (hwf : pt_wf pt) :
    (upsert_from_parse mp pt src a).1.id ≠ 0 ∧
    (upsert_from_parse mp pt src a).1.id <
      (upsert_from_parse mp pt src a).2.next_person_id := by
  cases hf : find_existing mp pt.persons src a with
  | none => rw [upsert_create hf]; exact ⟨hwf.1, Nat.lt_succ_self _⟩
  | some p =>
    rw [upsert_merge hf]
    have hm := hwf.2 p (find_existing_mem hf)
    simpa [merge_person_id] using hm

theorem update_person_wf {pt : PersonTable} {q : PersonR}
    (hwf : pt_wf pt) (hq : q.id ≠ 0 ∧ q.id < pt.next_person_id) (pid : Nat) :
    pt_wf { pt with persons := update_person pt.persons pid q } := by
  refine ⟨hwf.1, ?_⟩
  intro p hp
  simp only [update_person, List.mem_map] at hp
  rcases hp with ⟨r, hr, hrp⟩
  by_cases h : r.id = pid
  · rw [if_pos h] at hrp; subst hrp; exact hq
  · rw [if_neg h] at hrp; subst hrp; exact hwf.2 r hr

theorem upsert_wf {mp : String → String} {pt : PersonTable} {src : Nat}
    {a : UpsertArgs} (hwf : pt_wf pt) :
    pt_wf (upsert_from_parse mp pt src a).2 := by
  cases hf : find_existing mp pt.persons src a with
  | none =>
    rw [upsert_create hf]
    refine ⟨Nat.succ_ne_zero _, ?_⟩
    intro p hp
    rcases List.mem_append.mp hp with h | h
    · have hb := hwf.2 p h
      exact ⟨hb.1, Nat.lt_succ_of_lt hb.2⟩
    · have hp' : p = creation_person a src pt.next_person_id :=
        List.mem_singleton.mp h
      subst hp'
      exact ⟨hwf.1, Nat.lt_succ_self _⟩
  | some p =>
    rw [upsert_merge hf]
    have hm := hwf.2 p (find_existing_mem hf)
    exact update_person_wf hwf
      ⟨by simpa [merge_person_id] using hm.1,
       by simpa [merge_person_id] using hm.2⟩ _

theorem pass1_upsert_wf {mp : String → String} {pt : PersonTable} {src : Nat}
    {body : List Char} {g : Int} {pg ln : Nat} {raw : String} {is_sp : Bool}
    (hwf : pt_wf pt) :
    pt_wf (pass1_upsert mp pt src body g pg ln raw is_sp).1 ∧
    (pass1_upsert mp pt src body g pg ln raw is_sp).2.person_id ≠ 0 := by
  have h1 := @upsert_id_pos mp pt src (line_args src body g pg ln raw) hwf
  have h2 := @upsert_wf mp pt src (line_args src body g pg ln raw) hwf
  refine ⟨?_, h1.1⟩
  unfold pass1_upsert update_person_location
  dsimp only
  exact @update_person_wf
    (upsert_from_parse mp pt src (line_args src body g pg ln raw)).2
    (set_person_location
      (upsert_from_parse mp pt src (line_args src body g pg ln raw)).1 pg ln)
    h2 ⟨h1.1, h1.2⟩
    (upsert_from_parse mp pt src (line_args src body g pg ln raw)).1.id

theorem pass1_step_wf {mp : String → String} {src : Nat} {pt : PersonTable}
    {lp : Option PRecord} {pg ln : Nat} {raw : String} (hwf : pt_wf pt) :
    pt_wf (pass1_step mp src pt lp pg ln raw).pt := by
  unfold pass1_step
  dsimp only
  repeat' split
  all_goals dsimp only
  all_goals first
    | exact hwf
    | (apply And.left; exact pass1_upsert_wf hwf)

theorem pass1_go_wf (mp : String → String) (src : Nat) :
    ∀ (lines : List (Nat × Nat × String)) (pt : PersonTable)
      (lp : Option PRecord), pt_wf pt →
      pt_wf (pass1_go mp src pt lp lines).pt := by
  intro lines
  induction lines with
  | nil => intro pt lp h; exact h
  | cons a rest ih =>
    intro pt lp h
    obtain ⟨pg, ln, raw⟩ := a
    simpa [pass1_go] using ih _ _ (pass1_step_wf h)

theorem pass1_go_append (mp : String → String) (src : Nat) :
    ∀ (A B : List (Nat × Nat × String)) (pt : PersonTable) (lp : Option PRecord),
      pass1_go mp src pt lp (A ++ B) =
        ⟨(pass1_go mp src (pass1_go mp src pt lp A).pt
            (pass1_go mp src pt lp A).lp B).pt,
         (pass1_go mp src pt lp A).records ++
           (pass1_go mp src (pass1_go mp src pt lp A).pt
             (pass1_go mp src pt lp A).lp B).records,
         (pass1_go mp src pt lp A).flagged ++
           (pass1_go mp src (pass1_go mp src pt lp A).pt
             (pass1_go mp src pt lp A).lp B).flagged,
         (pass1_go mp src (pass1_go mp src pt lp A).pt
           (pass1_go mp src pt lp A).lp B).lp⟩ := by
  intro A
  induction A with
  | nil => intro B pt lp; rfl
  | cons a A ih =>
    intro B pt lp
    obtain ⟨pg, ln, raw⟩ := a
    simp [pass1_go, ih, List.append_assoc]

/-- A raw line that pass 1 will turn into a principal person record (a
person/alt classification whose generation token parses). -/
def opens_principal (raw : String) : Bool :=
  match classify_line raw.toList with
  | .person g _ => (parse_gen_primary g).isSome
  | .alt g _ => (parse_gen_alt g).isSome
  | _ => false

/-- No spouse-marker line occurs before the first principal person line
(once a principal is parsed, `last_principal_person` is set — positively,
by `pt_wf` — and stays set, so later spouse lines behave identically for
every incoming tracker value). -/
def no_orphan_spouse : List (Nat × Nat × String) → Bool
  | [] => true
  | l :: rest =>
    if opens_principal l.2.2 then true
    else if is_spouse_class l.2.2 then false
    else no_orphan_spouse rest

theorem pass1_step_person_flag {mp : String → String} {src : Nat}
    {pt : PersonTable} {lp : Option PRecord} {pg ln : Nat} {raw : String}
    {g body : List Char} (hc : classify_line raw.data = .person g body)
    (hg : parse_gen_primary g = none) :
    pass1_step mp src pt lp pg ln raw = ⟨pt, lp, none, some raw⟩ := by
  simp [pass1_step, hc, hg]

theorem pass1_step_alt_flag {mp : String → String} {src : Nat}
    {pt : PersonTable} {lp : Option PRecord} {pg ln : Nat} {raw : String}
    {g body : List Char} (hc : classify_line raw.data = .alt g body)
    (hg : parse_gen_alt g = none) :
    pass1_step mp src pt lp pg ln raw = ⟨pt, lp, none, some raw⟩ := by
  simp [pass1_step, hc, hg]

theorem pass1_step_other_eq {mp : String → String} {src : Nat}
    {pt : PersonTable} {lp : Option PRecord} {pg ln : Nat} {raw : String}
    (hc : classify_line raw.data = .other) :
    pass1_step mp src pt lp pg ln raw = ⟨pt, lp, none, none⟩ := by
  simp [pass1_step, hc]

theorem pass1_step_person_irrel {mp : String → String} {src : Nat}
    {pt : PersonTable} {lp : Option PRecord} {pg ln : Nat} {raw : String}
    {g body : List Char} {gen : Int}
    (hc : classify_line raw.data = .person g body)
    (hg : parse_gen_primary g = some gen) (hwf : pt_wf pt) :
    pass1_step mp src pt lp pg ln raw = pass1_step mp src pt none pg ln raw := by
  have hne := (@pass1_upsert_wf mp pt src body gen pg ln raw false hwf).2
  simp [pass1_step, hc, hg, hne]

theorem pass1_step_alt_irrel {mp : String → String} {src : Nat}
    {pt : PersonTable} {lp : Option PRecord} {pg ln : Nat} {raw : String}
    {g body : List Char} {gen : Int}
    (hc : classify_line raw.data = .alt g body)
    (hg : parse_gen_alt g = some gen) (hwf : pt_wf pt) :
    pass1_step mp src pt lp pg ln raw = pass1_step mp src pt none pg ln raw := by
  have hne := (@pass1_upsert_wf mp pt src body gen pg ln raw false hwf).2
  simp [pass1_step, hc, hg, hne]

theorem pass1_lp_irrel (mp : String → String) (src : Nat) :
    ∀ (lines : List (Nat × Nat × String)) (pt : PersonTable)
      (lp : Option PRecord), pt_wf pt → no_orphan_spouse lines = true →
      pass1_go mp src pt lp lines =
        { pass1_go mp src pt none lines with
          lp := (pass1_go mp src pt lp lines).lp } := by
  intro lines
  induction lines with
  | nil => intro pt lp _ _; rfl
  | cons a rest ih =>
    intro pt lp hwf hno
    obtain ⟨pg, ln, raw⟩ := a
    by_cases hop : opens_principal raw = true
    · -- a parsed principal line: the step does not depend on the incoming
      -- tracker (the upserted person has a nonzero id), so the runs
      -- synchronize at this line.
      have hstep : pass1_step mp src pt lp pg ln raw =
          pass1_step mp src pt none pg ln raw := by
        cases hc : classify_line raw.data with
        | person g body =>
          cases hg : parse_gen_primary g with
          | none => exfalso; simp [opens_principal, hc, hg] at hop
          | some gen => exact pass1_step_person_irrel hc hg hwf
        | alt g body =>
          cases hg : parse_gen_alt g with
          | none => exfalso; simp [opens_principal, hc, hg] at hop
          | some gen => exact pass1_step_alt_irrel hc hg hwf
        | spouse body => simp [opens_principal, hc] at hop
        | other => simp [opens_principal, hc] at hop
      simp only [pass1_go, hstep]
    · -- the line is neither a principal nor (by `no_orphan_spouse`) a
      -- spouse line: a no-op or a flagged line, identical for every
      -- tracker, and the table is unchanged.
      have hnsp : is_spouse_class raw = false := by
        by_contra hx
        have hx' : is_spouse_class raw = true := by
          cases hb : is_spouse_class raw
          · exact absurd hb hx
          · rfl
        rw [no_orphan_spouse] at hno
        simp only at hno
        rw [if_neg (by simpa using hop), if_pos hx'] at hno
        exact Bool.false_ne_true hno
      have hno' : no_orphan_spouse rest = true := by
        rw [no_orphan_spouse] at hno
        simp only at hno
        rwa [if_neg (by simpa using hop), if_neg (by simp [hnsp])] at hno
      have hstep : ∃ fl : Option String,
          pass1_step mp src pt lp pg ln raw = ⟨pt, lp, none, fl⟩ ∧
          pass1_step mp src pt none pg ln raw = ⟨pt, none, none, fl⟩ := by
        cases hc : classify_line raw.data with
        | person g body =>
          cases hg : parse_gen_primary g with
          | some gen =>
            exfalso
            apply hop
            simp [opens_principal, hc, hg]
          | none =>
            exact ⟨some raw, pass1_step_person_flag hc hg,
              pass1_step_person_flag hc hg⟩
        | alt g body =>
          cases hg : parse_gen_alt g with
          | some gen =>
            exfalso
            apply hop
            simp [opens_principal, hc, hg]
          | none =>
            exact ⟨some raw, pass1_step_alt_flag hc hg, pass1_step_alt_flag hc hg⟩
        | spouse body =>
          exfalso
          simp [is_spouse_class, hc] at hnsp
        | other => exact ⟨none, pass1_step_other_eq hc, pass1_step_other_eq hc⟩
      obtain ⟨fl, hsl, hs0⟩ := hstep
      have hrec := ih pt lp hwf hno'
      have h1 : (pass1_go mp src pt lp rest).pt =
          (pass1_go mp src pt none rest).pt := by rw [hrec]
      have h2 : (pass1_go mp src pt lp rest).records =
          (pass1_go mp src pt none rest).records := by rw [hrec]
      have h3 : (pass1_go mp src pt lp rest).flagged =
          (pass1_go mp src pt none rest).flagged := by rw [hrec]
      simp only [pass1_go, hsl, hs0]
      rw [h1, h2, h3]

theorem iter_two_split (p0 p1 : String) :
    iter_lines [p0, p1] none =
      iter_lines [p0, p1] (some [0]) ++ iter_lines [p0, p1] (some [1]) := by
  simp [iter_lines, List.range_succ]

/-- C1 counterexample: a two-page chart with the parent on page 0 and the
child on page 1.  The whole-input run links the child (the generation
tracker of pass 2 holds the page-0 parent), creating one family and one
child link; the split runs re-run pass 2 with only the current page's
person records, so the second run sees no generation-1 parent and creates
no family at all.  The final family/child tables (and counts) differ, so
the two processing modes are not equivalent. -/
theorem C1_counterexample :
    (parse_ocr_text (fun s => s) empty_pt empty_ft 1
        ["1-- Ann SMITH", "2-- Bob JONES"] none).stats.families = 1 ∧
    (parse_ocr_text (fun s => s)
        (parse_ocr_text (fun s => s) empty_pt empty_ft 1
          ["1-- Ann SMITH", "2-- Bob JONES"] (some [0])).pt
        (parse_ocr_text (fun s => s) empty_pt empty_ft 1
          ["1-- Ann SMITH", "2-- Bob JONES"] (some [0])).ft 1
        ["1-- Ann SMITH", "2-- Bob JONES"] (some [1])).stats.families = 0 ∧
    (parse_ocr_text (fun s => s) empty_pt empty_ft 1
        ["1-- Ann SMITH", "2-- Bob JONES"] none).ft ≠
      (parse_ocr_text (fun s => s)
        (parse_ocr_text (fun s => s) empty_pt empty_ft 1
          ["1-- Ann SMITH", "2-- Bob JONES"] (some [0])).pt
        (parse_ocr_text (fun s => s) empty_pt empty_ft 1
          ["1-- Ann SMITH", "2-- Bob JONES"] (some [0])).ft 1
        ["1-- Ann SMITH", "2-- Bob JONES"] (some [1])).ft := by
  refine ⟨rfl, rfl, by decide⟩

/-- C1 (amended): incremental reparse preserves the *person* table.  For a
well-formed table and a two-page input whose second page opens with no
orphan spouse line, processing both pages at once and processing page 0
then page 1 incrementally yield the same final person table (pass 2 never
writes to the person table).  The family/child tables can differ, because
pass 2 of each incremental call only sees the person records extracted in
that same call (see the counterexample). -/
theorem C1_incremental_persons (mp : String → String) (pt : PersonTable)
    (ft : FamTable) (src : Nat) (p0 p1 : String) (hwf : pt_wf pt)
    (hns : no_orphan_spouse (iter_lines [p0, p1] (some [1])) = true) :
    (parse_ocr_text mp pt ft src [p0, p1] none).pt =
      (parse_ocr_text mp
        (parse_ocr_text mp pt ft src [p0, p1] (some [0])).pt
        (parse_ocr_text mp pt ft src [p0, p1] (some [0])).ft
        src [p0, p1] (some [1])).pt := by
  simp only [parse_ocr_text, extract_persons_pass1]
  rw [iter_two_split, pass1_go_append]
  have hwfA := pass1_go_wf mp src (iter_lines [p0, p1] (some [0])) pt none hwf
  rw [pass1_lp_irrel mp src (iter_lines [p0, p1] (some [1]))
    (pass1_go mp src pt none (iter_lines [p0, p1] (some [0]))).pt
    (pass1_go mp src pt none (iter_lines [p0, p1] (some [0]))).lp hwfA hns]

theorem C1_witness :
    pt_wf empty_pt ∧
    no_orphan_spouse
        (iter_lines ["1-- Ann SMITH", "2-- Bob JONES"] (some [1])) = true ∧
    (parse_ocr_text (fun s => s) empty_pt empty_ft 1
        ["1-- Ann SMITH", "2-- Bob JONES"] none).pt =
      (parse_ocr_text (fun s => s)
        (parse_ocr_text (fun s => s) empty_pt empty_ft 1
          ["1-- Ann SMITH", "2-- Bob JONES"] (some [0])).pt
        (parse_ocr_text (fun s => s) empty_pt empty_ft 1
          ["1-- Ann SMITH", "2-- Bob JONES"] (some [0])).ft 1
        ["1-- Ann SMITH", "2-- Bob JONES"] (some [1])).pt :=
  ⟨⟨Nat.one_ne_zero, fun p hp => absurd hp (List.not_mem_nil p)⟩, by decide,
   C1_incremental_persons (fun s => s) empty_pt empty_ft 1
     "1-- Ann SMITH" "2-- Bob JONES"
     ⟨Nat.one_ne_zero, fun p hp => absurd hp (List.not_mem_nil p)⟩ (by decide)⟩

/-! ## C2: reprocessing idempotence -/

/-- Instrumentation of the pass-1 run: `true` iff every upsert performed by
the run resolves to a *new* person (`find_existing` misses), i.e. the run
performs no fingerprint hit and no fuzzy merge. -/
def pass1_all_new (mp : String → String) (src : Nat) :
    PersonTable → Option PRecord → List (Nat × Nat × String) → Bool
  | _, _, [] => true
  | pt, lp, (pg, ln, raw) :: rest =>
    (match classify_line raw.toList with
     | .person g body =>
       (match parse_gen_primary g with
        | some gen =>
          (find_existing mp pt.persons src (line_args src body gen pg ln raw)).isNone
        | none => true)
     | .alt g body =>
       (match parse_gen_alt g with
        | some gen =>
          (find_existing mp pt.persons src (line_args src body gen pg ln raw)).isNone
        | none => true)
     | .spouse body =>
       (match lp with
        | some pr =>
          (find_existing mp pt.persons src
            (line_args src body pr.gen pg ln raw)).isNone
        | none => true)
     | .other => true) &&
    pass1_all_new mp src (pass1_step mp src pt lp pg ln raw).pt
      (pass1_step mp src pt lp pg ln raw).lp rest

theorem merge_opt_self (x : Option String) : merge_opt x x = x := by
  unfold merge_opt
  cases h : truthy x <;> simp [h]

/-- Re-recording an already recorded location is a no-op. -/
theorem set_person_location_stable (p : PersonR) (pg ln : Nat) :
    set_person_location (set_person_location p pg ln) pg ln =
      set_person_location p pg ln := by
  unfold set_person_location
  by_cases h1 : p.page_index = some pg <;> by_cases h2 : p.line_index = some ln <;>
    simp [h1, h2]

theorem update_person_self {l : List PersonR} {q : PersonR}
    (h : ∀ r ∈ l, r.id = q.id → r = q) :
    update_person l q.id q = l := by
  unfold update_person
  induction l with
  | nil => rfl
  | cons a t ih =>
    simp only [List.map_cons, List.cons.injEq]
    constructor
    · by_cases ha : a.id = q.id
      · rw [if_pos ha]
        exact (h a (List.mem_cons_self _ _) ha).symm
      · rw [if_neg ha]
    · exact ih (fun r hr hid => h r (List.mem_cons_of_mem _ hr) hid)

theorem update_person_append {l : List PersonR} {n : Nat} {q q' : PersonR}
    (h : ∀ p ∈ l, p.id ≠ n) (hq : q.id = n) :
    update_person (l ++ [q]) n q' = l ++ [q'] := by
  unfold update_person
  rw [List.map_append]
  congr 1
  · induction l with
    | nil => rfl
    | cons a t ih =>
      simp only [List.map_cons, List.cons.injEq]
      refine ⟨by rw [if_neg (h a (List.mem_cons_self _ _))],
        ih (fun p hp => h p (List.mem_cons_of_mem _ hp))⟩
  · simp [hq]

/-- The `name` check of the update branch never fires against the name the
creation branch computed from the same arguments. -/
theorem name_merge_noop (x : Option String) (d e : String) :
    (if truthy x && ((if or_else_str x d ≠ "" then or_else_str x d else e) == "")
     then x.getD ""
     else (if or_else_str x d ≠ "" then or_else_str x d else e)) =
    (if or_else_str x d ≠ "" then or_else_str x d else e) := by
  cases x with
  | none => simp [truthy]
  | some s =>
    by_cases hs : s = ""
    · simp [truthy, hs]
    · simp [truthy, hs, or_else_str]

/-- Re-upserting the very record a creation produced changes nothing: every
`merge(attr, value)` sees the field already holding the incoming value. -/
theorem merge_creation_noop (a : UpsertArgs) (src pid pg ln : Nat) :
    merge_person (set_person_location (creation_person a src pid) pg ln) a =
      set_person_location (creation_person a src pid) pg ln := by
  unfold merge_person set_person_location creation_person
  dsimp only
  simp only [merge_opt_self]
  congr 1
  all_goals first
    | rfl
    | exact name_merge_noop a.name _ _
    | ((cases hg : a.gen <;> simp [hg]); done)
    | ((cases hk : a.line_key <;> simp [hk]); done)
    | ((cases hng : normalize_name a.given <;> simp [hng]); done)
    | ((cases hns : normalize_name a.surname <;> simp [hns]); done)
    | ((cases hby : upsert_birth_year a <;> simp [hby]); done)
    | ((cases hap : upsert_approx_flag a <;> simp [hap]); done)

theorem find_existing_key_some {mp : String → String} {persons : List PersonR}
    {src : Nat} {a : UpsertArgs} {p : PersonR}
    (h : find_by_line_key persons src a.line_key = some p) :
    find_existing mp persons src a = some p := by
  unfold find_existing
  rw [h]

theorem find_existing_none_key {mp : String → String} {persons : List PersonR}
    {src : Nat} {a : UpsertArgs}
    (h : find_existing mp persons src a = none) :
    find_by_line_key persons src a.line_key = none := by
  unfold find_existing at h
  cases hk : find_by_line_key persons src a.line_key with
  | none => rfl
  | some p => rw [hk] at h; cases h

/-- The row a create-branch pass-1 line leaves in the table. -/
def pass1_new_row (src : Nat) (body : List Char) (g : Int) (pg ln : Nat)
    (raw : String) (pid : Nat) : PersonR :=
  set_person_location (creation_person (line_args src body g pg ln raw) src pid)
    pg ln

theorem creation_person_id (a : UpsertArgs) (src pid : Nat) :
    (creation_person a src pid).id = pid := rfl

theorem pass1_upsert_create {mp : String → String} {pt : PersonTable}
    {src : Nat} {body : List Char} {g : Int} {pg ln : Nat} {raw : String}
    {is_sp : Bool} (hwf : pt_wf pt)
    (hf : find_existing mp pt.persons src (line_args src body g pg ln raw) = none) :
    pass1_upsert mp pt src body g pg ln raw is_sp =
      (⟨pt.persons ++ [pass1_new_row src body g pg ln raw pt.next_person_id],
        pt.next_person_id + 1⟩,
       ⟨pt.next_person_id, g, pg, ln, is_sp⟩) := by
  unfold pass1_upsert
  dsimp only
  rw [upsert_create hf]
  unfold update_person_location
  dsimp only
  simp only [creation_person_id]
  rw [update_person_append (fun p hp => Nat.ne_of_lt (hwf.2 p hp).2) rfl]
  rfl

theorem pass1_upsert_found {mp : String → String} {pt : PersonTable}
    {src : Nat} {body : List Char} {g : Int} {pg ln : Nat} {raw : String}
    {is_sp : Bool} {R : PersonR}
    (hf : find_existing mp pt.persons src (line_args src body g pg ln raw) = some R)
    (hmerge : merge_person R (line_args src body g pg ln raw) = R)
    (hloc : set_person_location R pg ln = R)
    (hupd : update_person pt.persons R.id R = pt.persons) :
    pass1_upsert mp pt src body g pg ln raw is_sp =
      (pt, ⟨R.id, g, pg, ln, is_sp⟩) := by
  unfold pass1_upsert
  dsimp only
  rw [upsert_merge hf, hmerge]
  unfold update_person_location
  dsimp only
  rw [hupd, hloc]
  rw [hupd]

/-- Run-1 structure under the all-new hypothesis: pass 1 only appends fresh
rows (ids at or above the incoming counter) and never touches the incoming
rows. -/
theorem pass1_future (mp : String → String) (src : Nat) :
    ∀ (todo : List (Nat × Nat × String)) (pt : PersonTable)
      (lp : Option PRecord), pt_wf pt →
      pass1_all_new mp src pt lp todo = true →
      ∃ Δ : List PersonR,
        (pass1_go mp src pt lp todo).pt.persons = pt.persons ++ Δ ∧
        ∀ r ∈ Δ, pt.next_person_id ≤ r.id := by
  intro todo
  induction todo with
  | nil =>
    intro pt lp _ _
    exact ⟨[], by simp [pass1_go], by simp⟩
  | cons a rest ih =>
    intro pt lp hwf hnew
    obtain ⟨pg, ln, raw⟩ := a
    rw [pass1_all_new] at hnew
    obtain ⟨hchk, hrest⟩ := Bool.and_eq_true_iff.mp hnew
    obtain ⟨Δ', h1, h2⟩ :=
      ih (pass1_step mp src pt lp pg ln raw).pt
        (pass1_step mp src pt lp pg ln raw).lp (pass1_step_wf hwf) hrest
    -- the step's table: unchanged, or one fresh row appended
    have hshape :
        ((pass1_step mp src pt lp pg ln raw).pt.persons = pt.persons ∧
          (pass1_step mp src pt lp pg ln raw).pt.next_person_id =
            pt.next_person_id) ∨
        ∃ R : PersonR, R.id = pt.next_person_id ∧
          (pass1_step mp src pt lp pg ln raw).pt.persons = pt.persons ++ [R] ∧
          (pass1_step mp src pt lp pg ln raw).pt.next_person_id =
            pt.next_person_id + 1 := by
      cases hc : classify_line raw.data with
      | person g body =>
        cases hg : parse_gen_primary g with
        | none => rw [pass1_step_person_flag hc hg]; exact Or.inl ⟨rfl, rfl⟩
        | some gen =>
          have hfnone : find_existing mp pt.persons src
              (line_args src body gen pg ln raw) = none := by
            cases hfe : find_existing mp pt.persons src
                (line_args src body gen pg ln raw) with
            | none => rfl
            | some p =>
              exfalso
              have hx := hchk
              simp [hc, hg, hfe] at hx
          refine Or.inr ⟨pass1_new_row src body gen pg ln raw pt.next_person_id,
            rfl, ?_, ?_⟩ <;>
            simp [pass1_step, hc, hg, pass1_upsert_create hwf hfnone, hwf.1]
      | alt g body =>
        cases hg : parse_gen_alt g with
        | none => rw [pass1_step_alt_flag hc hg]; exact Or.inl ⟨rfl, rfl⟩
        | some gen =>
          have hfnone : find_existing mp pt.persons src
              (line_args src body gen pg ln raw) = none := by
            cases hfe : find_existing mp pt.persons src
                (line_args src body gen pg ln raw) with
            | none => rfl
            | some p =>
              exfalso
              have hx := hchk
              simp [hc, hg, hfe] at hx
          refine Or.inr ⟨pass1_new_row src body gen pg ln raw pt.next_person_id,
            rfl, ?_, ?_⟩ <;>
            simp [pass1_step, hc, hg, pass1_upsert_create hwf hfnone, hwf.1]
      | spouse body =>
        cases hlp : lp with
        | none => simp [pass1_step, hc, hlp]
        | some pr =>
          have hfnone : find_existing mp pt.persons src
              (line_args src body pr.gen pg ln raw) = none := by
            cases hfe : find_existing mp pt.persons src
                (line_args src body pr.gen pg ln raw) with
            | none => rfl
            | some p =>
              exfalso
              have hx := hchk
              simp [hc, hlp, hfe] at hx
          refine Or.inr ⟨pass1_new_row src body pr.gen pg ln raw pt.next_person_id,
            rfl, ?_, ?_⟩ <;>
            simp [pass1_step, hc, hlp, pass1_upsert_create hwf hfnone, hwf.1]
      | other => rw [pass1_step_other_eq hc]; exact Or.inl ⟨rfl, rfl⟩
    have hgo : (pass1_go mp src pt lp ((pg, ln, raw) :: rest)).pt =
        (pass1_go mp src (pass1_step mp src pt lp pg ln raw).pt
          (pass1_step mp src pt lp pg ln raw).lp rest).pt := rfl
    rcases hshape with ⟨hp, hn⟩ | ⟨R, hRid, hp, hn⟩
    · refine ⟨Δ', ?_, ?_⟩
      · rw [hgo, h1, hp]
      · intro r hr
        have := h2 r hr
        rwa [hn] at this
    · refine ⟨R :: Δ', ?_, ?_⟩
      · rw [hgo, h1, hp, List.append_assoc]
        rfl
      · intro r hr
        rcases List.mem_cons.mp hr with rfl | hr'
        · exact Nat.le_of_eq hRid.symm
        · have := h2 r hr'
          rw [hn] at this
          omega

theorem find_by_line_key_some_eq (persons : List PersonR) (src : Nat)
    (k : LineKey) :
    find_by_line_key persons src (some k) =
      persons.find? (fun c => c.source_id == some src && c.line_key == some k) :=
  rfl

theorem pass1_new_row_id (src : Nat) (body : List Char) (g : Int) (pg ln : Nat)
    (raw : String) (pid : Nat) :
    (pass1_new_row src body g pg ln raw pid).id = pid := rfl

/-- Re-upserting a pass-1 line against any table extending the one it was
created in (by rows with strictly larger ids) finds the created row by its
fingerprint and leaves the table unchanged. -/
theorem pass1_upsert_replay (mp : String → String) (src : Nat)
    {pt Q : PersonTable} {body : List Char} {gen : Int} {pg ln : Nat}
    {raw : String} {Δ : List PersonR} (is_sp : Bool) (hwf : pt_wf pt)
    (hfnone : find_existing mp pt.persons src (line_args src body gen pg ln raw) = none)
    (hQ : Q.persons =
      pt.persons ++ [pass1_new_row src body gen pg ln raw pt.next_person_id] ++ Δ)
    (hΔ : ∀ r ∈ Δ, pt.next_person_id + 1 ≤ r.id) :
    pass1_upsert mp Q src body gen pg ln raw is_sp =
      (Q, ⟨pt.next_person_id, gen, pg, ln, is_sp⟩) := by
  have hkey : (line_args src body gen pg ln raw).line_key =
      some (make_line_key src pg ln raw) := rfl
  have hsrc : (pass1_new_row src body gen pg ln raw
      pt.next_person_id).source_id = some src := rfl
  have hlk : (pass1_new_row src body gen pg ln raw
      pt.next_person_id).line_key = some (make_line_key src pg ln raw) := rfl
  have hpredR : ((pass1_new_row src body gen pg ln raw
        pt.next_person_id).source_id == some src &&
      (pass1_new_row src body gen pg ln raw pt.next_person_id).line_key ==
        some (make_line_key src pg ln raw)) = true := by
    rw [hsrc, hlk]
    simp
  have hnone1 : pt.persons.find?
      (fun c => c.source_id == some src &&
        c.line_key == some (make_line_key src pg ln raw)) = none := by
    have h0 := find_existing_none_key hfnone
    rw [hkey, find_by_line_key_some_eq] at h0
    exact h0
  have hfind2 : find_existing mp Q.persons src
      (line_args src body gen pg ln raw) =
      some (pass1_new_row src body gen pg ln raw pt.next_person_id) := by
    apply find_existing_key_some
    rw [hkey, find_by_line_key_some_eq, hQ, List.append_assoc,
      List.find?_append, hnone1]
    simp only [Option.none_or, List.singleton_append]
    exact List.find?_cons_of_pos _ hpredR
  have hmerge : merge_person (pass1_new_row src body gen pg ln raw
        pt.next_person_id) (line_args src body gen pg ln raw) =
      pass1_new_row src body gen pg ln raw pt.next_person_id :=
    merge_creation_noop (line_args src body gen pg ln raw) src
      pt.next_person_id pg ln
  have hloc : set_person_location (pass1_new_row src body gen pg ln raw
        pt.next_person_id) pg ln =
      pass1_new_row src body gen pg ln raw pt.next_person_id :=
    set_person_location_stable
      (creation_person (line_args src body gen pg ln raw) src
        pt.next_person_id) pg ln
  have hupd : update_person Q.persons
      (pass1_new_row src body gen pg ln raw pt.next_person_id).id
      (pass1_new_row src body gen pg ln raw pt.next_person_id) = Q.persons := by
    apply update_person_self
    intro r hr hrid
    rw [hQ, List.append_assoc] at hr
    rw [pass1_new_row_id] at hrid
    rcases List.mem_append.mp hr with h1 | h2
    · exact absurd hrid (Nat.ne_of_lt (hwf.2 r h1).2)
    · rcases List.mem_append.mp h2 with h3 | h4
      · exact List.mem_singleton.mp h3
      · have := hΔ r h4
        omega
  exact pass1_upsert_found hfind2 hmerge hloc hupd

/-- The table and record a create-branch pass-1 line produces. -/
def pass1_created_pt (pt : PersonTable) (src : Nat) (body : List Char)
    (g : Int) (pg ln : Nat) (raw : String) : PersonTable :=
  ⟨pt.persons ++ [pass1_new_row src body g pg ln raw pt.next_person_id],
   pt.next_person_id + 1⟩

def created_rec (pt : PersonTable) (g : Int) (pg ln : Nat) (is_sp : Bool) :
    PRecord :=
  ⟨pt.next_person_id, g, pg, ln, is_sp⟩

/-- Pass-1 replay: when the first run created a fresh person for every
upserted line, re-running pass 1 from the resulting table reproduces the
run exactly (same records, same flagged lines, and an unchanged table). -/
theorem pass1_replay (mp : String → String) (src : Nat) :
    ∀ (todo : List (Nat × Nat × String)) (pt : PersonTable)
      (lp : Option PRecord), pt_wf pt →
      pass1_all_new mp src pt lp todo = true →
      pass1_go mp src (pass1_go mp src pt lp todo).pt lp todo =
        pass1_go mp src pt lp todo := by
  intro todo
  induction todo with
  | nil => intro pt lp _ _; rfl
  | cons a rest ih =>
    intro pt lp hwf hnew
    obtain ⟨pg, ln, raw⟩ := a
    rw [pass1_all_new] at hnew
    obtain ⟨hchk, hrest⟩ := Bool.and_eq_true_iff.mp hnew
    cases hc : classify_line raw.data with
    | other =>
      have hs1 : pass1_step mp src pt lp pg ln raw = ⟨pt, lp, none, none⟩ :=
        pass1_step_other_eq hc
      rw [hs1] at hrest
      have hpt : (pass1_go mp src pt lp ((pg, ln, raw) :: rest)).pt =
          (pass1_go mp src pt lp rest).pt := by
        simp only [pass1_go, hs1]
      have hs2 : pass1_step mp src (pass1_go mp src pt lp rest).pt lp
          pg ln raw = ⟨(pass1_go mp src pt lp rest).pt, lp, none, none⟩ :=
        pass1_step_other_eq hc
      rw [hpt]
      simp only [pass1_go, hs1, hs2]
      rw [ih pt lp hwf hrest]
    | spouse body =>
      cases hlp : lp with
      | none =>
        have hs1 : pass1_step mp src pt none pg ln raw = ⟨pt, none, none, none⟩ := by
          simp [pass1_step, hc]
        rw [hlp] at hrest
        rw [hs1] at hrest
        have hpt : (pass1_go mp src pt none ((pg, ln, raw) :: rest)).pt =
            (pass1_go mp src pt none rest).pt := by
          simp only [pass1_go, hs1]
        have hs2 : pass1_step mp src (pass1_go mp src pt none rest).pt none
            pg ln raw = ⟨(pass1_go mp src pt none rest).pt, none, none, none⟩ := by
          simp [pass1_step, hc]
        rw [hpt]
        simp only [pass1_go, hs1, hs2]
        rw [ih pt none hwf hrest]
      | some pr =>
        have hfnone : find_existing mp pt.persons src
            (line_args src body pr.gen pg ln raw) = none := by
          cases hfe : find_existing mp pt.persons src
              (line_args src body pr.gen pg ln raw) with
          | none => rfl
          | some p =>
            exfalso
            have hx := hchk
            simp [hc, hlp, hfe] at hx
        have hs1 : pass1_step mp src pt (some pr) pg ln raw =
            ⟨pass1_created_pt pt src body pr.gen pg ln raw, some pr,
             some ⟨pt.next_person_id, pr.gen, pg, ln, true⟩, none⟩ := by
          simp [pass1_step, hc, pass1_created_pt,
            pass1_upsert_create hwf hfnone, hwf.1]
        rw [hlp] at hrest
        rw [hs1] at hrest
        have hwf1 : pt_wf (pass1_created_pt pt src body pr.gen pg ln raw) := by
          have h := @pass1_step_wf mp src pt (some pr) pg ln raw hwf
          rw [hs1] at h
          exact h
        obtain ⟨Δ, hΔeq, hΔge⟩ := pass1_future mp src rest
          (pass1_created_pt pt src body pr.gen pg ln raw) (some pr) hwf1 hrest
        have hQeq : (pass1_go mp src
            (pass1_created_pt pt src body pr.gen pg ln raw) (some pr)
            rest).pt.persons =
            pt.persons ++
              [pass1_new_row src body pr.gen pg ln raw pt.next_person_id] ++ Δ := by
          simpa [pass1_created_pt] using hΔeq
        have hΔge' : ∀ r ∈ Δ, pt.next_person_id + 1 ≤ r.id := by
          intro r hr
          simpa [pass1_created_pt] using hΔge r hr
        have hup2 := pass1_upsert_replay mp src true hwf hfnone hQeq hΔge'
        have hs2 : pass1_step mp src (pass1_go mp src
            (pass1_created_pt pt src body pr.gen pg ln raw) (some pr)
            rest).pt (some pr) pg ln raw =
            ⟨(pass1_go mp src (pass1_created_pt pt src body pr.gen pg ln raw)
               (some pr) rest).pt, some pr,
             some ⟨pt.next_person_id, pr.gen, pg, ln, true⟩, none⟩ := by
          simp [pass1_step, hc, hup2, hwf.1]
        have hpt : (pass1_go mp src pt (some pr) ((pg, ln, raw) :: rest)).pt =
            (pass1_go mp src (pass1_created_pt pt src body pr.gen pg ln raw)
              (some pr) rest).pt := by
          simp only [pass1_go, hs1]
        rw [hpt]
        simp only [pass1_go, hs1, hs2]
        rw [ih (pass1_created_pt pt src body pr.gen pg ln raw) (some pr)
          hwf1 hrest]
    | person g body =>
      cases hg : parse_gen_primary g with
      | none =>
        have hs1 : pass1_step mp src pt lp pg ln raw = ⟨pt, lp, none, some raw⟩ :=
          pass1_step_person_flag hc hg
        rw [hs1] at hrest
        have hpt : (pass1_go mp src pt lp ((pg, ln, raw) :: rest)).pt =
            (pass1_go mp src pt lp rest).pt := by
          simp only [pass1_go, hs1]
        have hs2 : pass1_step mp src (pass1_go mp src pt lp rest).pt lp
            pg ln raw = ⟨(pass1_go mp src pt lp rest).pt, lp, none, some raw⟩ :=
          pass1_step_person_flag hc hg
        rw [hpt]
        simp only [pass1_go, hs1, hs2]
        rw [ih pt lp hwf hrest]
      | some gen =>
        have hfnone : find_existing mp pt.persons src
            (line_args src body gen pg ln raw) = none := by
          cases hfe : find_existing mp pt.persons src
              (line_args src body gen pg ln raw) with
          | none => rfl
          | some p =>
            exfalso
            have hx := hchk
            simp [hc, hg, hfe] at hx
        have hs1 : pass1_step mp src pt lp pg ln raw =
            ⟨pass1_created_pt pt src body gen pg ln raw,
             some ⟨pt.next_person_id, gen, pg, ln, false⟩,
             some ⟨pt.next_person_id, gen, pg, ln, false⟩, none⟩ := by
          simp [pass1_step, hc, hg, pass1_created_pt,
            pass1_upsert_create hwf hfnone, hwf.1]
        rw [hs1] at hrest
        have hwf1 : pt_wf (pass1_created_pt pt src body gen pg ln raw) := by
          have h := @pass1_step_wf mp src pt lp pg ln raw hwf
          rw [hs1] at h
          exact h
        obtain ⟨Δ, hΔeq, hΔge⟩ := pass1_future mp src rest
          (pass1_created_pt pt src body gen pg ln raw)
          (some ⟨pt.next_person_id, gen, pg, ln, false⟩) hwf1 hrest
        have hQeq : (pass1_go mp src (pass1_created_pt pt src body gen pg ln raw)
            (some ⟨pt.next_person_id, gen, pg, ln, false⟩) rest).pt.persons =
            pt.persons ++
              [pass1_new_row src body gen pg ln raw pt.next_person_id] ++ Δ := by
          simpa [pass1_created_pt] using hΔeq
        have hΔge' : ∀ r ∈ Δ, pt.next_person_id + 1 ≤ r.id := by
          intro r hr
          simpa [pass1_created_pt] using hΔge r hr
        have hup2 := pass1_upsert_replay mp src false hwf hfnone hQeq hΔge'
        have hs2 : pass1_step mp src (pass1_go mp src
            (pass1_created_pt pt src body gen pg ln raw)
            (some ⟨pt.next_person_id, gen, pg, ln, false⟩) rest).pt lp pg ln raw =
            ⟨(pass1_go mp src (pass1_created_pt pt src body gen pg ln raw)
               (some ⟨pt.next_person_id, gen, pg, ln, false⟩) rest).pt,
             some ⟨pt.next_person_id, gen, pg, ln, false⟩,
             some ⟨pt.next_person_id, gen, pg, ln, false⟩, none⟩ := by
          simp [pass1_step, hc, hg, hup2, hwf.1]
        have hpt : (pass1_go mp src pt lp ((pg, ln, raw) :: rest)).pt =
            (pass1_go mp src (pass1_created_pt pt src body gen pg ln raw)
              (some ⟨pt.next_person_id, gen, pg, ln, false⟩) rest).pt := by
          simp only [pass1_go, hs1]
        rw [hpt]
        simp only [pass1_go, hs1, hs2]
        rw [ih (pass1_created_pt pt src body gen pg ln raw)
          (some ⟨pt.next_person_id, gen, pg, ln, false⟩) hwf1 hrest]
    | alt g body =>
      cases hg : parse_gen_alt g with
      | none =>
        have hs1 : pass1_step mp src pt lp pg ln raw = ⟨pt, lp, none, some raw⟩ :=
          pass1_step_alt_flag hc hg
        rw [hs1] at hrest
        have hpt : (pass1_go mp src pt lp ((pg, ln, raw) :: rest)).pt =
            (pass1_go mp src pt lp rest).pt := by
          simp only [pass1_go, hs1]
        have hs2 : pass1_step mp src (pass1_go mp src pt lp rest).pt lp
            pg ln raw = ⟨(pass1_go mp src pt lp rest).pt, lp, none, some raw⟩ :=
          pass1_step_alt_flag hc hg
        rw [hpt]
        simp only [pass1_go, hs1, hs2]
        rw [ih pt lp hwf hrest]
      | some gen =>
        have hfnone : find_existing mp pt.persons src
            (line_args src body gen pg ln raw) = none := by
          cases hfe : find_existing mp pt.persons src
              (line_args src body gen pg ln raw) with
          | none => rfl
          | some p =>
            exfalso
            have hx := hchk
            simp [hc, hg, hfe] at hx
        have hs1 : pass1_step mp src pt lp pg ln raw =
            ⟨pass1_created_pt pt src body gen pg ln raw,
             some ⟨pt.next_person_id, gen, pg, ln, false⟩,
             some ⟨pt.next_person_id, gen, pg, ln, false⟩, none⟩ := by
          simp [pass1_step, hc, hg, pass1_created_pt,
            pass1_upsert_create hwf hfnone, hwf.1]
        rw [hs1] at hrest
        have hwf1 : pt_wf (pass1_created_pt pt src body gen pg ln raw) := by
          have h := @pass1_step_wf mp src pt lp pg ln raw hwf
          rw [hs1] at h
          exact h
        obtain ⟨Δ, hΔeq, hΔge⟩ := pass1_future mp src rest
          (pass1_created_pt pt src body gen pg ln raw)
          (some ⟨pt.next_person_id, gen, pg, ln, false⟩) hwf1 hrest
        have hQeq : (pass1_go mp src (pass1_created_pt pt src body gen pg ln raw)
            (some ⟨pt.next_person_id, gen, pg, ln, false⟩) rest).pt.persons =
            pt.persons ++
              [pass1_new_row src body gen pg ln raw pt.next_person_id] ++ Δ := by
          simpa [pass1_created_pt] using hΔeq
        have hΔge' : ∀ r ∈ Δ, pt.next_person_id + 1 ≤ r.id := by
          intro r hr
          simpa [pass1_created_pt] using hΔge r hr
        have hup2 := pass1_upsert_replay mp src false hwf hfnone hQeq hΔge'
        have hs2 : pass1_step mp src (pass1_go mp src
            (pass1_created_pt pt src body gen pg ln raw)
            (some ⟨pt.next_person_id, gen, pg, ln, false⟩) rest).pt lp pg ln raw =
            ⟨(pass1_go mp src (pass1_created_pt pt src body gen pg ln raw)
               (some ⟨pt.next_person_id, gen, pg, ln, false⟩) rest).pt,
             some ⟨pt.next_person_id, gen, pg, ln, false⟩,
             some ⟨pt.next_person_id, gen, pg, ln, false⟩, none⟩ := by
          simp [pass1_step, hc, hg, hup2, hwf.1]
        have hpt : (pass1_go mp src pt lp ((pg, ln, raw) :: rest)).pt =
            (pass1_go mp src (pass1_created_pt pt src body gen pg ln raw)
              (some ⟨pt.next_person_id, gen, pg, ln, false⟩) rest).pt := by
          simp only [pass1_go, hs1]
        rw [hpt]
        simp only [pass1_go, hs1, hs2]
        rw [ih (pass1_created_pt pt src body gen pg ln raw)
          (some ⟨pt.next_person_id, gen, pg, ln, false⟩) hwf1 hrest]

/-- In an all-new run the person ids of the extracted records are fresh
(at or above the incoming counter) and pairwise distinct. -/
theorem pass1_records_ids (mp : String → String) (src : Nat) :
    ∀ (todo : List (Nat × Nat × String)) (pt : PersonTable)
      (lp : Option PRecord), pt_wf pt →
      pass1_all_new mp src pt lp todo = true →
      (∀ r ∈ (pass1_go mp src pt lp todo).records,
        pt.next_person_id ≤ r.person_id) ∧
      ((pass1_go mp src pt lp todo).records.map PRecord.person_id).Nodup := by
  intro todo
  induction todo with
  | nil => intro pt lp _ _; exact ⟨by simp [pass1_go], by simp [pass1_go]⟩
  | cons a rest ih =>
    intro pt lp hwf hnew
    obtain ⟨pg, ln, raw⟩ := a
    rw [pass1_all_new] at hnew
    obtain ⟨hchk, hrest⟩ := Bool.and_eq_true_iff.mp hnew
    have hcons : pass1_go mp src pt lp ((pg, ln, raw) :: rest) =
        ⟨(pass1_go mp src (pass1_step mp src pt lp pg ln raw).pt
            (pass1_step mp src pt lp pg ln raw).lp rest).pt,
         (pass1_step mp src pt lp pg ln raw).record.toList ++
           (pass1_go mp src (pass1_step mp src pt lp pg ln raw).pt
             (pass1_step mp src pt lp pg ln raw).lp rest).records,
         (pass1_step mp src pt lp pg ln raw).flagged.toList ++
           (pass1_go mp src (pass1_step mp src pt lp pg ln raw).pt
             (pass1_step mp src pt lp pg ln raw).lp rest).flagged,
         (pass1_go mp src (pass1_step mp src pt lp pg ln raw).pt
           (pass1_step mp src pt lp pg ln raw).lp rest).lp⟩ := rfl
    -- the step either emits no record and keeps the table, or emits the
    -- fresh record and bumps the counter
    have hshape :
        ((pass1_step mp src pt lp pg ln raw).record = none ∧
          (pass1_step mp src pt lp pg ln raw).pt.next_person_id =
            pt.next_person_id) ∨
        ((∃ g0 sp, (pass1_step mp src pt lp pg ln raw).record =
            some ⟨pt.next_person_id, g0, pg, ln, sp⟩) ∧
          (pass1_step mp src pt lp pg ln raw).pt.next_person_id =
            pt.next_person_id + 1) := by
      cases hc : classify_line raw.data with
      | person g body =>
        cases hg : parse_gen_primary g with
        | none => rw [pass1_step_person_flag hc hg]; exact Or.inl ⟨rfl, rfl⟩
        | some gen =>
          have hfnone : find_existing mp pt.persons src
              (line_args src body gen pg ln raw) = none := by
            cases hfe : find_existing mp pt.persons src
                (line_args src body gen pg ln raw) with
            | none => rfl
            | some p =>
              exfalso
              have hx := hchk
              simp [hc, hg, hfe] at hx
          have hs1 : pass1_step mp src pt lp pg ln raw =
              ⟨pass1_created_pt pt src body gen pg ln raw,
               some ⟨pt.next_person_id, gen, pg, ln, false⟩,
               some ⟨pt.next_person_id, gen, pg, ln, false⟩, none⟩ := by
            simp [pass1_step, hc, hg, pass1_created_pt,
              pass1_upsert_create hwf hfnone, hwf.1]
          rw [hs1]
          exact Or.inr ⟨⟨gen, false, rfl⟩, rfl⟩
      | alt g body =>
        cases hg : parse_gen_alt g with
        | none => rw [pass1_step_alt_flag hc hg]; exact Or.inl ⟨rfl, rfl⟩
        | some gen =>
          have hfnone : find_existing mp pt.persons src
              (line_args src body gen pg ln raw) = none := by
            cases hfe : find_existing mp pt.persons src
                (line_args src body gen pg ln raw) with
            | none => rfl
            | some p =>
              exfalso
              have hx := hchk
              simp [hc, hg, hfe] at hx
          have hs1 : pass1_step mp src pt lp pg ln raw =
              ⟨pass1_created_pt pt src body gen pg ln raw,
               some ⟨pt.next_person_id, gen, pg, ln, false⟩,
               some ⟨pt.next_person_id, gen, pg, ln, false⟩, none⟩ := by
            simp [pass1_step, hc, hg, pass1_created_pt,
              pass1_upsert_create hwf hfnone, hwf.1]
          rw [hs1]
          exact Or.inr ⟨⟨gen, false, rfl⟩, rfl⟩
      | spouse body =>
        cases hlp : lp with
        | none => simp [pass1_step, hc, hlp]
        | some pr =>
          have hfnone : find_existing mp pt.persons src
              (line_args src body pr.gen pg ln raw) = none := by
            cases hfe : find_existing mp pt.persons src
                (line_args src body pr.gen pg ln raw) with
            | none => rfl
            | some p =>
              exfalso
              have hx := hchk
              simp [hc, hlp, hfe] at hx
          have hs1 : pass1_step mp src pt (some pr) pg ln raw =
              ⟨pass1_created_pt pt src body pr.gen pg ln raw, some pr,
               some ⟨pt.next_person_id, pr.gen, pg, ln, true⟩, none⟩ := by
            simp [pass1_step, hc, pass1_created_pt,
              pass1_upsert_create hwf hfnone, hwf.1]
          rw [hs1]
          exact Or.inr ⟨⟨pr.gen, true, rfl⟩, rfl⟩
      | other => rw [pass1_step_other_eq hc]; exact Or.inl ⟨rfl, rfl⟩
    obtain ⟨hge', hnodup'⟩ :=
      ih (pass1_step mp src pt lp pg ln raw).pt
        (pass1_step mp src pt lp pg ln raw).lp (pass1_step_wf hwf) hrest
    rcases hshape with ⟨hrec, hnext⟩ | ⟨⟨g0, sp, hrec⟩, hnext⟩
    · rw [hcons]
      try dsimp only
      rw [hrec]
      constructor
      · intro r hr
        simp only [Option.toList_none, List.nil_append] at hr
        have := hge' r hr
        omega
      · simpa using hnodup'
    · rw [hcons]
      try dsimp only
      rw [hrec]
      constructor
      · intro r hr
        simp only [Option.toList_some, List.singleton_append,
          List.mem_cons] at hr
        rcases hr with rfl | hr'
        · exact Nat.le_refl _
        · have := hge' r hr'
          omega
      · simp only [Option.toList_some, List.singleton_append, List.map_cons,
          List.nodup_cons]
        constructor
        · intro hmem
          rcases List.mem_map.mp hmem with ⟨r, hr, hid⟩
          have := hge' r hr
          rw [hnext] at this
          try dsimp only at hid
          omega
        · exact hnodup'

/-! ### Pass-2 state invariant -/

/-- The pass-2 family row for the cache key `pr`: the single-parent row of
`pr.1` when the key is diagonal, else the couple row hosting the canonical
pair. -/
def fam_matches (f : FamilyR) (pr : Nat × Nat) : Prop :=
  if pr.1 = pr.2 then
    f.is_single_parent = true ∧
    ((f.husband_id = some pr.1 ∧ f.wife_id = none) ∨
     (f.husband_id = none ∧ f.wife_id = some pr.1))
  else
    f.is_single_parent = false ∧ f.husband_id = some pr.1 ∧ f.wife_id = some pr.2

/-- Invariant of the pass-2 loop state during a run from an empty family
table: every family row realizes exactly one cached canonical key (so a
cache miss guarantees a table miss), ids are below the counters, and every
child row belongs to one of the already-processed person ids `P`. -/
def pass2_wf (P : List Nat) (st : Pass2State) : Prop :=
  (∀ f ∈ st.ft.families, f.id < st.ft.next_family_id) ∧
  (∀ f ∈ st.ft.families, ∃ pr : Nat × Nat,
    (∃ fid, ((pr, fid) : (Nat × Nat) × Nat) ∈ st.cache) ∧
    pr.1 ≤ pr.2 ∧ fam_matches f pr) ∧
  (∀ c ∈ st.ft.children, c.id < st.ft.next_child_id) ∧
  (∀ c ∈ st.ft.children, c.person_id ∈ P) ∧
  st.ft.next_family_id ≠ 0 ∧ st.ft.next_child_id ≠ 0

theorem pair_sorted_le (a b : Nat) : (pair_sorted a b).1 ≤ (pair_sorted a b).2 := by
  unfold pair_sorted
  by_cases h : a ≤ b <;> simp [h] <;> omega

theorem pair_sorted_idem {pr : Nat × Nat} (h : pr.1 ≤ pr.2) :
    pair_sorted pr.1 pr.2 = pr := by
  unfold pair_sorted
  simp [h]

theorem cache_get_none_not_mem {c : List ((Nat × Nat) × Nat)} {pr : Nat × Nat}
    (h : cache_get c pr = none) : ∀ fid, ((pr, fid) : (Nat × Nat) × Nat) ∉ c := by
  intro fid hmem
  unfold cache_get at h
  have h2 : c.find? (fun x => x.1 == pr) = none := by
    cases hf : c.find? (fun x => x.1 == pr) with
    | none => rfl
    | some x => rw [hf] at h; cases h
  have h3 := List.find?_eq_none.mp h2 (pr, fid) hmem
  simp at h3

/-- A cache miss for a canonical non-diagonal pair means no family row
satisfies the couple lookup predicate. -/
theorem couple_find_none {P : List Nat} {st : Pass2State} {src : Nat}
    {pr : Nat × Nat} (hwf : pass2_wf P st) (hle : pr.1 ≤ pr.2)
    (hne : pr.1 ≠ pr.2) (hmiss : cache_get st.cache pr = none) :
    st.ft.families.find? (couple_pred src pr) = none := by
  apply List.find?_eq_none.mpr
  intro f hf hpred
  obtain ⟨pr', ⟨fid, hfid⟩, hle', hmatch⟩ := hwf.2.1 f hf
  unfold couple_pred at hpred
  unfold fam_matches at hmatch
  by_cases hd : pr'.1 = pr'.2
  · rw [if_pos hd] at hmatch
    obtain ⟨hsg, hslots⟩ := hmatch
    rcases hslots with ⟨hh, hw⟩ | ⟨hh, hw⟩ <;> simp [hh, hw] at hpred
  · rw [if_neg hd] at hmatch
    obtain ⟨hsg, hh, hw⟩ := hmatch
    simp only [hh, hw, Bool.and_eq_true, Bool.or_eq_true, beq_iff_eq,
      Option.some.injEq] at hpred
    rcases hpred.2 with ⟨h1, h2⟩ | ⟨h1, h2⟩
    · have hpr : pr' = pr := Prod.ext h1 h2
      rw [hpr] at hfid
      exact cache_get_none_not_mem hmiss fid hfid
    · omega

/-- A cache miss for a diagonal key means no family row satisfies the
single-parent lookup predicate. -/
theorem single_find_none {P : List Nat} {st : Pass2State} {src : Nat}
    {p : Nat} (hwf : pass2_wf P st)
    (hmiss : cache_get st.cache (p, p) = none) :
    st.ft.families.find? (single_pred src p) = none := by
  apply List.find?_eq_none.mpr
  intro f hf hpred
  obtain ⟨pr', ⟨fid, hfid⟩, hle', hmatch⟩ := hwf.2.1 f hf
  unfold single_pred at hpred
  unfold fam_matches at hmatch
  by_cases hd : pr'.1 = pr'.2
  · rw [if_pos hd] at hmatch
    obtain ⟨hsg, hslots⟩ := hmatch
    have hpr : pr' = (p, p) := by
      rcases hslots with ⟨hh, hw⟩ | ⟨hh, hw⟩ <;>
        · simp only [hh, hw, hsg, Bool.and_eq_true, Bool.or_eq_true,
            beq_iff_eq, Option.some.injEq] at hpred
          obtain ⟨-, hp⟩ := hpred
          have : pr'.1 = p := by
            rcases hp with hp | hp
            · first | exact hp | exact Option.noConfusion hp
            · first | exact hp | exact Option.noConfusion hp
          exact Prod.ext this (by omega)
    rw [hpr] at hfid
    exact cache_get_none_not_mem hmiss fid hfid
  · rw [if_neg hd] at hmatch
    simp [hmatch.1] at hpred

/-! ### No-op updates on rows created from the same arguments -/

theorem fam_updates_noop {e : FamilyR} {g : FamArgs}
    (h1 : e.line_key = g.line_key) (h2 : e.approx = g.approx)
    (h3 : e.page_index = g.page_index) :
    fam_existing_updates e g = e := by
  unfold fam_existing_updates
  have hlk : (if g.line_key.isSome && e.line_key.isNone then g.line_key
      else e.line_key) = e.line_key := by
    rw [h1]
    cases g.line_key <;> simp
  have hax : (if g.approx == some true && e.approx ≠ some true then some true
      else e.approx) = e.approx := by
    rw [h2]
    by_cases hx : g.approx = some true
    · simp [hx]
    · simp [hx]
  have hpg : (match g.page_index with
      | some pi => if e.page_index ≠ some pi then some pi else e.page_index
      | none => e.page_index) = e.page_index := by
    cases hp : g.page_index with
    | none => rfl
    | some pi => simp [h3, hp]
  rw [hlk, hax, hpg]

theorem couple_result_noop {src : Nat} {pr : Nat × Nat} {g : FamArgs}
    {fid : Nat} :
    couple_result (couple_new src pr g fid) pr g = couple_new src pr g fid := by
  unfold couple_result
  have hfix : couple_pair_fix (couple_new src pr g fid) pr =
      couple_new src pr g fid := by
    unfold couple_pair_fix couple_new
    simp
  rw [hfix]
  have hupd : fam_existing_updates (couple_new src pr g fid) g =
      couple_new src pr g fid :=
    fam_updates_noop rfl rfl rfl
  rw [hupd]
  rfl

theorem single_updates_noop {persons : List PersonR} {src pid : Nat}
    {g : FamArgs} {fid : Nat} :
    fam_existing_updates (single_new persons src pid g fid) g =
      single_new persons src pid g fid :=
  fam_updates_noop rfl rfl rfl

theorem child_updates_noop {ft : FamTable} {family_id child_id : Nat}
    {g : ChildArgs} :
    child_existing_updates (child_new ft family_id child_id g) g =
      child_new ft family_id child_id g := by
  unfold child_existing_updates
  have hlk : (if g.line_key.isSome &&
      (child_new ft family_id child_id g).line_key.isNone then g.line_key
      else (child_new ft family_id child_id g).line_key) =
      (child_new ft family_id child_id g).line_key := by
    show (if g.line_key.isSome && g.line_key.isNone then g.line_key
      else (child_new ft family_id child_id g).line_key) = _
    cases g.line_key <;> simp [child_new]
  have hax : (if g.approx == some true &&
      (child_new ft family_id child_id g).approx ≠ some true then some true
      else (child_new ft family_id child_id g).approx) =
      (child_new ft family_id child_id g).approx := by
    by_cases hx : g.approx = some true
    · simp [hx, child_new]
    · simp [hx, child_new]
  have hpg : (match g.page_index with
      | some pi => if (child_new ft family_id child_id g).page_index ≠ some pi
          then some pi else (child_new ft family_id child_id g).page_index
      | none => (child_new ft family_id child_id g).page_index) =
      (child_new ft family_id child_id g).page_index := by
    cases hp : g.page_index with
    | none => rfl
    | some pi => simp [hp, child_new]
  rw [hlk, hax, hpg]

theorem update_family_self {l : List FamilyR} {q : FamilyR}
    (h : ∀ r ∈ l, r.id = q.id → r = q) :
    update_family l q.id q = l := by
  unfold update_family
  induction l with
  | nil => rfl
  | cons a t ih =>
    simp only [List.map_cons, List.cons.injEq]
    constructor
    · by_cases ha : a.id = q.id
      · rw [if_pos ha]
        exact (h a (List.mem_cons_self _ _) ha).symm
      · rw [if_neg ha]
    · exact ih (fun r hr hid => h r (List.mem_cons_of_mem _ hr) hid)

theorem update_child_self {l : List ChildR} {q : ChildR}
    (h : ∀ r ∈ l, r.id = q.id → r = q) :
    update_child l q.id q = l := by
  unfold update_child
  induction l with
  | nil => rfl
  | cons a t ih =>
    simp only [List.map_cons, List.cons.injEq]
    constructor
    · by_cases ha : a.id = q.id
      · rw [if_pos ha]
        exact (h a (List.mem_cons_self _ _) ha).symm
      · rw [if_neg ha]
    · exact ih (fun r hr hid => h r (List.mem_cons_of_mem _ hr) hid)

theorem find?_append_fresh {α : Type} {l1 : List α} {R : α} {Δ : List α}
    {p : α → Bool} (h1 : l1.find? p = none) (hR : p R = true) :
    (l1 ++ [R] ++ Δ).find? p = some R := by
  rw [List.append_assoc, List.find?_append, h1]
  simp only [Option.none_or, List.singleton_append]
  exact List.find?_cons_of_pos _ hR

theorem couple_pred_self (src : Nat) (pr : Nat × Nat) (g : FamArgs) (fid : Nat) :
    couple_pred src pr (couple_new src pr g fid) = true := by
  simp [couple_pred, couple_new]

theorem couple_new_matches {src : Nat} {pr : Nat × Nat} {g : FamArgs}
    {fid : Nat} (hne : pr.1 ≠ pr.2) :
    fam_matches (couple_new src pr g fid) pr := by
  unfold fam_matches couple_new
  rw [if_neg hne]
  exact ⟨rfl, rfl, rfl⟩

theorem single_pred_self (persons : List PersonR) (src pid : Nat) (g : FamArgs)
    (fid : Nat) :
    single_pred src pid (single_new persons src pid g fid) = true := by
  unfold single_pred single_new
  cases hp : persons.find? (fun q => q.id == pid) with
  | none => simp [hp]
  | some pr =>
    cases hsex : pr.sex == some "F" with
    | false =>
      have hne : pr.sex ≠ some "F" := by
        intro hq
        rw [hq] at hsex
        simp at hsex
      simp [hp, hsex, hne]
    | true =>
      have heq : pr.sex = some "F" := by
        cases hq : pr.sex with
        | none => rw [hq] at hsex; simp at hsex
        | some v =>
          rw [hq] at hsex
          simp at hsex
          exact congrArg some hsex
      simp [hp, hsex, heq]

theorem single_new_matches {persons : List PersonR} {src pid : Nat}
    {g : FamArgs} {fid : Nat} :
    fam_matches (single_new persons src pid g fid) (pid, pid) := by
  unfold fam_matches single_new
  rw [if_pos rfl]
  cases hp : persons.find? (fun q => q.id == pid) with
  | none => exact ⟨rfl, Or.inl ⟨by simp [hp], by simp [hp]⟩⟩
  | some pr =>
    cases hsex : pr.sex == some "F" with
    | false =>
      have hne : pr.sex ≠ some "F" := by
        intro hq
        rw [hq] at hsex
        simp at hsex
      exact ⟨rfl, Or.inl ⟨by simp [hp, hsex, hne], by simp [hp, hsex, hne]⟩⟩
    | true =>
      have heq : pr.sex = some "F" := by
        cases hq : pr.sex with
        | none => rw [hq] at hsex; simp at hsex
        | some v =>
          rw [hq] at hsex
          simp at hsex
          exact congrArg some hsex
      exact ⟨rfl, Or.inr ⟨by simp [hp, hsex, heq], by simp [hp, hsex, heq]⟩⟩

theorem child_find_none {P : List Nat} {st : Pass2State} {fid cid : Nat}
    (hwf : pass2_wf P st) (hcid : cid ∉ P) :
    st.ft.children.find? (child_pred fid cid) = none := by
  apply List.find?_eq_none.mpr
  intro c hc hpred
  have hmem := hwf.2.2.2.1 c hc
  unfold child_pred at hpred
  simp only [Bool.and_eq_true, beq_iff_eq] at hpred
  rw [hpred.2] at hmem
  exact hcid hmem

/-- Replaying a couple upsert against any table extending the creation
point by fresh rows finds the created row and is a no-op. -/
theorem upsert_couple_replay {persons : List PersonR} {F : FamTable}
    {src : Nat} {pr : Nat × Nat} {g : FamArgs} {base Δf : List FamilyR}
    {nf : Nat} (hle : pr.1 ≤ pr.2) (hne : pr.1 ≠ pr.2)
    (hF : F.families = base ++ [couple_new src pr g nf] ++ Δf)
    (hbase : base.find? (couple_pred src pr) = none)
    (hbid : ∀ f ∈ base, f.id < nf) (hΔid : ∀ f ∈ Δf, nf + 1 ≤ f.id) :
    upsert_couple persons F src pr.1 pr.2 g = (couple_new src pr g nf, F) := by
  have hps : pair_sorted pr.1 pr.2 = pr := pair_sorted_idem hle
  have hfind : F.families.find? (couple_pred src (pair_sorted pr.1 pr.2)) =
      some (couple_new src pr g nf) := by
    rw [hps, hF]
    exact find?_append_fresh hbase (couple_pred_self src pr g nf)
  rw [@couple_found persons F src pr.1 pr.2 g (couple_new src pr g nf) hne hfind]
  rw [hps, couple_result_noop]
  have hself : update_family F.families (couple_new src pr g nf).id
      (couple_new src pr g nf) = F.families := by
    apply update_family_self
    intro r hr hrid
    rw [hF, List.append_assoc] at hr
    have hid : (couple_new src pr g nf).id = nf := rfl
    rw [hid] at hrid
    rcases List.mem_append.mp hr with h1 | h2
    · exact absurd hrid (Nat.ne_of_lt (hbid r h1))
    · rcases List.mem_append.mp h2 with h3 | h4
      · exact List.mem_singleton.mp h3
      · have := hΔid r h4
        omega
  rw [hself]

theorem ensure_replay {persons : List PersonR} {F : FamTable} {src pid : Nat}
    {g : FamArgs} {base Δf : List FamilyR} {nf : Nat}
    (hF : F.families = base ++ [single_new persons src pid g nf] ++ Δf)
    (hbase : base.find? (single_pred src pid) = none)
    (hbid : ∀ f ∈ base, f.id < nf) (hΔid : ∀ f ∈ Δf, nf + 1 ≤ f.id) :
    ensure_for_single_parent persons F src pid g =
      (single_new persons src pid g nf, F) := by
  have hfind : F.families.find? (single_pred src pid) =
      some (single_new persons src pid g nf) := by
    rw [hF]
    exact find?_append_fresh hbase (single_pred_self persons src pid g nf)
  rw [@ensure_found persons F src pid g (single_new persons src pid g nf) hfind]
  rw [single_updates_noop]
  have hself : update_family F.families (single_new persons src pid g nf).id
      (single_new persons src pid g nf) = F.families := by
    apply update_family_self
    intro r hr hrid
    rw [hF, List.append_assoc] at hr
    have hid : (single_new persons src pid g nf).id = nf := rfl
    rw [hid] at hrid
    rcases List.mem_append.mp hr with h1 | h2
    · exact absurd hrid (Nat.ne_of_lt (hbid r h1))
    · rcases List.mem_append.mp h2 with h3 | h4
      · exact List.mem_singleton.mp h3
      · have := hΔid r h4
        omega
  rw [hself]

theorem child_replay {F : FamTable} {fid cid : Nat} {g : ChildArgs}
    {base Δc : List ChildR} {C : ChildR} {nc : Nat}
    (hF : F.children = base ++ [C] ++ Δc) (hCid : C.id = nc)
    (hCmatch : child_pred fid cid C = true)
    (hCnoop : child_existing_updates C g = C)
    (hbase : base.find? (child_pred fid cid) = none)
    (hbid : ∀ c ∈ base, c.id < nc) (hΔid : ∀ c ∈ Δc, nc + 1 ≤ c.id) :
    child_link F fid cid g = (C, F) := by
  have hfind : F.children.find? (child_pred fid cid) = some C := by
    rw [hF]
    exact find?_append_fresh hbase hCmatch
  rw [@child_found F fid cid g C hfind]
  rw [hCnoop]
  have hself : update_child F.children C.id C = F.children := by
    apply update_child_self
    intro r hr hrid
    rw [hF, List.append_assoc] at hr
    rw [hCid] at hrid
    rcases List.mem_append.mp hr with h1 | h2
    · exact absurd hrid (Nat.ne_of_lt (hbid r h1))
    · rcases List.mem_append.mp h2 with h3 | h4
      · exact List.mem_singleton.mp h3
      · have := hΔid r h4
        omega
  rw [hself]

theorem child_new_pid (ft : FamTable) (fid cid : Nat) (g : ChildArgs) :
    (child_new ft fid cid g).person_id = cid := rfl

theorem single_new_id (persons : List PersonR) (src pid : Nat) (g : FamArgs)
    (fid : Nat) : (single_new persons src pid g fid).id = fid := rfl

theorem couple_new_id (src : Nat) (pr : Nat × Nat) (g : FamArgs) (fid : Nat) :
    (couple_new src pr g fid).id = fid := rfl

theorem child_new_id (ft : FamTable) (fid cid : Nat) (g : ChildArgs) :
    (child_new ft fid cid g).id = ft.next_child_id := rfl

/-- Structure of one pass-2 step during a run satisfying the invariant:
tables only grow, by at most one family row (realizing its freshly cached
canonical key) and at most one child row (for the current record's
person). -/
theorem pass2_step_shape (persons : List PersonR) (src : Nat)
    (all : List PRecord) (st : Pass2State) (r : PRecord) (P : List Nat)
    (hwf : pass2_wf P st) (hfresh : r.person_id ∉ P) :
    ∃ (T : List (Int × PRecord)) (Δf : List FamilyR) (Δc : List ChildR)
      (Δk : List ((Nat × Nat) × Nat)) (FS CS : Finset Nat),
      pass2_step persons src all st r =
        { ft := ⟨st.ft.families ++ Δf, st.ft.children ++ Δc,
                 st.ft.next_family_id + Δf.length,
                 st.ft.next_child_id + Δc.length⟩,
          tracker := T, cache := st.cache ++ Δk,
          families_seen := FS, children_seen := CS } ∧
      (∀ f ∈ Δf, f.id = st.ft.next_family_id ∧
        ∃ pr : Nat × Nat, pr.1 ≤ pr.2 ∧ fam_matches f pr ∧
          ((pr, f.id) : (Nat × Nat) × Nat) ∈ Δk) ∧
      (∀ c ∈ Δc, c.id = st.ft.next_child_id ∧ c.person_id = r.person_id) := by
  cases hperson : persons.find? (fun q => q.id == r.person_id) with
  | none =>
    refine ⟨st.tracker, [], [], [], st.families_seen, st.children_seen, ?_,
      by simp, by simp⟩
    simp [pass2_step, hperson]
  | some person =>
    cases hsp : r.is_spouse with
    | true =>
      cases hpr : (all.take (rec_idx all r)).reverse.find?
          (fun x => x.gen == r.gen && !x.is_spouse) with
      | none =>
        refine ⟨st.tracker, [], [], [], st.families_seen, st.children_seen, ?_,
          by simp, by simp⟩
        simp [pass2_step, hperson, hsp, hpr]
      | some principal =>
        cases hcache : cache_get st.cache
            (pair_sorted principal.person_id r.person_id) with
        | some fid =>
          refine ⟨st.tracker, [], [], [], st.families_seen, st.children_seen,
            ?_, by simp, by simp⟩
          simp [pass2_step, hperson, hsp, hpr, hcache]
        | none =>
          by_cases hdiag : (pair_sorted principal.person_id r.person_id).1 =
              (pair_sorted principal.person_id r.person_id).2
          · -- degenerate pair: the couple upsert delegates to the
            -- single-parent constructor
            have hdk : (((pair_sorted principal.person_id r.person_id).2,
                (pair_sorted principal.person_id r.person_id).2) :
                  Nat × Nat) =
                pair_sorted principal.person_id r.person_id :=
              Prod.ext hdiag.symm rfl
            have hsingle : st.ft.families.find? (single_pred src
                (pair_sorted principal.person_id r.person_id).2) = none := by
              apply single_find_none hwf
              rw [hdk]
              exact hcache
            have hop := @ensure_missed persons st.ft src
              (pair_sorted principal.person_id r.person_id).2
              (fam_key_args src r (pair_sorted principal.person_id r.person_id)
                (person.approx.getD false || p_apx persons principal.person_id))
              hsingle
            refine ⟨st.tracker,
              [single_new persons src
                (pair_sorted principal.person_id r.person_id).2
                (fam_key_args src r (pair_sorted principal.person_id r.person_id)
                  (person.approx.getD false ||
                    p_apx persons principal.person_id))
                st.ft.next_family_id],
              [],
              [(pair_sorted principal.person_id r.person_id,
                st.ft.next_family_id)],
              (if st.ft.next_family_id ≠ 0 then
                insert st.ft.next_family_id st.families_seen
               else st.families_seen),
              st.children_seen, ?_, ?_, by simp⟩
            · simp [pass2_step, hperson, hsp, hpr, hcache, pass2_couple,
                upsert_couple, hdiag, hop, single_new_id]
            · intro f hf
              rcases List.mem_singleton.mp hf with rfl
              refine ⟨single_new_id _ _ _ _ _,
                pair_sorted principal.person_id r.person_id,
                pair_sorted_le _ _, ?_, by simp [single_new_id]⟩
              have hm := @single_new_matches persons src
                (pair_sorted principal.person_id r.person_id).2
                (fam_key_args src r (pair_sorted principal.person_id r.person_id)
                  (person.approx.getD false ||
                    p_apx persons principal.person_id))
                st.ft.next_family_id
              rwa [hdk] at hm
          · have hcfind : st.ft.families.find? (couple_pred src
                (pair_sorted principal.person_id r.person_id)) = none :=
              couple_find_none hwf (pair_sorted_le _ _) hdiag hcache
            have hps : pair_sorted
                (pair_sorted principal.person_id r.person_id).1
                (pair_sorted principal.person_id r.person_id).2 =
                pair_sorted principal.person_id r.person_id :=
              pair_sorted_idem (pair_sorted_le _ _)
            have hcfind' : st.ft.families.find? (couple_pred src
                (pair_sorted (pair_sorted principal.person_id r.person_id).1
                  (pair_sorted principal.person_id r.person_id).2)) = none := by
              rw [hps]
              exact hcfind
            have hop := @couple_missed persons st.ft src
              (pair_sorted principal.person_id r.person_id).1
              (pair_sorted principal.person_id r.person_id).2
              (fam_key_args src r (pair_sorted principal.person_id r.person_id)
                (person.approx.getD false || p_apx persons principal.person_id))
              hdiag hcfind'
            rw [hps] at hop
            refine ⟨st.tracker,
              [couple_new src (pair_sorted principal.person_id r.person_id)
                (fam_key_args src r (pair_sorted principal.person_id r.person_id)
                  (person.approx.getD false ||
                    p_apx persons principal.person_id))
                st.ft.next_family_id],
              [],
              [(pair_sorted principal.person_id r.person_id,
                st.ft.next_family_id)],
              (if st.ft.next_family_id ≠ 0 then
                insert st.ft.next_family_id st.families_seen
               else st.families_seen),
              st.children_seen, ?_, ?_, by simp⟩
            · simp [pass2_step, hperson, hsp, hpr, hcache, pass2_couple, hop,
                couple_new_id]
            · intro f hf
              rcases List.mem_singleton.mp hf with rfl
              exact ⟨couple_new_id _ _ _ _,
                pair_sorted principal.person_id r.person_id,
                pair_sorted_le _ _, couple_new_matches hdiag,
                by simp [couple_new_id]⟩
    | false =>
      by_cases hgen : 1 < r.gen
      · cases htr : tr_get
            (tr_drop_deeper (tr_set st.tracker r.gen r) r.gen) (r.gen - 1) with
        | none =>
          refine ⟨tr_drop_deeper (tr_set st.tracker r.gen r) r.gen, [], [], [],
            st.families_seen, st.children_seen, ?_, by simp, by simp⟩
          simp [pass2_step, hperson, hsp, hgen, htr]
        | some parent =>
          cases hsl : spouse_lookahead all parent r.gen with
          | some sid =>
            cases hcache : cache_get st.cache
                (pair_sorted parent.person_id sid) with
            | some fid =>
              by_cases hfid : fid = 0
              · refine ⟨tr_drop_deeper (tr_set st.tracker r.gen r) r.gen,
                  [], [], [], st.families_seen, st.children_seen, ?_,
                  by simp, by simp⟩
                simp [pass2_step, hperson, hsp, hgen, htr, hsl, hcache,
                  pass2_child, hfid]
              · have hcfind : st.ft.children.find?
                    (child_pred fid r.person_id) = none :=
                  child_find_none hwf hfresh
                have hchild := @child_missed st.ft fid r.person_id
                  ⟨some (child_link_key src r.page_index r.line_index
                    r.person_id fid),
                   some (person.approx.getD false), some r.page_index⟩ hcfind
                refine ⟨tr_drop_deeper (tr_set st.tracker r.gen r) r.gen,
                  [],
                  [child_new st.ft fid r.person_id
                    ⟨some (child_link_key src r.page_index r.line_index
                      r.person_id fid),
                     some (person.approx.getD false), some r.page_index⟩],
                  [], insert fid st.families_seen,
                  (if st.ft.next_child_id ≠ 0 then
                    insert st.ft.next_child_id st.children_seen
                   else st.children_seen), ?_, by simp, ?_⟩
                · simp [pass2_step, hperson, hsp, hgen, htr, hsl, hcache,
                    pass2_child, hfid, hchild, child_new_id]
                · intro c hc
                  rcases List.mem_singleton.mp hc with rfl
                  exact ⟨child_new_id _ _ _ _, child_new_pid _ _ _ _⟩
            | none =>
              have hnf : st.ft.next_family_id ≠ 0 := hwf.2.2.2.2.1
              by_cases hdiag : (pair_sorted parent.person_id sid).1 =
                  (pair_sorted parent.person_id sid).2
              · have hdk : (((pair_sorted parent.person_id sid).2,
                    (pair_sorted parent.person_id sid).2) : Nat × Nat) =
                    pair_sorted parent.person_id sid :=
                  Prod.ext hdiag.symm rfl
                have hsingle : st.ft.families.find? (single_pred src
                    (pair_sorted parent.person_id sid).2) = none := by
                  apply single_find_none hwf
                  rw [hdk]
                  exact hcache
                have hop := @ensure_missed persons st.ft src
                  (pair_sorted parent.person_id sid).2
                  (fam_key_args src r (pair_sorted parent.person_id sid)
                    (p_apx persons parent.person_id || p_apx persons sid))
                  hsingle
                have hcfind : ({ st.ft with
                    families := st.ft.families ++
                      [single_new persons src
                        (pair_sorted parent.person_id sid).2
                        (fam_key_args src r (pair_sorted parent.person_id sid)
                          (p_apx persons parent.person_id ||
                            p_apx persons sid))
                        st.ft.next_family_id],
                    next_family_id := st.ft.next_family_id + 1 } :
                      FamTable).children.find?
                    (child_pred st.ft.next_family_id r.person_id) = none :=
                  child_find_none hwf hfresh
                have hchild := @child_missed _ st.ft.next_family_id r.person_id ⟨some (child_link_key src r.page_index r.line_index r.person_id st.ft.next_family_id), some (person.approx.getD false), some r.page_index⟩ hcfind
                refine ⟨tr_drop_deeper (tr_set st.tracker r.gen r) r.gen,
                  [single_new persons src (pair_sorted parent.person_id sid).2
                    (fam_key_args src r (pair_sorted parent.person_id sid)
                      (p_apx persons parent.person_id || p_apx persons sid))
                    st.ft.next_family_id],
                  [child_new
                    { st.ft with
                      families := st.ft.families ++
                        [single_new persons src
                          (pair_sorted parent.person_id sid).2
                          (fam_key_args src r
                            (pair_sorted parent.person_id sid)
                            (p_apx persons parent.person_id ||
                              p_apx persons sid))
                          st.ft.next_family_id],
                      next_family_id := st.ft.next_family_id + 1 }
                    st.ft.next_family_id r.person_id
                    ⟨some (child_link_key src r.page_index r.line_index
                      r.person_id st.ft.next_family_id),
                     some (person.approx.getD false), some r.page_index⟩],
                  [(pair_sorted parent.person_id sid, st.ft.next_family_id)],
                  insert st.ft.next_family_id st.families_seen,
                  (if st.ft.next_child_id ≠ 0 then
                    insert st.ft.next_child_id st.children_seen
                   else st.children_seen), ?_, ?_, ?_⟩
                · simp [pass2_step, hperson, hsp, hgen, htr, hsl, hcache,
                    pass2_couple, pass2_child, upsert_couple, hdiag, hop,
                    hchild, hnf, single_new_id, child_new_id]
                · intro f hf
                  rcases List.mem_singleton.mp hf with rfl
                  refine ⟨single_new_id _ _ _ _ _,
                    pair_sorted parent.person_id sid, pair_sorted_le _ _,
                    ?_, by simp [single_new_id]⟩
                  have hm := @single_new_matches persons src
                    (pair_sorted parent.person_id sid).2
                    (fam_key_args src r (pair_sorted parent.person_id sid)
                      (p_apx persons parent.person_id || p_apx persons sid))
                    st.ft.next_family_id
                  rwa [hdk] at hm
                · intro c hc
                  rcases List.mem_singleton.mp hc with rfl
                  exact ⟨child_new_id _ _ _ _, child_new_pid _ _ _ _⟩
              · have hcfind0 : st.ft.families.find? (couple_pred src
                    (pair_sorted parent.person_id sid)) = none :=
                  couple_find_none hwf (pair_sorted_le _ _) hdiag hcache
                have hps : pair_sorted (pair_sorted parent.person_id sid).1
                    (pair_sorted parent.person_id sid).2 =
                    pair_sorted parent.person_id sid :=
                  pair_sorted_idem (pair_sorted_le _ _)
                have hcfind' : st.ft.families.find? (couple_pred src
                    (pair_sorted (pair_sorted parent.person_id sid).1
                      (pair_sorted parent.person_id sid).2)) = none := by
                  rw [hps]
                  exact hcfind0
                have hop := @couple_missed persons st.ft src
                  (pair_sorted parent.person_id sid).1
                  (pair_sorted parent.person_id sid).2
                  (fam_key_args src r (pair_sorted parent.person_id sid)
                    (p_apx persons parent.person_id || p_apx persons sid))
                  hdiag hcfind'
                rw [hps] at hop
                have hcfind : ({ st.ft with
                    families := st.ft.families ++
                      [couple_new src (pair_sorted parent.person_id sid)
                        (fam_key_args src r (pair_sorted parent.person_id sid)
                          (p_apx persons parent.person_id ||
                            p_apx persons sid))
                        st.ft.next_family_id],
                    next_family_id := st.ft.next_family_id + 1 } :
                      FamTable).children.find?
                    (child_pred st.ft.next_family_id r.person_id) = none :=
                  child_find_none hwf hfresh
                have hchild := @child_missed _ st.ft.next_family_id r.person_id ⟨some (child_link_key src r.page_index r.line_index r.person_id st.ft.next_family_id), some (person.approx.getD false), some r.page_index⟩ hcfind
                refine ⟨tr_drop_deeper (tr_set st.tracker r.gen r) r.gen,
                  [couple_new src (pair_sorted parent.person_id sid)
                    (fam_key_args src r (pair_sorted parent.person_id sid)
                      (p_apx persons parent.person_id || p_apx persons sid))
                    st.ft.next_family_id],
                  [child_new
                    { st.ft with
                      families := st.ft.families ++
                        [couple_new src (pair_sorted parent.person_id sid)
                          (fam_key_args src r
                            (pair_sorted parent.person_id sid)
                            (p_apx persons parent.person_id ||
                              p_apx persons sid))
                          st.ft.next_family_id],
                      next_family_id := st.ft.next_family_id + 1 }
                    st.ft.next_family_id r.person_id
                    ⟨some (child_link_key src r.page_index r.line_index
                      r.person_id st.ft.next_family_id),
                     some (person.approx.getD false), some r.page_index⟩],
                  [(pair_sorted parent.person_id sid, st.ft.next_family_id)],
                  insert st.ft.next_family_id st.families_seen,
                  (if st.ft.next_child_id ≠ 0 then
                    insert st.ft.next_child_id st.children_seen
                   else st.children_seen), ?_, ?_, ?_⟩
                · simp [pass2_step, hperson, hsp, hgen, htr, hsl, hcache,
                    pass2_couple, pass2_child, hop, hchild, hnf,
                    couple_new_id, child_new_id]
                · intro f hf
                  rcases List.mem_singleton.mp hf with rfl
                  exact ⟨couple_new_id _ _ _ _,
                    pair_sorted parent.person_id sid, pair_sorted_le _ _,
                    couple_new_matches hdiag, by simp [couple_new_id]⟩
                · intro c hc
                  rcases List.mem_singleton.mp hc with rfl
                  exact ⟨child_new_id _ _ _ _, child_new_pid _ _ _ _⟩
          | none =>
            cases hcache : cache_get st.cache
                (parent.person_id, parent.person_id) with
            | some fid =>
              by_cases hfid : fid = 0
              · refine ⟨tr_drop_deeper (tr_set st.tracker r.gen r) r.gen,
                  [], [], [], st.families_seen, st.children_seen, ?_,
                  by simp, by simp⟩
                simp [pass2_step, hperson, hsp, hgen, htr, hsl, hcache,
                  pass2_child, hfid]
              · have hcfind : st.ft.children.find?
                    (child_pred fid r.person_id) = none :=
                  child_find_none hwf hfresh
                have hchild := @child_missed st.ft fid r.person_id
                  ⟨some (child_link_key src r.page_index r.line_index
                    r.person_id fid),
                   some (person.approx.getD false), some r.page_index⟩ hcfind
                refine ⟨tr_drop_deeper (tr_set st.tracker r.gen r) r.gen,
                  [],
                  [child_new st.ft fid r.person_id
                    ⟨some (child_link_key src r.page_index r.line_index
                      r.person_id fid),
                     some (person.approx.getD false), some r.page_index⟩],
                  [], insert fid st.families_seen,
                  (if st.ft.next_child_id ≠ 0 then
                    insert st.ft.next_child_id st.children_seen
                   else st.children_seen), ?_, by simp, ?_⟩
                · simp [pass2_step, hperson, hsp, hgen, htr, hsl, hcache,
                    pass2_child, hfid, hchild, child_new_id]
                · intro c hc
                  rcases List.mem_singleton.mp hc with rfl
                  exact ⟨child_new_id _ _ _ _, child_new_pid _ _ _ _⟩
            | none =>
              have hnf : st.ft.next_family_id ≠ 0 := hwf.2.2.2.2.1
              have hsingle : st.ft.families.find? (single_pred src
                  parent.person_id) = none :=
                single_find_none hwf hcache
              have hop := @ensure_missed persons st.ft src parent.person_id
                (fam_key_args src r (parent.person_id, parent.person_id)
                  (p_apx persons parent.person_id)) hsingle
              have hcfind : ({ st.ft with
                  families := st.ft.families ++
                    [single_new persons src parent.person_id
                      (fam_key_args src r
                        (parent.person_id, parent.person_id)
                        (p_apx persons parent.person_id))
                      st.ft.next_family_id],
                  next_family_id := st.ft.next_family_id + 1 } :
                    FamTable).children.find?
                  (child_pred st.ft.next_family_id r.person_id) = none :=
                child_find_none hwf hfresh
              have hchild := @child_missed _ st.ft.next_family_id r.person_id ⟨some (child_link_key src r.page_index r.line_index r.person_id st.ft.next_family_id), some (person.approx.getD false), some r.page_index⟩ hcfind
              refine ⟨tr_drop_deeper (tr_set st.tracker r.gen r) r.gen,
                [single_new persons src parent.person_id
                  (fam_key_args src r (parent.person_id, parent.person_id)
                    (p_apx persons parent.person_id))
                  st.ft.next_family_id],
                [child_new
                  { st.ft with
                    families := st.ft.families ++
                      [single_new persons src parent.person_id
                        (fam_key_args src r
                          (parent.person_id, parent.person_id)
                          (p_apx persons parent.person_id))
                        st.ft.next_family_id],
                    next_family_id := st.ft.next_family_id + 1 }
                  st.ft.next_family_id r.person_id
                  ⟨some (child_link_key src r.page_index r.line_index
                    r.person_id st.ft.next_family_id),
                   some (person.approx.getD false), some r.page_index⟩],
                [((parent.person_id, parent.person_id),
                  st.ft.next_family_id)],
                insert st.ft.next_family_id st.families_seen,
                (if st.ft.next_child_id ≠ 0 then
                  insert st.ft.next_child_id st.children_seen
                 else st.children_seen), ?_, ?_, ?_⟩
              · simp [pass2_step, hperson, hsp, hgen, htr, hsl, hcache,
                  pass2_single, pass2_child, hop, hchild, hnf,
                  single_new_id, child_new_id]
              · intro f hf
                rcases List.mem_singleton.mp hf with rfl
                exact ⟨single_new_id _ _ _ _ _,
                  (parent.person_id, parent.person_id), Nat.le_refl _,
                  single_new_matches, by simp [single_new_id]⟩
              · intro c hc
                rcases List.mem_singleton.mp hc with rfl
                exact ⟨child_new_id _ _ _ _, child_new_pid _ _ _ _⟩
      · refine ⟨tr_drop_deeper (tr_set st.tracker r.gen r) r.gen, [], [], [],
          st.families_seen, st.children_seen, ?_, by simp, by simp⟩
        simp [pass2_step, hperson, hsp, hgen]

theorem child_pred_self (ft : FamTable) (fid cid : Nat) (g : ChildArgs) :
    child_pred fid cid (child_new ft fid cid g) = true := by
  simp [child_pred, child_new]

/-- One pass-2 step preserves the invariant, with the current record's
person id added to the processed set. -/
theorem pass2_step_preserves {persons : List PersonR} {src : Nat}
    {all : List PRecord} {st : Pass2State} {r : PRecord} {P : List Nat}
    (hwf : pass2_wf P st) (hfresh : r.person_id ∉ P) :
    pass2_wf (P ++ [r.person_id]) (pass2_step persons src all st r) := by
  obtain ⟨T, Δf, Δc, Δk, FS, CS, heq, hf, hc⟩ :=
    pass2_step_shape persons src all st r P hwf hfresh
  rw [heq]
  refine ⟨?_, ?_, ?_, ?_, ?_, ?_⟩
  · intro f hmem
    show f.id < st.ft.next_family_id + Δf.length
    rcases List.mem_append.mp hmem with h1 | h2
    · have := hwf.1 f h1
      omega
    · have h0 : 0 < Δf.length := List.length_pos.mpr (List.ne_nil_of_mem h2)
      have := (hf f h2).1
      omega
  · intro f hmem
    rcases List.mem_append.mp hmem with h1 | h2
    · obtain ⟨pr, ⟨fid, hfid⟩, hle, hm⟩ := hwf.2.1 f h1
      exact ⟨pr, ⟨fid, List.mem_append_left _ hfid⟩, hle, hm⟩
    · obtain ⟨-, pr, hle, hm, hk⟩ := hf f h2
      exact ⟨pr, ⟨f.id, List.mem_append_right _ hk⟩, hle, hm⟩
  · intro c hmem
    show c.id < st.ft.next_child_id + Δc.length
    rcases List.mem_append.mp hmem with h1 | h2
    · have := hwf.2.2.1 c h1
      omega
    · have h0 : 0 < Δc.length := List.length_pos.mpr (List.ne_nil_of_mem h2)
      have := (hc c h2).1
      omega
  · intro c hmem
    rcases List.mem_append.mp hmem with h1 | h2
    · exact List.mem_append_left _ (hwf.2.2.2.1 c h1)
    · rw [(hc c h2).2]
      exact List.mem_append_right _ (List.mem_singleton.mpr rfl)
  · show st.ft.next_family_id + Δf.length ≠ 0
    have := hwf.2.2.2.2.1
    omega
  · show st.ft.next_child_id + Δc.length ≠ 0
    have := hwf.2.2.2.2.2
    omega

/-- A pass-2 run over fresh, pairwise-distinct person ids only appends
rows, all with ids at or above the current counters. -/
theorem pass2_future (persons : List PersonR) (src : Nat)
    (all : List PRecord) :
    ∀ (todo : List PRecord) (st : Pass2State) (P : List Nat),
      pass2_wf P st → (∀ r ∈ todo, r.person_id ∉ P) →
      (todo.map PRecord.person_id).Nodup →
      ∃ (Δf : List FamilyR) (Δc : List ChildR),
        (todo.foldl (pass2_step persons src all) st).ft.families =
          st.ft.families ++ Δf ∧
        (∀ f ∈ Δf, st.ft.next_family_id ≤ f.id) ∧
        (todo.foldl (pass2_step persons src all) st).ft.children =
          st.ft.children ++ Δc ∧
        (∀ c ∈ Δc, st.ft.next_child_id ≤ c.id) := by
  intro todo
  induction todo with
  | nil =>
    intro st P _ _ _
    exact ⟨[], [], by simp, by simp, by simp, by simp⟩
  | cons r rest ih =>
    intro st P hwf hfr hnd
    have hfresh : r.person_id ∉ P := hfr r (List.mem_cons_self _ _)
    obtain ⟨T, Δf1, Δc1, Δk, FS, CS, heq, hf1, hc1⟩ :=
      pass2_step_shape persons src all st r P hwf hfresh
    have hwf1 : pass2_wf (P ++ [r.person_id])
        (pass2_step persons src all st r) :=
      pass2_step_preserves hwf hfresh
    have hnd' : (∀ x ∈ rest, ¬x.person_id = r.person_id) ∧
        (rest.map PRecord.person_id).Nodup := by simpa using hnd
    have hfr1 : ∀ x ∈ rest, x.person_id ∉ P ++ [r.person_id] := by
      intro x hx hmem
      rcases List.mem_append.mp hmem with h1 | h2
      · exact hfr x (List.mem_cons_of_mem _ hx) h1
      · exact hnd'.1 x hx (List.mem_singleton.mp h2)
    obtain ⟨Δf2, Δc2, h2f, h2fi, h2c, h2ci⟩ :=
      ih (pass2_step persons src all st r) (P ++ [r.person_id]) hwf1 hfr1 hnd'.2
    refine ⟨Δf1 ++ Δf2, Δc1 ++ Δc2, ?_, ?_, ?_, ?_⟩
    · rw [List.foldl_cons, h2f, heq]
      exact List.append_assoc _ _ _
    · intro f hmem
      rcases List.mem_append.mp hmem with h1 | h2
      · rw [(hf1 f h1).1]
      · have h' := h2fi f h2
        rw [heq] at h'
        have h'' : st.ft.next_family_id + Δf1.length ≤ f.id := h'
        omega
    · rw [List.foldl_cons, h2c, heq]
      exact List.append_assoc _ _ _
    · intro c hmem
      rcases List.mem_append.mp hmem with h1 | h2
      · rw [(hc1 c h1).1]
      · have h' := h2ci c h2
        rw [heq] at h'
        have h'' : st.ft.next_child_id + Δc1.length ≤ c.id := h'
        omega

/-- Replaying one pass-2 step against a family table that extends the
step's output by future fresh rows finds every row the original step
created, applies only no-op updates, and transforms the rest of the state
exactly as the original step did. -/
theorem pass2_step_replay (persons : List PersonR) (src : Nat)
    (all : List PRecord) (st : Pass2State) (r : PRecord) (P : List Nat)
    (F : FamTable) (Δf : List FamilyR) (Δc : List ChildR)
    (hwf : pass2_wf P st) (hfresh : r.person_id ∉ P)
    (hFf : F.families = (pass2_step persons src all st r).ft.families ++ Δf)
    (hΔf : ∀ f ∈ Δf,
      (pass2_step persons src all st r).ft.next_family_id ≤ f.id)
    (hFc : F.children = (pass2_step persons src all st r).ft.children ++ Δc)
    (hΔc : ∀ c ∈ Δc,
      (pass2_step persons src all st r).ft.next_child_id ≤ c.id) :
    pass2_step persons src all { st with ft := F } r =
      { pass2_step persons src all st r with ft := F } := by
  cases hperson : persons.find? (fun q => q.id == r.person_id) with
  | none =>
    have hstep : pass2_step persons src all st r = st := by
      simp [pass2_step, hperson]
    rw [hstep]
    simp [pass2_step, hperson]
  | some person =>
    cases hsp : r.is_spouse with
    | true =>
      cases hpr : (all.take (rec_idx all r)).reverse.find?
          (fun x => x.gen == r.gen && !x.is_spouse) with
      | none =>
        have hstep : pass2_step persons src all st r = st := by
          simp [pass2_step, hperson, hsp, hpr]
        rw [hstep]
        simp [pass2_step, hperson, hsp, hpr]
      | some principal =>
        cases hcache : cache_get st.cache
            (pair_sorted principal.person_id r.person_id) with
        | some fid =>
          have hstep : pass2_step persons src all st r = st := by
            simp [pass2_step, hperson, hsp, hpr, hcache]
          rw [hstep]
          simp [pass2_step, hperson, hsp, hpr, hcache]
        | none =>
          by_cases hdiag : (pair_sorted principal.person_id r.person_id).1 =
              (pair_sorted principal.person_id r.person_id).2
          · have hdk : (((pair_sorted principal.person_id r.person_id).2,
                (pair_sorted principal.person_id r.person_id).2) :
                  Nat × Nat) =
                pair_sorted principal.person_id r.person_id :=
              Prod.ext hdiag.symm rfl
            have hsingle : st.ft.families.find? (single_pred src
                (pair_sorted principal.person_id r.person_id).2) = none := by
              apply single_find_none hwf
              rw [hdk]
              exact hcache
            have hop := @ensure_missed persons st.ft src
              (pair_sorted principal.person_id r.person_id).2
              (fam_key_args src r (pair_sorted principal.person_id r.person_id)
                (person.approx.getD false || p_apx persons principal.person_id))
              hsingle
            have hstep : pass2_step persons src all st r =
                { ft := ⟨st.ft.families ++
                    [single_new persons src
                      (pair_sorted principal.person_id r.person_id).2
                      (fam_key_args src r
                        (pair_sorted principal.person_id r.person_id)
                        (person.approx.getD false ||
                          p_apx persons principal.person_id))
                      st.ft.next_family_id],
                    st.ft.children, st.ft.next_family_id + 1,
                    st.ft.next_child_id⟩,
                  tracker := st.tracker,
                  cache := st.cache ++
                    [(pair_sorted principal.person_id r.person_id,
                      st.ft.next_family_id)],
                  families_seen :=
                    if st.ft.next_family_id ≠ 0 then
                      insert st.ft.next_family_id st.families_seen
                    else st.families_seen,
                  children_seen := st.children_seen } := by
              simp [pass2_step, hperson, hsp, hpr, hcache, pass2_couple,
                upsert_couple, hdiag, hop, single_new_id]
            rw [hstep] at hFf hΔf
            have hrep := @ensure_replay persons F src
              (pair_sorted principal.person_id r.person_id).2
              (fam_key_args src r (pair_sorted principal.person_id r.person_id)
                (person.approx.getD false || p_apx persons principal.person_id))
              st.ft.families Δf st.ft.next_family_id hFf hsingle hwf.1 hΔf
            rw [hstep]
            simp [pass2_step, hperson, hsp, hpr, hcache, pass2_couple,
              upsert_couple, hdiag, hrep, single_new_id]
          · have hcfind : st.ft.families.find? (couple_pred src
                (pair_sorted principal.person_id r.person_id)) = none :=
              couple_find_none hwf (pair_sorted_le _ _) hdiag hcache
            have hps : pair_sorted
                (pair_sorted principal.person_id r.person_id).1
                (pair_sorted principal.person_id r.person_id).2 =
                pair_sorted principal.person_id r.person_id :=
              pair_sorted_idem (pair_sorted_le _ _)
            have hcfind' : st.ft.families.find? (couple_pred src
                (pair_sorted (pair_sorted principal.person_id r.person_id).1
                  (pair_sorted principal.person_id r.person_id).2)) = none := by
              rw [hps]
              exact hcfind
            have hop := @couple_missed persons st.ft src
              (pair_sorted principal.person_id r.person_id).1
              (pair_sorted principal.person_id r.person_id).2
              (fam_key_args src r (pair_sorted principal.person_id r.person_id)
                (person.approx.getD false || p_apx persons principal.person_id))
              hdiag hcfind'
            rw [hps] at hop
            have hstep : pass2_step persons src all st r =
                { ft := ⟨st.ft.families ++
                    [couple_new src
                      (pair_sorted principal.person_id r.person_id)
                      (fam_key_args src r
                        (pair_sorted principal.person_id r.person_id)
                        (person.approx.getD false ||
                          p_apx persons principal.person_id))
                      st.ft.next_family_id],
                    st.ft.children, st.ft.next_family_id + 1,
                    st.ft.next_child_id⟩,
                  tracker := st.tracker,
                  cache := st.cache ++
                    [(pair_sorted principal.person_id r.person_id,
                      st.ft.next_family_id)],
                  families_seen :=
                    if st.ft.next_family_id ≠ 0 then
                      insert st.ft.next_family_id st.families_seen
                    else st.families_seen,
                  children_seen := st.children_seen } := by
              simp [pass2_step, hperson, hsp, hpr, hcache, pass2_couple, hop,
                couple_new_id]
            rw [hstep] at hFf hΔf
            have hrep := @upsert_couple_replay persons F src
              (pair_sorted principal.person_id r.person_id)
              (fam_key_args src r (pair_sorted principal.person_id r.person_id)
                (person.approx.getD false || p_apx persons principal.person_id))
              st.ft.families Δf st.ft.next_family_id (pair_sorted_le _ _)
              hdiag hFf hcfind hwf.1 hΔf
            rw [hstep]
            simp [pass2_step, hperson, hsp, hpr, hcache, pass2_couple, hrep,
              couple_new_id]
    | false =>
      by_cases hgen : 1 < r.gen
      · cases htr : tr_get
            (tr_drop_deeper (tr_set st.tracker r.gen r) r.gen) (r.gen - 1) with
        | none =>
          have hstep : pass2_step persons src all st r =
              { st with tracker :=
                  tr_drop_deeper (tr_set st.tracker r.gen r) r.gen } := by
            simp [pass2_step, hperson, hsp, hgen, htr]
          rw [hstep]
          simp [pass2_step, hperson, hsp, hgen, htr]
        | some parent =>
          cases hsl : spouse_lookahead all parent r.gen with
          | some sid =>
            cases hcache : cache_get st.cache
                (pair_sorted parent.person_id sid) with
            | some fid =>
              by_cases hfid : fid = 0
              · have hstep : pass2_step persons src all st r =
                    { st with tracker :=
                        tr_drop_deeper (tr_set st.tracker r.gen r) r.gen } := by
                  simp [pass2_step, hperson, hsp, hgen, htr, hsl, hcache,
                    pass2_child, hfid]
                rw [hstep]
                simp [pass2_step, hperson, hsp, hgen, htr, hsl, hcache,
                  pass2_child, hfid]
              · have hcfind : st.ft.children.find?
                    (child_pred fid r.person_id) = none :=
                  child_find_none hwf hfresh
                have hchild := @child_missed st.ft fid r.person_id
                  ⟨some (child_link_key src r.page_index r.line_index
                    r.person_id fid),
                   some (person.approx.getD false), some r.page_index⟩ hcfind
                have hstep : pass2_step persons src all st r =
                    { ft := ⟨st.ft.families,
                        st.ft.children ++
                          [child_new st.ft fid r.person_id
                            ⟨some (child_link_key src r.page_index r.line_index
                              r.person_id fid),
                             some (person.approx.getD false),
                             some r.page_index⟩],
                        st.ft.next_family_id, st.ft.next_child_id + 1⟩,
                      tracker :=
                        tr_drop_deeper (tr_set st.tracker r.gen r) r.gen,
                      cache := st.cache,
                      families_seen := insert fid st.families_seen,
                      children_seen :=
                        if st.ft.next_child_id ≠ 0 then
                          insert st.ft.next_child_id st.children_seen
                        else st.children_seen } := by
                  simp [pass2_step, hperson, hsp, hgen, htr, hsl, hcache,
                    pass2_child, hfid, hchild, child_new_id]
                rw [hstep] at hFc hΔc
                have hrep := @child_replay F fid r.person_id
                  ⟨some (child_link_key src r.page_index r.line_index
                    r.person_id fid),
                   some (person.approx.getD false), some r.page_index⟩
                  st.ft.children Δc
                  (child_new st.ft fid r.person_id
                    ⟨some (child_link_key src r.page_index r.line_index
                      r.person_id fid),
                     some (person.approx.getD false), some r.page_index⟩)
                  st.ft.next_child_id hFc (child_new_id _ _ _ _)
                  (child_pred_self _ _ _ _) child_updates_noop hcfind
                  hwf.2.2.1 hΔc
                rw [hstep]
                simp [pass2_step, hperson, hsp, hgen, htr, hsl, hcache,
                  pass2_child, hfid, hrep, child_new_id]
            | none =>
              have hnf : st.ft.next_family_id ≠ 0 := hwf.2.2.2.2.1
              by_cases hdiag : (pair_sorted parent.person_id sid).1 =
                  (pair_sorted parent.person_id sid).2
              · have hdk : (((pair_sorted parent.person_id sid).2,
                    (pair_sorted parent.person_id sid).2) : Nat × Nat) =
                    pair_sorted parent.person_id sid :=
                  Prod.ext hdiag.symm rfl
                have hsingle : st.ft.families.find? (single_pred src
                    (pair_sorted parent.person_id sid).2) = none := by
                  apply single_find_none hwf
                  rw [hdk]
                  exact hcache
                have hop := @ensure_missed persons st.ft src
                  (pair_sorted parent.person_id sid).2
                  (fam_key_args src r (pair_sorted parent.person_id sid)
                    (p_apx persons parent.person_id || p_apx persons sid))
                  hsingle
                have hccfind : st.ft.children.find?
                    (child_pred st.ft.next_family_id r.person_id) = none :=
                  child_find_none hwf hfresh
                have hchild := @child_missed
                  { st.ft with
                    families := st.ft.families ++
                      [single_new persons src
                        (pair_sorted parent.person_id sid).2
                        (fam_key_args src r (pair_sorted parent.person_id sid)
                          (p_apx persons parent.person_id ||
                            p_apx persons sid))
                        st.ft.next_family_id],
                    next_family_id := st.ft.next_family_id + 1 }
                  st.ft.next_family_id r.person_id
                  ⟨some (child_link_key src r.page_index r.line_index
                    r.person_id st.ft.next_family_id),
                   some (person.approx.getD false), some r.page_index⟩ hccfind
                have hstep : pass2_step persons src all st r =
                    { ft := ⟨st.ft.families ++
                        [single_new persons src
                          (pair_sorted parent.person_id sid).2
                          (fam_key_args src r
                            (pair_sorted parent.person_id sid)
                            (p_apx persons parent.person_id ||
                              p_apx persons sid))
                          st.ft.next_family_id],
                        st.ft.children ++
                          [child_new
                            { st.ft with
                              families := st.ft.families ++
                                [single_new persons src
                                  (pair_sorted parent.person_id sid).2
                                  (fam_key_args src r
                                    (pair_sorted parent.person_id sid)
                                    (p_apx persons parent.person_id ||
                                      p_apx persons sid))
                                  st.ft.next_family_id],
                              next_family_id := st.ft.next_family_id + 1 }
                            st.ft.next_family_id r.person_id
                            ⟨some (child_link_key src r.page_index
                              r.line_index r.person_id st.ft.next_family_id),
                             some (person.approx.getD false),
                             some r.page_index⟩],
                        st.ft.next_family_id + 1, st.ft.next_child_id + 1⟩,
                      tracker :=
                        tr_drop_deeper (tr_set st.tracker r.gen r) r.gen,
                      cache := st.cache ++
                        [(pair_sorted parent.person_id sid,
                          st.ft.next_family_id)],
                      families_seen :=
                        insert st.ft.next_family_id st.families_seen,
                      children_seen :=
                        if st.ft.next_child_id ≠ 0 then
                          insert st.ft.next_child_id st.children_seen
                        else st.children_seen } := by
                  simp [pass2_step, hperson, hsp, hgen, htr, hsl, hcache,
                    pass2_couple, pass2_child, upsert_couple, hdiag, hop,
                    hchild, hnf, single_new_id, child_new_id]
                rw [hstep] at hFf hΔf hFc hΔc
                have hrepf := @ensure_replay persons F src
                  (pair_sorted parent.person_id sid).2
                  (fam_key_args src r (pair_sorted parent.person_id sid)
                    (p_apx persons parent.person_id || p_apx persons sid))
                  st.ft.families Δf st.ft.next_family_id hFf hsingle hwf.1 hΔf
                have hrepc := @child_replay F st.ft.next_family_id r.person_id
                  ⟨some (child_link_key src r.page_index r.line_index
                    r.person_id st.ft.next_family_id),
                   some (person.approx.getD false), some r.page_index⟩
                  st.ft.children Δc
                  (child_new
                    { st.ft with
                      families := st.ft.families ++
                        [single_new persons src
                          (pair_sorted parent.person_id sid).2
                          (fam_key_args src r
                            (pair_sorted parent.person_id sid)
                            (p_apx persons parent.person_id ||
                              p_apx persons sid))
                          st.ft.next_family_id],
                      next_family_id := st.ft.next_family_id + 1 }
                    st.ft.next_family_id r.person_id
                    ⟨some (child_link_key src r.page_index r.line_index
                      r.person_id st.ft.next_family_id),
                     some (person.approx.getD false), some r.page_index⟩)
                  st.ft.next_child_id hFc (child_new_id _ _ _ _)
                  (child_pred_self _ _ _ _) child_updates_noop hccfind
                  hwf.2.2.1 hΔc
                rw [hstep]
                simp [pass2_step, hperson, hsp, hgen, htr, hsl, hcache,
                  pass2_couple, pass2_child, upsert_couple, hdiag, hrepf,
                  hrepc, hnf, single_new_id, child_new_id]
              · have hcfind : st.ft.families.find? (couple_pred src
                    (pair_sorted parent.person_id sid)) = none :=
                  couple_find_none hwf (pair_sorted_le _ _) hdiag hcache
                have hps : pair_sorted (pair_sorted parent.person_id sid).1
                    (pair_sorted parent.person_id sid).2 =
                    pair_sorted parent.person_id sid :=
                  pair_sorted_idem (pair_sorted_le _ _)
                have hcfind' : st.ft.families.find? (couple_pred src
                    (pair_sorted (pair_sorted parent.person_id sid).1
                      (pair_sorted parent.person_id sid).2)) = none := by
                  rw [hps]
                  exact hcfind
                have hop := @couple_missed persons st.ft src
                  (pair_sorted parent.person_id sid).1
                  (pair_sorted parent.person_id sid).2
                  (fam_key_args src r (pair_sorted parent.person_id sid)
                    (p_apx persons parent.person_id || p_apx persons sid))
                  hdiag hcfind'
                rw [hps] at hop
                have hccfind : st.ft.children.find?
                    (child_pred st.ft.next_family_id r.person_id) = none :=
                  child_find_none hwf hfresh
                have hchild := @child_missed
                  { st.ft with
                    families := st.ft.families ++
                      [couple_new src (pair_sorted parent.person_id sid)
                        (fam_key_args src r (pair_sorted parent.person_id sid)
                          (p_apx persons parent.person_id ||
                            p_apx persons sid))
                        st.ft.next_family_id],
                    next_family_id := st.ft.next_family_id + 1 }
                  st.ft.next_family_id r.person_id
                  ⟨some (child_link_key src r.page_index r.line_index
                    r.person_id st.ft.next_family_id),
                   some (person.approx.getD false), some r.page_index⟩ hccfind
                have hstep : pass2_step persons src all st r =
                    { ft := ⟨st.ft.families ++
                        [couple_new src (pair_sorted parent.person_id sid)
                          (fam_key_args src r
                            (pair_sorted parent.person_id sid)
                            (p_apx persons parent.person_id ||
                              p_apx persons sid))
                          st.ft.next_family_id],
                        st.ft.children ++
                          [child_new
                            { st.ft with
                              families := st.ft.families ++
                                [couple_new src
                                  (pair_sorted parent.person_id sid)
                                  (fam_key_args src r
                                    (pair_sorted parent.person_id sid)
                                    (p_apx persons parent.person_id ||
                                      p_apx persons sid))
                                  st.ft.next_family_id],
                              next_family_id := st.ft.next_family_id + 1 }
                            st.ft.next_family_id r.person_id
                            ⟨some (child_link_key src r.page_index
                              r.line_index r.person_id st.ft.next_family_id),
                             some (person.approx.getD false),
                             some r.page_index⟩],
                        st.ft.next_family_id + 1, st.ft.next_child_id + 1⟩,
                      tracker :=
                        tr_drop_deeper (tr_set st.tracker r.gen r) r.gen,
                      cache := st.cache ++
                        [(pair_sorted parent.person_id sid,
                          st.ft.next_family_id)],
                      families_seen :=
                        insert st.ft.next_family_id st.families_seen,
                      children_seen :=
                        if st.ft.next_child_id ≠ 0 then
                          insert st.ft.next_child_id st.children_seen
                        else st.children_seen } := by
                  simp [pass2_step, hperson, hsp, hgen, htr, hsl, hcache,
                    pass2_couple, pass2_child, hop, hchild, hnf,
                    couple_new_id, child_new_id]
                rw [hstep] at hFf hΔf hFc hΔc
                have hrepf := @upsert_couple_replay persons F src
                  (pair_sorted parent.person_id sid)
                  (fam_key_args src r (pair_sorted parent.person_id sid)
                    (p_apx persons parent.person_id || p_apx persons sid))
                  st.ft.families Δf st.ft.next_family_id (pair_sorted_le _ _)
                  hdiag hFf hcfind hwf.1 hΔf
                have hrepc := @child_replay F st.ft.next_family_id r.person_id
                  ⟨some (child_link_key src r.page_index r.line_index
                    r.person_id st.ft.next_family_id),
                   some (person.approx.getD false), some r.page_index⟩
                  st.ft.children Δc
                  (child_new
                    { st.ft with
                      families := st.ft.families ++
                        [couple_new src (pair_sorted parent.person_id sid)
                          (fam_key_args src r
                            (pair_sorted parent.person_id sid)
                            (p_apx persons parent.person_id ||
                              p_apx persons sid))
                          st.ft.next_family_id],
                      next_family_id := st.ft.next_family_id + 1 }
                    st.ft.next_family_id r.person_id
                    ⟨some (child_link_key src r.page_index r.line_index
                      r.person_id st.ft.next_family_id),
                     some (person.approx.getD false), some r.page_index⟩)
                  st.ft.next_child_id hFc (child_new_id _ _ _ _)
                  (child_pred_self _ _ _ _) child_updates_noop hccfind
                  hwf.2.2.1 hΔc
                rw [hstep]
                simp [pass2_step, hperson, hsp, hgen, htr, hsl, hcache,
                  pass2_couple, pass2_child, hrepf, hrepc, hnf,
                  couple_new_id, child_new_id]
          | none =>
            cases hcache : cache_get st.cache
                (parent.person_id, parent.person_id) with
            | some fid =>
              by_cases hfid : fid = 0
              · have hstep : pass2_step persons src all st r =
                    { st with tracker :=
                        tr_drop_deeper (tr_set st.tracker r.gen r) r.gen } := by
                  simp [pass2_step, hperson, hsp, hgen, htr, hsl, hcache,
                    pass2_child, hfid]
                rw [hstep]
                simp [pass2_step, hperson, hsp, hgen, htr, hsl, hcache,
                  pass2_child, hfid]
              · have hcfind : st.ft.children.find?
                    (child_pred fid r.person_id) = none :=
                  child_find_none hwf hfresh
                have hchild := @child_missed st.ft fid r.person_id
                  ⟨some (child_link_key src r.page_index r.line_index
                    r.person_id fid),
                   some (person.approx.getD false), some r.page_index⟩ hcfind
                have hstep : pass2_step persons src all st r =
                    { ft := ⟨st.ft.families,
                        st.ft.children ++
                          [child_new st.ft fid r.person_id
                            ⟨some (child_link_key src r.page_index r.line_index
                              r.person_id fid),
                             some (person.approx.getD false),
                             some r.page_index⟩],
                        st.ft.next_family_id, st.ft.next_child_id + 1⟩,
                      tracker :=
                        tr_drop_deeper (tr_set st.tracker r.gen r) r.gen,
                      cache := st.cache,
                      families_seen := insert fid st.families_seen,
                      children_seen :=
                        if st.ft.next_child_id ≠ 0 then
                          insert st.ft.next_child_id st.children_seen
                        else st.children_seen } := by
                  simp [pass2_step, hperson, hsp, hgen, htr, hsl, hcache,
                    pass2_child, hfid, hchild, child_new_id]
                rw [hstep] at hFc hΔc
                have hrep := @child_replay F fid r.person_id
                  ⟨some (child_link_key src r.page_index r.line_index
                    r.person_id fid),
                   some (person.approx.getD false), some r.page_index⟩
                  st.ft.children Δc
                  (child_new st.ft fid r.person_id
                    ⟨some (child_link_key src r.page_index r.line_index
                      r.person_id fid),
                     some (person.approx.getD false), some r.page_index⟩)
                  st.ft.next_child_id hFc (child_new_id _ _ _ _)
                  (child_pred_self _ _ _ _) child_updates_noop hcfind
                  hwf.2.2.1 hΔc
                rw [hstep]
                simp [pass2_step, hperson, hsp, hgen, htr, hsl, hcache,
                  pass2_child, hfid, hrep, child_new_id]
            | none =>
              have hnf : st.ft.next_family_id ≠ 0 := hwf.2.2.2.2.1
              have hsingle : st.ft.families.find? (single_pred src
                  parent.person_id) = none :=
                single_find_none hwf hcache
              have hop := @ensure_missed persons st.ft src parent.person_id
                (fam_key_args src r (parent.person_id, parent.person_id)
                  (p_apx persons parent.person_id)) hsingle
              have hccfind : st.ft.children.find?
                  (child_pred st.ft.next_family_id r.person_id) = none :=
                child_find_none hwf hfresh
              have hchild := @child_missed
                { st.ft with
                  families := st.ft.families ++
                    [single_new persons src parent.person_id
                      (fam_key_args src r
                        (parent.person_id, parent.person_id)
                        (p_apx persons parent.person_id))
                      st.ft.next_family_id],
                  next_family_id := st.ft.next_family_id + 1 }
                st.ft.next_family_id r.person_id
                ⟨some (child_link_key src r.page_index r.line_index
                  r.person_id st.ft.next_family_id),
                 some (person.approx.getD false), some r.page_index⟩ hccfind
              have hstep : pass2_step persons src all st r =
                  { ft := ⟨st.ft.families ++
                      [single_new persons src parent.person_id
                        (fam_key_args src r
                          (parent.person_id, parent.person_id)
                          (p_apx persons parent.person_id))
                        st.ft.next_family_id],
                      st.ft.children ++
                        [child_new
                          { st.ft with
                            families := st.ft.families ++
                              [single_new persons src parent.person_id
                                (fam_key_args src r
                                  (parent.person_id, parent.person_id)
                                  (p_apx persons parent.person_id))
                                st.ft.next_family_id],
                            next_family_id := st.ft.next_family_id + 1 }
                          st.ft.next_family_id r.person_id
                          ⟨some (child_link_key src r.page_index r.line_index
                            r.person_id st.ft.next_family_id),
                           some (person.approx.getD false),
                           some r.page_index⟩],
                      st.ft.next_family_id + 1, st.ft.next_child_id + 1⟩,
                    tracker :=
                      tr_drop_deeper (tr_set st.tracker r.gen r) r.gen,
                    cache := st.cache ++
                      [((parent.person_id, parent.person_id),
                        st.ft.next_family_id)],
                    families_seen :=
                      insert st.ft.next_family_id st.families_seen,
                    children_seen :=
                      if st.ft.next_child_id ≠ 0 then
                        insert st.ft.next_child_id st.children_seen
                      else st.children_seen } := by
                simp [pass2_step, hperson, hsp, hgen, htr, hsl, hcache,
                  pass2_single, pass2_child, hop, hchild, hnf,
                  single_new_id, child_new_id]
              rw [hstep] at hFf hΔf hFc hΔc
              have hrepf := @ensure_replay persons F src parent.person_id
                (fam_key_args src r (parent.person_id, parent.person_id)
                  (p_apx persons parent.person_id))
                st.ft.families Δf st.ft.next_family_id hFf hsingle hwf.1 hΔf
              have hrepc := @child_replay F st.ft.next_family_id r.person_id
                ⟨some (child_link_key src r.page_index r.line_index
                  r.person_id st.ft.next_family_id),
                 some (person.approx.getD false), some r.page_index⟩
                st.ft.children Δc
                (child_new
                  { st.ft with
                    families := st.ft.families ++
                      [single_new persons src parent.person_id
                        (fam_key_args src r
                          (parent.person_id, parent.person_id)
                          (p_apx persons parent.person_id))
                        st.ft.next_family_id],
                    next_family_id := st.ft.next_family_id + 1 }
                  st.ft.next_family_id r.person_id
                  ⟨some (child_link_key src r.page_index r.line_index
                    r.person_id st.ft.next_family_id),
                   some (person.approx.getD false), some r.page_index⟩)
                st.ft.next_child_id hFc (child_new_id _ _ _ _)
                (child_pred_self _ _ _ _) child_updates_noop hccfind
                hwf.2.2.1 hΔc
              rw [hstep]
              simp [pass2_step, hperson, hsp, hgen, htr, hsl, hcache,
                pass2_single, pass2_child, hrepf, hrepc, hnf,
                single_new_id, child_new_id]
      · have hstep : pass2_step persons src all st r =
            { st with tracker :=
                tr_drop_deeper (tr_set st.tracker r.gen r) r.gen } := by
          simp [pass2_step, hperson, hsp, hgen]
        rw [hstep]
        simp [pass2_step, hperson, hsp, hgen]

/-- Replaying the whole pass-2 fold, starting from the final family table
of a first run (with a fresh tracker, cache and seen-sets), reproduces the
first run's final state exactly. -/
theorem pass2_replay (persons : List PersonR) (src : Nat)
    (all : List PRecord) :
    ∀ (todo : List PRecord) (st : Pass2State) (P : List Nat),
      pass2_wf P st → (∀ r ∈ todo, r.person_id ∉ P) →
      (todo.map PRecord.person_id).Nodup →
      todo.foldl (pass2_step persons src all)
          { st with ft := (todo.foldl (pass2_step persons src all) st).ft } =
        todo.foldl (pass2_step persons src all) st := by
  intro todo
  induction todo with
  | nil =>
    intro st P _ _ _
    rfl
  | cons r rest ih =>
    intro st P hwf hfr hnd
    have hfresh : r.person_id ∉ P := hfr r (List.mem_cons_self _ _)
    have hwf1 : pass2_wf (P ++ [r.person_id])
        (pass2_step persons src all st r) :=
      pass2_step_preserves hwf hfresh
    have hnd' : (∀ x ∈ rest, ¬x.person_id = r.person_id) ∧
        (rest.map PRecord.person_id).Nodup := by simpa using hnd
    have hfr1 : ∀ x ∈ rest, x.person_id ∉ P ++ [r.person_id] := by
      intro x hx hmem
      rcases List.mem_append.mp hmem with h1 | h2
      · exact hfr x (List.mem_cons_of_mem _ hx) h1
      · exact hnd'.1 x hx (List.mem_singleton.mp h2)
    obtain ⟨Δf, Δc, h2f, h2fi, h2c, h2ci⟩ :=
      pass2_future persons src all rest (pass2_step persons src all st r)
        (P ++ [r.person_id]) hwf1 hfr1 hnd'.2
    have hstep2 := pass2_step_replay persons src all st r P
      ((rest.foldl (pass2_step persons src all)
        (pass2_step persons src all st r)).ft) Δf Δc hwf hfresh
      h2f h2fi h2c h2ci
    simp only [List.foldl_cons]
    rw [hstep2]
    exact ih (pass2_step persons src all st r) (P ++ [r.person_id])
      hwf1 hfr1 hnd'.2

/-- Running `build_relationships_pass2` a second time, over the same
person list and record list, starting from the family table its first run
(from an empty family table) produced, reproduces the first run's family
table and seen-sets exactly. -/
theorem build2_replay (persons : List PersonR) (src : Nat)
    (records : List PRecord)
    (hnd : (records.map PRecord.person_id).Nodup) :
    build_relationships_pass2 persons src records
        (build_relationships_pass2 persons src records empty_ft).1 =
      build_relationships_pass2 persons src records empty_ft := by
  have hwf0 : pass2_wf [] ⟨empty_ft, [], [], ∅, ∅⟩ := by
    refine ⟨?_, ?_, ?_, ?_, ?_, ?_⟩ <;> simp [empty_ft]
  have hfr : ∀ r ∈ records, r.person_id ∉ ([] : List Nat) := by simp
  have h := pass2_replay persons src records records
    ⟨empty_ft, [], [], ∅, ∅⟩ [] hwf0 hfr hnd
  have h' : records.foldl (pass2_step persons src records)
      (⟨(records.foldl (pass2_step persons src records)
          ⟨empty_ft, [], [], ∅, ∅⟩).ft, [], [], ∅, ∅⟩ : Pass2State) =
      records.foldl (pass2_step persons src records)
        ⟨empty_ft, [], [], ∅, ∅⟩ := h
  simp only [build_relationships_pass2]
  rw [h']

/-- The `jellyfish.metaphone` codes of the given names appearing in the
C2 counterexample: `z` codes to `S`, non-initial vowels are dropped, `d`
to `T`, `b` to `B`, an `x` run (doubled letters collapse) to `KS` — so
`Zeb ↦ SB`, `Zed ↦ ST`, `Zedxx ↦ STKS`, `Zedxxxx ↦ STKS`.  In particular
the codes of `Zed` and `Zeb` differ, so no phonetic match rescues the
second run below. -/
def c2_mp : String → String
  | "Zeb" => "SB"
  | "Zed" => "ST"
  | "Zedxx" => "STKS"
  | "Zedxxxx" => "STKS"
  | _ => ""

/-- C2 counterexample.  The engine is not idempotent on reprocessing: a
fuzzy merge overwrites the stored `normalized_given` with the sighting's
value, so after a chain of merges (`Zed`, `Zedxx`, `Zedxxxx` all merging
into a stored `Zeb` record) the stored code drifts to `zedxxxx`.  On the
second run the first sighting `Zed` no longer edit-matches the drifted
record (distance 4) and its metaphone code `ST` differs from the stored
given's `SB`, so a brand-new person row is created: the people count
changes from 1 to 2 and the stored person records change. -/
theorem C2_counterexample :
    (parse_ocr_text c2_mp
      (⟨[⟨1, 1, "Zeb SMITH", some "Zeb", some "SMITH", none, none, none, none,
         none, some ⟨7, 9, 9, "old line"⟩, none, some 7, some 9, some 9,
         some "zeb", some "smith", none⟩], 2⟩ : PersonTable) empty_ft 7
      ["1-- Zed SMITH\n1-- Zedxx SMITH\n1-- Zedxxxx SMITH"]
      none).stats.people = 1 ∧
    (parse_ocr_text c2_mp
      (parse_ocr_text c2_mp
        (⟨[⟨1, 1, "Zeb SMITH", some "Zeb", some "SMITH", none, none, none,
           none, none, some ⟨7, 9, 9, "old line"⟩, none, some 7, some 9,
           some 9, some "zeb", some "smith", none⟩], 2⟩ : PersonTable)
        empty_ft 7 ["1-- Zed SMITH\n1-- Zedxx SMITH\n1-- Zedxxxx SMITH"]
        none).pt
      (parse_ocr_text c2_mp
        (⟨[⟨1, 1, "Zeb SMITH", some "Zeb", some "SMITH", none, none, none,
           none, none, some ⟨7, 9, 9, "old line"⟩, none, some 7, some 9,
           some 9, some "zeb", some "smith", none⟩], 2⟩ : PersonTable)
        empty_ft 7 ["1-- Zed SMITH\n1-- Zedxx SMITH\n1-- Zedxxxx SMITH"]
        none).ft 7
      ["1-- Zed SMITH\n1-- Zedxx SMITH\n1-- Zedxxxx SMITH"]
      none).stats.people = 2 := by
  constructor
  · rfl
  · rfl

/-- C2 (amended): reprocessing idempotence holds for a run from empty
tables in which every sighting creates a new person record (no sighting
resolves, by fingerprint or fuzzily, to an already stored record): running
`parse_ocr_text` a second time on the identical page text for the same
source, starting from the person and family tables the first run left,
reproduces the first run's output exactly — the same person, family and
child-link counts, the same flagged lines, and unchanged stored
records. -/
theorem C2_idempotent_reprocess (mp : String → String) (src : Nat)
    (pages : List String) (pis : Option (List Nat))
    (hnew : pass1_all_new mp src empty_pt none (iter_lines pages pis) = true) :
    parse_ocr_text mp (parse_ocr_text mp empty_pt empty_ft src pages pis).pt
        (parse_ocr_text mp empty_pt empty_ft src pages pis).ft src pages pis =
      parse_ocr_text mp empty_pt empty_ft src pages pis := by
  have hwf0 : pt_wf empty_pt := ⟨by simp [empty_pt], by simp [empty_pt]⟩
  have hrepl := pass1_replay mp src (iter_lines pages pis) empty_pt none
    hwf0 hnew
  have hids := pass1_records_ids mp src (iter_lines pages pis) empty_pt none
    hwf0 hnew
  have hb := build2_replay
    (pass1_go mp src empty_pt none (iter_lines pages pis)).pt.persons src
    (pass1_go mp src empty_pt none (iter_lines pages pis)).records hids.2
  simp only [parse_ocr_text, extract_persons_pass1]
  rw [hrepl, hb]

/-- Witness for the amended C2 theorem at a concrete all-new input (a
principal with a spouse and a child, creating one family and one child
link). -/
theorem C2_witness :
    pass1_all_new (fun s => s) 7 empty_pt none
      (iter_lines ["1-- Albert SMITH\nsp- Bonnie JONES\n2-- Cyrus SMITH"]
        none) = true ∧
    parse_ocr_text (fun s => s)
        (parse_ocr_text (fun s => s) empty_pt empty_ft 7
          ["1-- Albert SMITH\nsp- Bonnie JONES\n2-- Cyrus SMITH"] none).pt
        (parse_ocr_text (fun s => s) empty_pt empty_ft 7
          ["1-- Albert SMITH\nsp- Bonnie JONES\n2-- Cyrus SMITH"] none).ft 7
        ["1-- Albert SMITH\nsp- Bonnie JONES\n2-- Cyrus SMITH"] none =
      parse_ocr_text (fun s => s) empty_pt empty_ft 7
        ["1-- Albert SMITH\nsp- Bonnie JONES\n2-- Cyrus SMITH"] none :=
  ⟨by decide, C2_idempotent_reprocess (fun s => s) 7
    ["1-- Albert SMITH\nsp- Bonnie JONES\n2-- Cyrus SMITH"] none (by decide)⟩

end Genealogy
